import Mathlib

/-!
# Verification of the beanmachine BMG type lattice, graph builder and requirements fixer

This development gives a shallow embedding of:

* `src/src/beanmachine/ppl/compiler/bmg_types.py` — the BMG type lattice,
  the supremum operation, the `type_of_value` classifier and the
  `Requirement` abstraction (embedded in namespace `BMGTypes`);
* `src/beanmachine/ppl/utils/bm_graph_builder.py` — the graph builder of
  the utils layer, with Python object-identity semantics made explicit via
  an allocation heap (namespace `UtilsBuilder`);
* `src/src/beanmachine/ppl/compiler/fix_requirements.py` — the
  requirements-fixing pass (namespace `Fixer`).  The node model
  (`bmg_nodes.py`), the compiler graph builder, the error report and the
  edge-label table are imported by `fix_requirements.py` but are not part
  of the provided sources; those parts are modelled from the spec and are
  marked as such in their doc comments.

Machine integers do not occur; Python floats are modelled as rationals
(the classifier only compares values against integers, `0` and `1`, for
which rational arithmetic is faithful on all inputs considered here).
-/

namespace BMGTypes

/-- The element kinds of `bmg_types.py` (`BMGElementType` instances
`bool_element`, `natural_element`, ...). -/
inductive BMGElementType where
  | bool_element
  | natural_element
  | probability_element
  | positive_real_element
  | negative_real_element
  | real_element
deriving DecidableEq, Repr

/-- `short_name` of an element type, as set at its construction site. -/
def BMGElementType.short_name : BMGElementType → String
  | .bool_element => "B"
  | .natural_element => "N"
  | .probability_element => "P"
  | .positive_real_element => "R+"
  | .negative_real_element => "R-"
  | .real_element => "R"

/-- `long_name` of an element type, as set at its construction site. -/
def BMGElementType.long_name : BMGElementType → String
  | .bool_element => "bool"
  | .natural_element => "natural"
  | .probability_element => "probability"
  | .positive_real_element => "positive real"
  | .negative_real_element => "negative real"
  | .real_element => "real"

/-- The nine matrix classes of `bmg_types.py`.  In the source each is a
Python class; because every class is memoized on `(rows, columns)`, a
matrix type is determined by its class together with its dimensions, so
reference equality of the interned instances coincides with structural
equality of `(class, rows, columns)`. -/
inductive MatrixClass where
  | BooleanMatrix
  | NaturalMatrix
  | ProbabilityMatrix
  | PositiveRealMatrix
  | NegativeRealMatrix
  | RealMatrix
  | SimplexMatrix
  | OneHotMatrix
  | ZeroMatrix
deriving DecidableEq, Repr, Fintype

/-- A BMG lattice type: the `bottom` marker, the `Tensor` and `Malformed`
markers, or a matrix type `(class, rows, columns)`. -/
inductive BMGLatticeType where
  | bottom
  | Tensor
  | Malformed
  | matrix (cls : MatrixClass) (rows columns : Nat)
deriving DecidableEq, Repr

open BMGLatticeType MatrixClass

/-- `One = OneHotMatrix(1, 1)` -/
def One : BMGLatticeType := matrix OneHotMatrix 1 1
/-- `Zero = ZeroMatrix(1, 1)` -/
def Zero : BMGLatticeType := matrix ZeroMatrix 1 1
/-- `Boolean = BooleanMatrix(1, 1)` -/
def Boolean : BMGLatticeType := matrix BooleanMatrix 1 1
/-- `Natural = NaturalMatrix(1, 1)` -/
def Natural : BMGLatticeType := matrix NaturalMatrix 1 1
/-- `Probability = ProbabilityMatrix(1, 1)` -/
def Probability : BMGLatticeType := matrix ProbabilityMatrix 1 1
/-- `PositiveReal = PositiveRealMatrix(1, 1)` -/
def PositiveReal : BMGLatticeType := matrix PositiveRealMatrix 1 1
/-- `NegativeReal = NegativeRealMatrix(1, 1)` -/
def NegativeReal : BMGLatticeType := matrix NegativeRealMatrix 1 1
/-- `Real = RealMatrix(1, 1)` -/
def Real : BMGLatticeType := matrix RealMatrix 1 1
/-- `top = Malformed` -/
def top : BMGLatticeType := Malformed

/-- The 9×9 table built by `_lookup()` in `bmg_types.py`, keyed by the
pair of matrix classes of the two operands; the resulting class is applied
to the common `(rows, columns)` by `_supremum`.  Transcribed entry by
entry from the source (lines 409–491). -/
def _lookup : MatrixClass → MatrixClass → MatrixClass
  | RealMatrix, RealMatrix => RealMatrix
  | RealMatrix, PositiveRealMatrix => RealMatrix
  | RealMatrix, NegativeRealMatrix => RealMatrix
  | RealMatrix, ProbabilityMatrix => RealMatrix
  | RealMatrix, SimplexMatrix => RealMatrix
  | RealMatrix, NaturalMatrix => RealMatrix
  | RealMatrix, BooleanMatrix => RealMatrix
  | RealMatrix, OneHotMatrix => RealMatrix
  | RealMatrix, ZeroMatrix => RealMatrix
  | PositiveRealMatrix, RealMatrix => RealMatrix
  | PositiveRealMatrix, PositiveRealMatrix => PositiveRealMatrix
  | PositiveRealMatrix, NegativeRealMatrix => RealMatrix
  | PositiveRealMatrix, ProbabilityMatrix => PositiveRealMatrix
  | PositiveRealMatrix, SimplexMatrix => PositiveRealMatrix
  | PositiveRealMatrix, NaturalMatrix => PositiveRealMatrix
  | PositiveRealMatrix, BooleanMatrix => PositiveRealMatrix
  | PositiveRealMatrix, OneHotMatrix => PositiveRealMatrix
  | PositiveRealMatrix, ZeroMatrix => PositiveRealMatrix
  | NegativeRealMatrix, RealMatrix => RealMatrix
  | NegativeRealMatrix, PositiveRealMatrix => RealMatrix
  | NegativeRealMatrix, NegativeRealMatrix => NegativeRealMatrix
  | NegativeRealMatrix, ProbabilityMatrix => RealMatrix
  | NegativeRealMatrix, SimplexMatrix => RealMatrix
  | NegativeRealMatrix, NaturalMatrix => RealMatrix
  | NegativeRealMatrix, BooleanMatrix => RealMatrix
  | NegativeRealMatrix, OneHotMatrix => RealMatrix
  | NegativeRealMatrix, ZeroMatrix => NegativeRealMatrix
  | ProbabilityMatrix, RealMatrix => RealMatrix
  | ProbabilityMatrix, PositiveRealMatrix => PositiveRealMatrix
  | ProbabilityMatrix, NegativeRealMatrix => RealMatrix
  | ProbabilityMatrix, ProbabilityMatrix => ProbabilityMatrix
  | ProbabilityMatrix, SimplexMatrix => ProbabilityMatrix
  | ProbabilityMatrix, NaturalMatrix => PositiveRealMatrix
  | ProbabilityMatrix, BooleanMatrix => ProbabilityMatrix
  | ProbabilityMatrix, OneHotMatrix => ProbabilityMatrix
  | ProbabilityMatrix, ZeroMatrix => ProbabilityMatrix
  | SimplexMatrix, RealMatrix => RealMatrix
  | SimplexMatrix, PositiveRealMatrix => PositiveRealMatrix
  | SimplexMatrix, NegativeRealMatrix => RealMatrix
  | SimplexMatrix, ProbabilityMatrix => ProbabilityMatrix
  | SimplexMatrix, SimplexMatrix => SimplexMatrix
  | SimplexMatrix, NaturalMatrix => PositiveRealMatrix
  | SimplexMatrix, BooleanMatrix => PositiveRealMatrix
  | SimplexMatrix, OneHotMatrix => SimplexMatrix
  | SimplexMatrix, ZeroMatrix => RealMatrix
  | NaturalMatrix, RealMatrix => RealMatrix
  | NaturalMatrix, PositiveRealMatrix => PositiveRealMatrix
  | NaturalMatrix, NegativeRealMatrix => RealMatrix
  | NaturalMatrix, ProbabilityMatrix => PositiveRealMatrix
  | NaturalMatrix, SimplexMatrix => PositiveRealMatrix
  | NaturalMatrix, NaturalMatrix => NaturalMatrix
  | NaturalMatrix, BooleanMatrix => NaturalMatrix
  | NaturalMatrix, OneHotMatrix => NaturalMatrix
  | NaturalMatrix, ZeroMatrix => NaturalMatrix
  | BooleanMatrix, RealMatrix => RealMatrix
  | BooleanMatrix, PositiveRealMatrix => PositiveRealMatrix
  | BooleanMatrix, NegativeRealMatrix => RealMatrix
  | BooleanMatrix, ProbabilityMatrix => ProbabilityMatrix
  | BooleanMatrix, SimplexMatrix => ProbabilityMatrix
  | BooleanMatrix, NaturalMatrix => NaturalMatrix
  | BooleanMatrix, BooleanMatrix => BooleanMatrix
  | BooleanMatrix, OneHotMatrix => BooleanMatrix
  | BooleanMatrix, ZeroMatrix => BooleanMatrix
  | OneHotMatrix, RealMatrix => RealMatrix
  | OneHotMatrix, PositiveRealMatrix => PositiveRealMatrix
  | OneHotMatrix, NegativeRealMatrix => RealMatrix
  | OneHotMatrix, ProbabilityMatrix => ProbabilityMatrix
  | OneHotMatrix, SimplexMatrix => SimplexMatrix
  | OneHotMatrix, NaturalMatrix => NaturalMatrix
  | OneHotMatrix, BooleanMatrix => BooleanMatrix
  | OneHotMatrix, OneHotMatrix => OneHotMatrix
  | OneHotMatrix, ZeroMatrix => BooleanMatrix
  | ZeroMatrix, RealMatrix => RealMatrix
  | ZeroMatrix, PositiveRealMatrix => PositiveRealMatrix
  | ZeroMatrix, NegativeRealMatrix => NegativeRealMatrix
  | ZeroMatrix, ProbabilityMatrix => ProbabilityMatrix
  | ZeroMatrix, SimplexMatrix => SimplexMatrix
  | ZeroMatrix, NaturalMatrix => NaturalMatrix
  | ZeroMatrix, BooleanMatrix => BooleanMatrix
  | ZeroMatrix, OneHotMatrix => BooleanMatrix
  | ZeroMatrix, ZeroMatrix => ZeroMatrix

/-- `_supremum(t, u)` from `bmg_types.py` (lines 495–515): the smallest
type greater than or equal to both, per the source's rule order: equal
operands, `bottom`, `top`/`Malformed`, `Tensor`, mismatched dimensions,
then the `_lookup` table on the matrix classes.  The final catch-all is
unreachable (the source asserts both operands are matrix types there). -/
def _supremum (t u : BMGLatticeType) : BMGLatticeType :=
  if t = u then t
  else if t = bottom then u
  else if u = bottom then t
  else if t = top ∨ u = top then top
  else if t = Tensor ∨ u = Tensor then Tensor
  else
    match t, u with
    | matrix ct rt colt, matrix cu ru colu =>
        if rt ≠ ru ∨ colt ≠ colu then Tensor
        else matrix (_lookup ct cu) rt colt
    | _, _ => Malformed

/-- `supremum(*ts)` from `bmg_types.py`: fold `_supremum` starting from
`bottom`. -/
def supremum (ts : List BMGLatticeType) : BMGLatticeType :=
  ts.foldl _supremum bottom

/-- A requirement is either an exact bound — in the source, the unwrapped
`BMGLatticeType` itself — or an `UpperBound` wrapper around a type. -/
inductive Requirement where
  | exactly (t : BMGLatticeType)
  | UpperBound (t : BMGLatticeType)
deriving DecidableEq, Repr

/-- `upper_bound(bound)` from `bmg_types.py`: wrap a type in an upper
bound; an `UpperBound` is returned unchanged. -/
def upper_bound : Requirement → Requirement
  | .exactly t => .UpperBound t
  | .UpperBound t => .UpperBound t

/-- `meets_requirement(t, r)` from `bmg_types.py` (lines 671–677):
a malformed node meets no requirement; an upper bound `u` is met when
`sup(t, u) == u`; an exact bound is met by the type itself only. -/
def meets_requirement (t : BMGLatticeType) (r : Requirement) : Bool :=
  if t = Malformed then false
  else
    match r with
    | .UpperBound u => _supremum t u = u
    | .exactly u => t = u

/-- A Python literal value as consumed by `type_of_value`: a `bool`, an
`int`, or a `float` (modelled as a rational; the classifier only compares
the value with integers and with `0` and `1`).  The `torch.Tensor` branch
of the source is outside this embedding: no tensor literals are modelled,
so `_type_of_matrix` does not appear. -/
inductive Value where
  | bool (b : Bool)
  | int (n : Int)
  | float (q : ℚ)
deriving DecidableEq, Repr

/-- The `isinstance(v, int)` arm of `type_of_value`:
`0 → Zero`, `1 → One`, `≥ 2 → Natural`, negative → `NegativeReal`. -/
def type_of_int (n : Int) : BMGLatticeType :=
  if n = 0 then Zero
  else if n = 1 then One
  else if n ≥ 2 then Natural
  else NegativeReal

/-- `type_of_value(v)` from `bmg_types.py` (lines 604–626): the smallest
BMG type a literal fits into.  A `float` equal to an integer defers to the
`int` classification (`v == int(v)` holds exactly when the rational has
denominator 1); otherwise the sign/range tests of the source apply. -/
def type_of_value : Value → BMGLatticeType
  | .bool b => if b then One else Zero
  | .int n => type_of_int n
  | .float q =>
      if q.den = 1 then type_of_int q.num
      else if 0 ≤ q then
        if q ≤ 1 then Probability else PositiveReal
      else NegativeReal

/-! ### The `BroadcastMatrixType` initializer chain (claim C10)

`BMGMatrixType.__init__` stores the `element_type` it is passed.
`BroadcastMatrixType.__init__` computes the display names from its
`element_type` argument but then invokes the superclass initializer with
`bool_element` (source line 135), not with the argument.  The record below
captures exactly the fields assigned by that chain. -/

/-- The fields a `BMGMatrixType` instance ends up with after
`BMGMatrixType.__init__`. -/
structure BMGMatrixTypeFields where
  element_type : BMGElementType
  short_name : String
  long_name : String
  rows : Nat
  columns : Nat
deriving DecidableEq, Repr

/-- `BroadcastMatrixType.__init__(self, element_type, rows, columns)`:
the names are derived from the `element_type` argument, but the field
stored by the superclass call is `bool_element` (line 135 of the source
passes `bool_element` where its own `element_type` argument was
presumably intended). -/
def BroadcastMatrixType.init (element_type : BMGElementType) (rows columns : Nat) :
    BMGMatrixTypeFields :=
  { element_type := .bool_element
    short_name :=
      if rows = 1 ∧ columns = 1 then element_type.short_name
      else "M" ++ element_type.short_name ++ "[" ++ toString rows ++ "," ++
        toString columns ++ "]"
    long_name :=
      if rows = 1 ∧ columns = 1 then element_type.long_name
      else toString rows ++ " x " ++ toString columns ++ " " ++
        element_type.long_name ++ " matrix"
    rows := rows
    columns := columns }

/-- `BooleanMatrix(rows, columns)` initializer. -/
def BooleanMatrix.init (rows columns : Nat) : BMGMatrixTypeFields :=
  BroadcastMatrixType.init .bool_element rows columns

/-- `NaturalMatrix(rows, columns)` initializer. -/
def NaturalMatrix.init (rows columns : Nat) : BMGMatrixTypeFields :=
  BroadcastMatrixType.init .natural_element rows columns

/-- `ProbabilityMatrix(rows, columns)` initializer. -/
def ProbabilityMatrix.init (rows columns : Nat) : BMGMatrixTypeFields :=
  BroadcastMatrixType.init .probability_element rows columns

/-- `PositiveRealMatrix(rows, columns)` initializer. -/
def PositiveRealMatrix.init (rows columns : Nat) : BMGMatrixTypeFields :=
  BroadcastMatrixType.init .positive_real_element rows columns

/-- `NegativeRealMatrix(rows, columns)` initializer. -/
def NegativeRealMatrix.init (rows columns : Nat) : BMGMatrixTypeFields :=
  BroadcastMatrixType.init .negative_real_element rows columns

/-- `RealMatrix(rows, columns)` initializer. -/
def RealMatrix.init (rows columns : Nat) : BMGMatrixTypeFields :=
  BroadcastMatrixType.init .real_element rows columns

/-! ### Theorems about the lattice (claims C2, C3, C8, C10) -/

/-- Claim C2 (failing input).  The supremum operation is **not**
commutative and **not** associative, and the 9×9 element-variant table is
**not** symmetric: evaluating the source's `_supremum` gives
`sup(Simplex, Boolean) = PositiveReal` while
`sup(Boolean, Simplex) = Probability`, and
`sup(Simplex, sup(OneHot, Zero)) = PositiveReal` while
`sup(sup(Simplex, OneHot), Zero) = Real`.  This contradicts the module's
own documentation, under which `supremum` returns *the* least upper bound
in the documented lattice (where both `Simplex` and `Boolean` lie below
`Probability`), so the table entries `(S, B) -> R+` and `(S, Z) -> R` are
slips in the source. -/
theorem supremum_simplex_entries_asymmetric :
    _supremum (matrix SimplexMatrix 1 1) Boolean = PositiveReal ∧
    _supremum Boolean (matrix SimplexMatrix 1 1) = Probability ∧
    _supremum (matrix SimplexMatrix 1 1) Zero = Real ∧
    _supremum Zero (matrix SimplexMatrix 1 1) = matrix SimplexMatrix 1 1 ∧
    _supremum (matrix SimplexMatrix 1 1) Boolean ≠
      _supremum Boolean (matrix SimplexMatrix 1 1) ∧
    _supremum (matrix SimplexMatrix 1 1) (_supremum One Zero) ≠
      _supremum (_supremum (matrix SimplexMatrix 1 1) One) Zero := by
  decide

/-- Claim C3 (counterexample).  The equivalence
`meets(t, UpperBound(u)) ⇔ sup(t, u) == u` fails when quantified over all
types including `t == Malformed`: at `t = u = Malformed` the left side is
`false` (a malformed node meets no requirement) while
`sup(Malformed, Malformed) == Malformed` holds. -/
theorem meets_requirement_malformed_cex :
    meets_requirement Malformed (upper_bound (.exactly Malformed)) = false ∧
    _supremum Malformed Malformed = Malformed := by
  decide

/-- Claim C3 (amended).  For every type `t` other than `Malformed` and
every `u`, `meets(t, UpperBound(u))` holds iff `sup(t, u) == u`; for
`t = Malformed` the requirement is never met (even when
`sup(Malformed, u) == u`, which happens exactly at `u = Malformed`). -/
theorem meets_requirement_upper_bound_iff (t u : BMGLatticeType)
    (h : t ≠ Malformed) :
    (meets_requirement t (.UpperBound u) = true ↔ _supremum t u = u) ∧
    meets_requirement Malformed (.UpperBound u) = false := by
  constructor
  · simp [meets_requirement, h]
  · simp [meets_requirement]

/-- Witness for `meets_requirement_upper_bound_iff` at `t = Boolean`,
`u = Real`. -/
theorem meets_requirement_upper_bound_iff_witness :
    Boolean ≠ Malformed ∧
    ((meets_requirement Boolean (.UpperBound Real) = true ↔
        _supremum Boolean Real = Real) ∧
      meets_requirement Malformed (.UpperBound Real) = false) :=
  ⟨by decide, meets_requirement_upper_bound_iff Boolean Real (by decide)⟩

/-- Claim C8.  `type_of_value` classifies every literal as the smallest
lattice type it fits: `True → OneHot(1,1)`, `False → Zero(1,1)`;
`int 0 → Zero`, `int 1 → OneHot`, `int ≥ 2 → Natural`,
`int < 0 → NegativeReal`; a float equal to an integer (denominator 1) is
classified as that integer, and otherwise `0 < v < 1 → Probability`,
`v > 1 → PositiveReal`, `v < 0 → NegativeReal`. -/
theorem type_of_value_classification :
    type_of_value (.bool true) = One ∧
    type_of_value (.bool false) = Zero ∧
    type_of_value (.int 0) = Zero ∧
    type_of_value (.int 1) = One ∧
    (∀ n : Int, 2 ≤ n → type_of_value (.int n) = Natural) ∧
    (∀ n : Int, n < 0 → type_of_value (.int n) = NegativeReal) ∧
    (∀ q : ℚ, q.den = 1 → type_of_value (.float q) = type_of_value (.int q.num)) ∧
    (∀ q : ℚ, q.den ≠ 1 → 0 < q → q < 1 → type_of_value (.float q) = Probability) ∧
    (∀ q : ℚ, q.den ≠ 1 → 1 < q → type_of_value (.float q) = PositiveReal) ∧
    (∀ q : ℚ, q.den ≠ 1 → q < 0 → type_of_value (.float q) = NegativeReal) := by
  refine ⟨rfl, rfl, rfl, rfl, ?_, ?_, ?_, ?_, ?_, ?_⟩
  · intro n h
    simp only [type_of_value, type_of_int]
    rw [if_neg (by omega), if_neg (by omega), if_pos h]
  · intro n h
    simp only [type_of_value, type_of_int]
    rw [if_neg (by omega), if_neg (by omega), if_neg (by omega)]
  · intro q h
    simp [type_of_value, h]
  · intro q h h0 h1
    simp only [type_of_value]
    rw [if_neg h, if_pos (le_of_lt h0), if_pos (le_of_lt h1)]
  · intro q h h1
    simp only [type_of_value]
    rw [if_neg h, if_pos (by linarith), if_neg (by linarith)]
  · intro q h h0
    simp only [type_of_value]
    rw [if_neg h, if_neg (by linarith)]

/-- Witness for `type_of_value_classification`: its quantified conjuncts
applied at `n = 5`, `n = -3`, `q = 7/2`, `q = 1/2`, `q = 7/2` and
`q = -1/2`. -/
theorem type_of_value_classification_witness :
    type_of_value (.int 5) = Natural ∧
    type_of_value (.int (-3)) = NegativeReal ∧
    type_of_value (.float ((7 : ℚ) / 2)) = PositiveReal ∧
    type_of_value (.float ((1 : ℚ) / 2)) = Probability ∧
    type_of_value (.float (-(1 : ℚ) / 2)) = NegativeReal ∧
    type_of_value (.float (3 : ℚ)) = type_of_value (.int (3 : ℚ).num) :=
  ⟨type_of_value_classification.2.2.2.2.1 5 (by norm_num),
   type_of_value_classification.2.2.2.2.2.1 (-3) (by norm_num),
   type_of_value_classification.2.2.2.2.2.2.2.2.1 ((7 : ℚ) / 2) (by norm_num)
     (by norm_num),
   type_of_value_classification.2.2.2.2.2.2.2.1 ((1 : ℚ) / 2) (by norm_num)
     (by norm_num) (by norm_num),
   type_of_value_classification.2.2.2.2.2.2.2.2.2 (-(1 : ℚ) / 2) (by norm_num)
     (by norm_num),
   type_of_value_classification.2.2.2.2.2.2.1 (3 : ℚ) (by norm_num)⟩

/-- Claim C10.  Every `BroadcastMatrixType` instance — in particular every
`BooleanMatrix`, `NaturalMatrix`, `ProbabilityMatrix`,
`PositiveRealMatrix`, `NegativeRealMatrix` and `RealMatrix` instance —
stores `bool_element` in its `element_type` field regardless of the
`element_type` argument passed to the constructor; the element kind is
reflected only in the display names (and hence the class), never in the
`element_type` field. -/
theorem broadcast_matrix_element_type_is_bool :
    (∀ et : BMGElementType, ∀ rows columns : Nat,
      (BroadcastMatrixType.init et rows columns).element_type = .bool_element) ∧
    (∀ rows columns : Nat,
      (BooleanMatrix.init rows columns).element_type = .bool_element ∧
      (NaturalMatrix.init rows columns).element_type = .bool_element ∧
      (ProbabilityMatrix.init rows columns).element_type = .bool_element ∧
      (PositiveRealMatrix.init rows columns).element_type = .bool_element ∧
      (NegativeRealMatrix.init rows columns).element_type = .bool_element ∧
      (RealMatrix.init rows columns).element_type = .bool_element) :=
  ⟨fun _ _ _ => rfl, fun _ _ => ⟨rfl, rfl, rfl, rfl, rfl, rfl⟩⟩

end BMGTypes

namespace UtilsBuilder

/-!
### The utils-layer graph builder (`src/beanmachine/ppl/utils/bm_graph_builder.py`)

Python node objects have reference semantics: each constructor call
creates a distinct object, and `BMGNode` defines neither `__eq__` nor
`__hash__`, so dictionary membership (`node not in self.nodes`) is object
identity.  We make identity explicit with an allocation heap: a node
object is a heap index, allocated in creation order; two structurally
equal nodes allocated separately are distinct indices.  `TensorNode` is
omitted (torch tensors are outside the embedding).
-/

/-- The node classes of `bm_graph_builder.py` with their constructor
payloads.  Children are stored separately (as heap indices), mirroring
`BMGNode.children`. -/
inductive UVariant where
  | BooleanNode (value : Bool)
  | RealNode (value : ℚ)
  | BernoulliNode
  | AdditionNode
  | MultiplicationNode
  | NegateNode
  | ToRealNode
  | ExpNode
  | SampleNode
  | Observation
  | Query
deriving DecidableEq, Repr

/-- A node object: its class and its `children` list (heap indices). -/
structure UNode where
  variant : UVariant
  children : List Nat
deriving DecidableEq, Repr

/-- The builder state: the allocation heap (all node objects ever
constructed, in creation order) and `BMGraphBuilder.nodes` — a dict from
node object to insertion index, represented as the insertion-ordered list
of heap indices (the dict value of a node is its position in this
list). -/
structure UState where
  heap : List UNode
  nodes : List Nat
deriving DecidableEq, Repr

/-- The `children` list of heap object `n` (empty if `n` is not a valid
object). -/
def childrenOf (s : UState) (n : Nat) : List Nat :=
  (Option.map UNode.children s.heap[n]?).getD []

/-- `BMGraphBuilder.add_node` (lines 295–304): if the node is not in the
map, first add every child recursively, then assign the node the next
index.  Recursion is fuelled; any fuel at least `n + 1` is exact because
children precede their parent in allocation order. -/
def add_node : Nat → UState → Nat → UState
  | 0, s, _ => s
  | fuel + 1, s, n =>
    if n ∈ s.nodes then s
    else
      let s' := (childrenOf s n).foldl (add_node fuel) s
      { s' with nodes := s'.nodes ++ [n] }

/-- Allocate a fresh node object (a Python constructor call). -/
def alloc (s : UState) (node : UNode) : UState × Nat :=
  ({ s with heap := s.heap ++ [node] }, s.heap.length)

/-- `add_real(value)`: construct a fresh `RealNode` and `add_node` it. -/
def add_real (s : UState) (value : ℚ) : UState × Nat :=
  let p := alloc s ⟨.RealNode value, []⟩
  (add_node p.1.heap.length p.1 p.2, p.2)

/-- `add_boolean(value)`. -/
def add_boolean (s : UState) (value : Bool) : UState × Nat :=
  let p := alloc s ⟨.BooleanNode value, []⟩
  (add_node p.1.heap.length p.1 p.2, p.2)

/-- `add_bernoulli(probability)`. -/
def add_bernoulli (s : UState) (probability : Nat) : UState × Nat :=
  let p := alloc s ⟨.BernoulliNode, [probability]⟩
  (add_node p.1.heap.length p.1 p.2, p.2)

/-- `add_addition(left, right)`. -/
def add_addition (s : UState) (left right : Nat) : UState × Nat :=
  let p := alloc s ⟨.AdditionNode, [left, right]⟩
  (add_node p.1.heap.length p.1 p.2, p.2)

/-- `add_multiplication(left, right)`. -/
def add_multiplication (s : UState) (left right : Nat) : UState × Nat :=
  let p := alloc s ⟨.MultiplicationNode, [left, right]⟩
  (add_node p.1.heap.length p.1 p.2, p.2)

/-- `add_negate(operand)`. -/
def add_negate (s : UState) (operand : Nat) : UState × Nat :=
  let p := alloc s ⟨.NegateNode, [operand]⟩
  (add_node p.1.heap.length p.1 p.2, p.2)

/-- `add_to_real(operand)`. -/
def add_to_real (s : UState) (operand : Nat) : UState × Nat :=
  let p := alloc s ⟨.ToRealNode, [operand]⟩
  (add_node p.1.heap.length p.1 p.2, p.2)

/-- `add_exp(operand)`. -/
def add_exp (s : UState) (operand : Nat) : UState × Nat :=
  let p := alloc s ⟨.ExpNode, [operand]⟩
  (add_node p.1.heap.length p.1 p.2, p.2)

/-- `add_sample(operand)`. -/
def add_sample (s : UState) (operand : Nat) : UState × Nat :=
  let p := alloc s ⟨.SampleNode, [operand]⟩
  (add_node p.1.heap.length p.1 p.2, p.2)

/-- `add_observation(observed, value)`. -/
def add_observation (s : UState) (observed value : Nat) : UState × Nat :=
  let p := alloc s ⟨.Observation, [observed, value]⟩
  (add_node p.1.heap.length p.1 p.2, p.2)

/-- `add_query(operator)`. -/
def add_query (s : UState) (operator : Nat) : UState × Nat :=
  let p := alloc s ⟨.Query, [operator]⟩
  (add_node p.1.heap.length p.1 p.2, p.2)

/-- One client call to the builder.  The `Nat` arguments stand for node
objects returned by earlier calls; a call whose argument does not denote
an existing object has no Python counterpart and is skipped. -/
inductive UOp where
  | real (value : ℚ)
  | boolean (value : Bool)
  | bernoulli (probability : Nat)
  | addition (left right : Nat)
  | multiplication (left right : Nat)
  | negate (operand : Nat)
  | to_real (operand : Nat)
  | exp (operand : Nat)
  | sample (operand : Nat)
  | observation (observed value : Nat)
  | query (operator : Nat)
deriving DecidableEq, Repr

/-- Apply one builder call, guarding argument validity. -/
def run_op (s : UState) : UOp → UState
  | .real v => (add_real s v).1
  | .boolean v => (add_boolean s v).1
  | .bernoulli p => if p < s.heap.length then (add_bernoulli s p).1 else s
  | .addition l r =>
      if l < s.heap.length ∧ r < s.heap.length then (add_addition s l r).1 else s
  | .multiplication l r =>
      if l < s.heap.length ∧ r < s.heap.length then (add_multiplication s l r).1 else s
  | .negate o => if o < s.heap.length then (add_negate s o).1 else s
  | .to_real o => if o < s.heap.length then (add_to_real s o).1 else s
  | .exp o => if o < s.heap.length then (add_exp s o).1 else s
  | .sample o => if o < s.heap.length then (add_sample s o).1 else s
  | .observation o v =>
      if o < s.heap.length ∧ v < s.heap.length then (add_observation s o v).1 else s
  | .query o => if o < s.heap.length then (add_query s o).1 else s

/-- The empty builder. -/
def emptyState : UState := ⟨[], []⟩

/-- Run a sequence of builder calls from the empty builder. -/
def run_ops (ops : List UOp) : UState :=
  ops.foldl run_op emptyState

/-- Heap well-formedness: every object's children were allocated before
it.  Every state produced by the factory methods satisfies this because a
constructor can only receive already-constructed objects. -/
def HeapWF (s : UState) : Prop :=
  ∀ (i : Nat) (node : UNode), s.heap[i]? = some node → ∀ c ∈ node.children, c < i

/-- The builder invariant of claim C9: every inserted node's children are
inserted, at a strictly smaller insertion index; the map is duplicate-free
and mentions only allocated objects. -/
def Inv (s : UState) : Prop :=
  (∀ n ∈ s.nodes, n < s.heap.length) ∧
  s.nodes.Nodup ∧
  (∀ n ∈ s.nodes, ∀ c ∈ childrenOf s n,
    c ∈ s.nodes ∧ s.nodes.indexOf c < s.nodes.indexOf n)

end UtilsBuilder

namespace UtilsBuilder

theorem childrenOf_heap_eq {s s' : UState} (h : s'.heap = s.heap) (n : Nat) :
    childrenOf s' n = childrenOf s n := by
  simp [childrenOf, h]

theorem add_node_mem (f : Nat) (s : UState) (n : Nat) (h : n ∈ s.nodes) :
    add_node f s n = s := by
  cases f with
  | zero => rfl
  | succ f => simp [add_node, h]

theorem add_node_not_mem (f : Nat) (s : UState) (n : Nat) (h : n ∉ s.nodes) :
    add_node (f + 1) s n =
      { (childrenOf s n).foldl (add_node f) s with
        nodes := ((childrenOf s n).foldl (add_node f) s).nodes ++ [n] } := by
  simp [add_node, h]

theorem add_node_spec : ∀ (f : Nat) (s : UState) (n : Nat),
    HeapWF s → Inv s → n < s.heap.length → n < f →
    (add_node f s n).heap = s.heap ∧
    Inv (add_node f s n) ∧
    n ∈ (add_node f s n).nodes ∧
    s.nodes <+: (add_node f s n).nodes ∧
    (∀ m ∈ (add_node f s n).nodes, m ∈ s.nodes ∨ m ≤ n) := by
  intro f
  induction f with
  | zero => intro s n _ _ _ hlt; omega
  | succ f ih =>
    intro s n hwf hinv hn hlt
    by_cases hmem : n ∈ s.nodes
    · rw [add_node_mem _ _ _ hmem]
      exact ⟨rfl, hinv, hmem, List.prefix_refl _, fun m hm => Or.inl hm⟩
    · have hfold : ∀ (cs : List Nat), (∀ c ∈ cs, c < n) → ∀ (st : UState),
          st.heap = s.heap → Inv st →
          (cs.foldl (add_node f) st).heap = s.heap ∧
          Inv (cs.foldl (add_node f) st) ∧
          (∀ c ∈ cs, c ∈ (cs.foldl (add_node f) st).nodes) ∧
          st.nodes <+: (cs.foldl (add_node f) st).nodes ∧
          (∀ m ∈ (cs.foldl (add_node f) st).nodes, m ∈ st.nodes ∨ m < n) := by
        intro cs
        induction cs with
        | nil =>
          intro _ st hh hi
          exact ⟨hh, hi, by simp, List.prefix_refl _, fun m hm => Or.inl hm⟩
        | cons c cs ihc =>
          intro hcs st hh hi
          have hc : c < n := hcs c (List.mem_cons_self c cs)
          have hwf' : HeapWF st := by
            intro i node hget
            rw [hh] at hget
            exact hwf i node hget
          have hcl : c < st.heap.length := by rw [hh]; omega
          have h1 := ih st c hwf' hi hcl (by omega)
          rw [List.foldl_cons]
          have h2 := ihc (fun x hx => hcs x (List.mem_cons_of_mem c hx))
            (add_node f st c) (by rw [h1.1, hh]) h1.2.1
          refine ⟨h2.1, h2.2.1, ?_, ?_, ?_⟩
          · intro x hx
            rcases List.mem_cons.mp hx with hx | hx
            · subst hx
              exact h2.2.2.2.1.subset h1.2.2.1
            · exact h2.2.2.1 x hx
          · exact h1.2.2.2.1.trans h2.2.2.2.1
          · intro m hm
            rcases h2.2.2.2.2 m hm with hm' | hm'
            · rcases h1.2.2.2.2 m hm' with hm'' | hm''
              · exact Or.inl hm''
              · exact Or.inr (by omega)
            · exact Or.inr hm'
      have hch : ∀ c ∈ childrenOf s n, c < n := by
        intro c hc
        cases hget : s.heap[n]? with
        | none => simp [childrenOf, hget] at hc
        | some node =>
          exact hwf n node hget c (by simpa [childrenOf, hget] using hc)
      have hf := hfold (childrenOf s n) hch s rfl hinv
      rw [add_node_not_mem _ _ _ hmem]
      set s' := (childrenOf s n).foldl (add_node f) s with hs'
      have hnotin : n ∉ s'.nodes := by
        intro hcon
        rcases hf.2.2.2.2 n hcon with h | h
        · exact hmem h
        · omega
      refine ⟨hf.1, ⟨?_, ?_, ?_⟩, ?_, ?_, ?_⟩
      · intro m hm
        rcases List.mem_append.mp hm with hm | hm
        · show m < s'.heap.length
          rw [hf.1]
          have := hinv.1
          rcases hf.2.2.2.2 m hm with h | h
          · exact hinv.1 m h
          · omega
        · simp only [List.mem_singleton] at hm
          show m < s'.heap.length
          rw [hf.1]
          omega
      · show (s'.nodes ++ [n]).Nodup
        rw [← List.concat_eq_append]
        exact List.Nodup.concat hnotin hf.2.1.2.1
      · intro m hm c hc
        have hceq : childrenOf { s' with nodes := s'.nodes ++ [n] } m = childrenOf s m :=
          childrenOf_heap_eq hf.1 m
        rw [hceq] at hc
        show c ∈ s'.nodes ++ [n] ∧
          (s'.nodes ++ [n]).indexOf c < (s'.nodes ++ [n]).indexOf m
        rcases List.mem_append.mp hm with hm' | hm'
        · have hcb := hf.2.1.2.2 m hm' c
          rw [childrenOf_heap_eq hf.1 m] at hcb
          have hres := hcb hc
          refine ⟨List.mem_append.mpr (Or.inl hres.1), ?_⟩
          rw [List.indexOf_append_of_mem hres.1, List.indexOf_append_of_mem hm']
          exact hres.2
        · simp only [List.mem_singleton] at hm'
          subst hm'
          have hcmem : c ∈ s'.nodes := hf.2.2.1 c hc
          refine ⟨List.mem_append.mpr (Or.inl hcmem), ?_⟩
          rw [List.indexOf_append_of_mem hcmem, List.indexOf_append_of_not_mem hnotin]
          simp only [List.indexOf_cons_self, Nat.add_zero]
          exact List.indexOf_lt_length.mpr hcmem
      · exact List.mem_append.mpr (Or.inr (by simp))
      · exact hf.2.2.2.1.trans (List.prefix_append _ _)
      · intro m hm
        rcases List.mem_append.mp hm with hm | hm
        · rcases hf.2.2.2.2 m hm with h | h
          · exact Or.inl h
          · exact Or.inr (by omega)
        · simp only [List.mem_singleton] at hm
          omega

end UtilsBuilder

namespace UtilsBuilder

theorem childrenOf_extend (s : UState) (node : UNode) (m : Nat)
    (h : m < s.heap.length) :
    childrenOf { s with heap := s.heap ++ [node] } m = childrenOf s m := by
  simp only [childrenOf]
  rw [List.getElem?_append, if_pos h]

theorem alloc_extends_wf (s : UState) (node : UNode)
    (hch : ∀ c ∈ node.children, c < s.heap.length) (hwf : HeapWF s) :
    HeapWF { s with heap := s.heap ++ [node] } := by
  intro i nd hget c hc
  by_cases hi : i < s.heap.length
  · rw [List.getElem?_append, if_pos hi] at hget
    exact hwf i nd hget c hc
  · push_neg at hi
    rw [List.getElem?_append_right hi] at hget
    rcases Nat.lt_or_ge (i - s.heap.length) 1 with h1 | h1
    · have : i - s.heap.length = 0 := by omega
      rw [this] at hget
      simp only [List.getElem?_cons_zero, Option.some.injEq] at hget
      subst hget
      have := hch c hc
      omega
    · rw [List.getElem?_eq_none (by simp; omega)] at hget
      exact absurd hget (by simp)

theorem alloc_preserves_inv (s : UState) (node : UNode) (hinv : Inv s) :
    Inv { s with heap := s.heap ++ [node] } := by
  refine ⟨?_, hinv.2.1, ?_⟩
  · intro m hm
    have := hinv.1 m hm
    simp only [List.length_append, List.length_singleton]
    omega
  · intro m hm c hc
    rw [childrenOf_extend s node m (hinv.1 m hm)] at hc
    exact hinv.2.2 m hm c hc

/-- One factory call (`alloc` then `add_node` with exact fuel) preserves
the invariants. -/
theorem factory_preserves (s : UState) (node : UNode)
    (hch : ∀ c ∈ node.children, c < s.heap.length)
    (hwf : HeapWF s) (hinv : Inv s) :
    HeapWF (add_node (s.heap ++ [node]).length { s with heap := s.heap ++ [node] }
      s.heap.length) ∧
    Inv (add_node (s.heap ++ [node]).length { s with heap := s.heap ++ [node] }
      s.heap.length) := by
  have hwf1 := alloc_extends_wf s node hch hwf
  have hinv1 := alloc_preserves_inv s node hinv
  have hlen : s.heap.length < ({ s with heap := s.heap ++ [node] } : UState).heap.length := by
    simp
  have := add_node_spec (s.heap ++ [node]).length { s with heap := s.heap ++ [node] }
    s.heap.length hwf1 hinv1 hlen (by simp)
  constructor
  · intro i nd hget
    rw [this.1] at hget
    exact hwf1 i nd hget
  · exact this.2.1

theorem run_op_preserves (s : UState) (op : UOp)
    (hwf : HeapWF s) (hinv : Inv s) :
    HeapWF (run_op s op) ∧ Inv (run_op s op) := by
  have hone : ∀ (o : Nat), o < s.heap.length → ∀ c ∈ [o], c < s.heap.length := by
    intro o ho c hc
    simp only [List.mem_singleton] at hc
    omega
  have htwo : ∀ (l r : Nat), l < s.heap.length ∧ r < s.heap.length →
      ∀ c ∈ [l, r], c < s.heap.length := by
    intro l r h c hc
    simp only [List.mem_cons, List.mem_singleton] at hc
    rcases hc with rfl | rfl | h'
    · omega
    · omega
    · exact absurd h' (List.not_mem_nil c)
  cases op with
  | real v => exact factory_preserves s ⟨.RealNode v, []⟩ (by simp) hwf hinv
  | boolean v => exact factory_preserves s ⟨.BooleanNode v, []⟩ (by simp) hwf hinv
  | bernoulli p =>
    simp only [run_op]
    split
    · rename_i h
      exact factory_preserves s ⟨.BernoulliNode, [p]⟩ (hone p h) hwf hinv
    · exact ⟨hwf, hinv⟩
  | addition l r =>
    simp only [run_op]
    split
    · rename_i h
      exact factory_preserves s ⟨.AdditionNode, [l, r]⟩ (htwo l r h) hwf hinv
    · exact ⟨hwf, hinv⟩
  | multiplication l r =>
    simp only [run_op]
    split
    · rename_i h
      exact factory_preserves s ⟨.MultiplicationNode, [l, r]⟩ (htwo l r h) hwf hinv
    · exact ⟨hwf, hinv⟩
  | negate o =>
    simp only [run_op]
    split
    · rename_i h
      exact factory_preserves s ⟨.NegateNode, [o]⟩ (hone o h) hwf hinv
    · exact ⟨hwf, hinv⟩
  | to_real o =>
    simp only [run_op]
    split
    · rename_i h
      exact factory_preserves s ⟨.ToRealNode, [o]⟩ (hone o h) hwf hinv
    · exact ⟨hwf, hinv⟩
  | exp o =>
    simp only [run_op]
    split
    · rename_i h
      exact factory_preserves s ⟨.ExpNode, [o]⟩ (hone o h) hwf hinv
    · exact ⟨hwf, hinv⟩
  | sample o =>
    simp only [run_op]
    split
    · rename_i h
      exact factory_preserves s ⟨.SampleNode, [o]⟩ (hone o h) hwf hinv
    · exact ⟨hwf, hinv⟩
  | observation o v =>
    simp only [run_op]
    split
    · rename_i h
      exact factory_preserves s ⟨.Observation, [o, v]⟩ (htwo o v h) hwf hinv
    · exact ⟨hwf, hinv⟩
  | query o =>
    simp only [run_op]
    split
    · rename_i h
      exact factory_preserves s ⟨.Query, [o]⟩ (hone o h) hwf hinv
    · exact ⟨hwf, hinv⟩

theorem run_ops_inv (ops : List UOp) :
    HeapWF (run_ops ops) ∧ Inv (run_ops ops) := by
  suffices h : ∀ (s : UState), HeapWF s → Inv s →
      HeapWF (ops.foldl run_op s) ∧ Inv (ops.foldl run_op s) by
    apply h
    · intro i nd hget; simp [emptyState] at hget
    · exact ⟨by simp [emptyState], by simp [emptyState], by simp [emptyState]⟩
  induction ops with
  | nil => intro s hwf hinv; exact ⟨hwf, hinv⟩
  | cons op ops ihop =>
    intro s hwf hinv
    rw [List.foldl_cons]
    have := run_op_preserves s op hwf hinv
    exact ihop _ this.1 this.2

end UtilsBuilder

namespace UtilsBuilder

/-- Claim C9.  For every sequence of builder calls starting from the empty
builder, every inserted node's children are inserted at strictly smaller
insertion indices: `add_node` inserts all not-yet-inserted children before
appending the parent, so children precede parents in insertion order. -/
theorem children_precede_parents (ops : List UOp) :
    ∀ n ∈ (run_ops ops).nodes, ∀ c ∈ childrenOf (run_ops ops) n,
      c ∈ (run_ops ops).nodes ∧
        (run_ops ops).nodes.indexOf c < (run_ops ops).nodes.indexOf n :=
  (run_ops_inv ops).2.2.2

/-- Witness for `children_precede_parents`: a concrete Bernoulli model
(`boolean`, `bernoulli`, `sample`, `query`); the sample node (index 2) has
the bernoulli node (index 1) as child, inserted earlier. -/
theorem children_precede_parents_witness :
    (2 ∈ (run_ops [.boolean true, .bernoulli 0, .sample 1, .query 2]).nodes ∧
      1 ∈ childrenOf (run_ops [.boolean true, .bernoulli 0, .sample 1, .query 2]) 2) ∧
    (1 ∈ (run_ops [.boolean true, .bernoulli 0, .sample 1, .query 2]).nodes ∧
      (run_ops [.boolean true, .bernoulli 0, .sample 1, .query 2]).nodes.indexOf 1 <
        (run_ops [.boolean true, .bernoulli 0, .sample 1, .query 2]).nodes.indexOf 2) :=
  ⟨⟨by decide, by decide⟩,
    children_precede_parents [.boolean true, .bernoulli 0, .sample 1, .query 2] 2
      (by decide) 1 (by decide)⟩

/-- Claim C5 (counterexample).  Calling `add_real(3.0)` twice does *not*
return the same node twice with a single map entry: the second call at the
concrete input below returns a different node and the map has two
entries. -/
theorem add_real_no_dedup_cex :
    ¬((add_real (add_real emptyState 3).1 3).2 = (add_real emptyState 3).2 ∧
      (add_real (add_real emptyState 3).1 3).1.nodes.length = 1) := by
  decide

/-- Claim C5 (amended).  The utils builder does not intern structurally
equal nodes: each factory call allocates a fresh node object and
`add_node` inserts it, deduplicating only on object identity.  Two
`add_real(3.0)` calls return distinct handles `0` and `1` and insert two
entries; two `add_multiplication` calls on identical operand handles
return distinct handles `2` and `3`; re-adding the *same* node object is a
no-op. -/
theorem builder_is_identity_based :
    (add_real emptyState 3).2 = 0 ∧
    (add_real (add_real emptyState 3).1 3).2 = 1 ∧
    (add_real (add_real emptyState 3).1 3).1.nodes = [0, 1] ∧
    (add_multiplication
      ((add_real (add_real emptyState 3).1 4).1) 0 1).2 = 2 ∧
    (add_multiplication
      (add_multiplication ((add_real (add_real emptyState 3).1 4).1) 0 1).1 0 1).2 = 3 ∧
    (add_multiplication
      (add_multiplication ((add_real (add_real emptyState 3).1 4).1) 0 1).1 0 1).1.nodes =
      [0, 1, 2, 3] ∧
    add_node 2 (add_real emptyState 3).1 0 = (add_real emptyState 3).1 := by
  decide

end UtilsBuilder

namespace Fixer

open BMGTypes BMGTypes.BMGLatticeType BMGTypes.MatrixClass

/-- `bt.Real`, the 1×1 real matrix (shadows Mathlib's real numbers inside
this namespace; the fixer never uses real numbers). -/
def Real : BMGLatticeType := BMGTypes.Real

/-!
### The requirements fixer (`src/src/beanmachine/ppl/compiler/fix_requirements.py`)

`fix_requirements.py` imports `bmg_nodes`, the compiler's
`bm_graph_builder`, `error_report` and `graph_labels`; those modules are
not among the provided sources.  The node model, the builder factories,
the `Violation` record and the edge-label table below are therefore
*modelled from the spec* (sections 3.3, 4.2, 4.3 and 4.5) and are marked
as such; `fix_requirements.py` itself and `bmg_types.py` are transcribed
from the source.

Python recomputes `graph_type`, `inf_type` and `requirements` on demand
from the current inputs.  Here each node carries cached `graph_type` and
`inf_type` fields; the caches are established when a node is created and
refreshed immediately after the only mutation the pass performs (the
rewrite of a visited node's own input slots).  Because a node's inputs
are mutated only while that node is being visited, and every read of
another node's type happens either before any of its inputs changed or
after its visit completed, the cached values agree with Python's
on-demand recomputation at every read.
-/

/-- Modelled from the spec: the node variants of `bmg_nodes.py` used by
the fixer — constants (including typed constants produced by coercion,
which carry their concrete type), the `Bernoulli`, `Beta` and `Binomial`
distributions, the operators, and the terminal `Observation` and `Query`
nodes.  Map nodes (unsupported placeholders) are not modelled. -/
inductive NodeVariant where
  | ConstantNode (value : Value) (ctype : BMGLatticeType)
  | BernoulliNode
  | BetaNode
  | BinomialNode
  | SampleNode
  | AdditionNode
  | MultiplicationNode
  | PowerNode
  | ToRealNode
  | ToPositiveRealNode
  | ToProbabilityNode
  | IfThenElseNode
  | ObservationNode (value : Value)
  | QueryNode
deriving DecidableEq, Repr

/-- Modelled from the spec: a graph node — its variant, its input edges
(handles into the arena), and the cached `graph_type` and `inf_type`. -/
structure NodeData where
  variant : NodeVariant
  inputs : List Nat
  graph_type : BMGLatticeType
  inf_type : BMGLatticeType
deriving DecidableEq, Repr

/-- Modelled from the spec (§4.5): a
`Violation { node, requirement, consumer, edge_label }` record. -/
structure Violation where
  node : Nat
  requirement : Requirement
  consumer : Nat
  edge : String
deriving DecidableEq, Repr

/-- The graph state: the builder's node arena (insertion order = handle
order) and the accumulated `ErrorReport` (purely additive). -/
structure GState where
  nodes : List NodeData
  errors : List Violation
deriving DecidableEq, Repr

/-- The variant of node `n` (out-of-range handles give a `Query`,
which the fixer rejects; such handles never occur in well-formed use). -/
def variantOf (s : GState) (n : Nat) : NodeVariant :=
  ((Option.map NodeData.variant s.nodes[n]?).getD .QueryNode)

/-- The inputs of node `n`. -/
def inputsOf (s : GState) (n : Nat) : List Nat :=
  ((Option.map NodeData.inputs s.nodes[n]?).getD [])

/-- The cached `graph_type` of node `n`. -/
def graphTypeOf (s : GState) (n : Nat) : BMGLatticeType :=
  ((Option.map NodeData.graph_type s.nodes[n]?).getD Malformed)

/-- The cached `inf_type` of node `n`. -/
def infTypeOf (s : GState) (n : Nat) : BMGLatticeType :=
  ((Option.map NodeData.inf_type s.nodes[n]?).getD Malformed)

/-- A 1×1 matrix type (scalar alias) or `Malformed` — the range of every
node's `inf_type` in this model (`type_of_value` only classifies scalar
literals, and the lattice operations preserve 1×1 dimensions). -/
def scalar_or_malformed : BMGLatticeType → Bool
  | .matrix _ 1 1 => true
  | .Malformed => true
  | _ => false

/-- `sup(t, Boolean) == Boolean`: `t` is convertible to `Boolean`. -/
def leqBool (t : BMGLatticeType) : Bool := _supremum t Boolean = Boolean

/-- Modelled from the spec (§4.2): the `graph_type` a node has given the
current `graph_type`s of its inputs — the type it currently has, or
`Malformed` when no legal typing exists.  Addition is typed at
`PositiveReal`/`Real`, multiplication at `Probability`/`PositiveReal`/
`Real` with equal operand types, power needs a `Probability`/
`PositiveReal`/`Real` base and a `PositiveReal`/`Real` exponent,
`IfThenElse` needs a `Boolean` condition and equal branch types, and the
coercions require their operand below their bound.  Observations and
queries are terminal; their type is never consumed. -/
def graph_type_of (v : NodeVariant) (gts : List BMGLatticeType) : BMGLatticeType :=
  match v, gts with
  | .ConstantNode _ t, _ => t
  | .BernoulliNode, _ => Boolean
  | .BetaNode, _ => Probability
  | .BinomialNode, _ => Natural
  | .SampleNode, [d] => d
  | .AdditionNode, [l, r] =>
      if l = r ∧ (l = PositiveReal ∨ l = Real) then l else Malformed
  | .MultiplicationNode, [l, r] =>
      if l = r ∧ (l = Probability ∨ l = PositiveReal ∨ l = Real) then l
      else Malformed
  | .PowerNode, [l, r] =>
      if (l = Probability ∨ l = PositiveReal ∨ l = Real) ∧
         (r = PositiveReal ∨ r = Real) then l
      else Malformed
  | .ToRealNode, [o] => if _supremum o Real = Real then Real else Malformed
  | .ToPositiveRealNode, [o] =>
      if _supremum o PositiveReal = PositiveReal then PositiveReal else Malformed
  | .ToProbabilityNode, [o] =>
      if _supremum o Real = Real then Probability else Malformed
  | .IfThenElseNode, [c, t, a] => if c = Boolean ∧ t = a then t else Malformed
  | .ObservationNode _, [o] => o
  | .QueryNode, [o] => o
  | _, _ => Malformed

/-- Modelled from the spec (§4.1): the `inf_type` of a node — the
smallest type it can be converted to — from the `graph_type`s and
`inf_type`s of its inputs.  Constants classify their value; distributions
have their fixed sample type; a sample has its distribution's `inf_type`;
addition is the supremum of the operand `inf_type`s clamped at
`PositiveReal` (there is no addition on probabilities); multiplication by
a boolean is an `IfThenElse` in disguise, so a boolean operand clamps
only by `Zero`, otherwise the supremum is clamped at `Probability`; a
power is its base clamped at `Probability` (a boolean exponent turns it
into an `IfThenElse` over the base); coercions have their fixed target;
a well-formed `IfThenElse` already has its final type, a malformed one
can reach the supremum of its branch `inf_type`s. -/
def inf_type_of (v : NodeVariant) (gts its : List BMGLatticeType) : BMGLatticeType :=
  match v, gts, its with
  | .ConstantNode value _, _, _ => type_of_value value
  | .BernoulliNode, _, _ => Boolean
  | .BetaNode, _, _ => Probability
  | .BinomialNode, _, _ => Natural
  | .SampleNode, _, [d] => d
  | .AdditionNode, _, [l, r] => _supremum (_supremum l r) PositiveReal
  | .MultiplicationNode, _, [l, r] =>
      if leqBool l ∧ leqBool r then Boolean
      else if leqBool l then _supremum r Zero
      else if leqBool r then _supremum l Zero
      else _supremum (_supremum l r) Probability
  | .PowerNode, _, [l, _] => _supremum l Probability
  | .ToRealNode, _, _ => Real
  | .ToPositiveRealNode, _, _ => PositiveReal
  | .ToProbabilityNode, _, _ => Probability
  | .IfThenElseNode, [cg, tg, ag], [_, ti, ai] =>
      if cg = Boolean ∧ tg = ag ∧ scalar_or_malformed tg then tg
      else _supremum ti ai
  | .ObservationNode _, _, [o] => o
  | .QueryNode, _, [o] => o
  | _, _, _ => Malformed

/-- Modelled from the spec (§4.2): the per-edge `Requirement` vector of a
node, given the current inputs' `graph_type`s and `inf_type`s.
`Bernoulli` requires exactly a probability; `Beta` two positive reals;
`Binomial` a natural and a probability; a sample requires exactly its
distribution's `inf_type`; addition requires both operands at the
supremum of their `inf_type`s clamped at `PositiveReal`; multiplication
with a boolean operand requires exactly `Boolean` on that edge and the
other operand's `inf_type` (clamped by `Zero`) on the other, otherwise
both edges at the supremum clamped at `Probability`; a power requires its
base clamped at `Probability` and its exponent at `Boolean` (when the
exponent is boolean-convertible — the fixer's if-then-else repair needs a
boolean there) or clamped at `PositiveReal`; the coercions state upper
bounds; `IfThenElse` requires a boolean condition and both branches at
the node's `inf_type`; observations and queries accept anything
well-formed (`UpperBound(Malformed)`). -/
def requirements_of (v : NodeVariant) (gts its : List BMGLatticeType) :
    List Requirement :=
  match v, gts, its with
  | .ConstantNode _ _, _, _ => []
  | .BernoulliNode, _, _ => [.exactly Probability]
  | .BetaNode, _, _ => [.exactly PositiveReal, .exactly PositiveReal]
  | .BinomialNode, _, _ => [.exactly Natural, .exactly Probability]
  | .SampleNode, _, [d] => [.exactly d]
  | .AdditionNode, _, [l, r] =>
      [.exactly (_supremum (_supremum l r) PositiveReal),
       .exactly (_supremum (_supremum l r) PositiveReal)]
  | .MultiplicationNode, _, [l, r] =>
      if leqBool l ∧ leqBool r then [.exactly Boolean, .exactly Boolean]
      else if leqBool l then [.exactly Boolean, .exactly (_supremum r Zero)]
      else if leqBool r then [.exactly (_supremum l Zero), .exactly Boolean]
      else
        [.exactly (_supremum (_supremum l r) Probability),
         .exactly (_supremum (_supremum l r) Probability)]
  | .PowerNode, _, [l, r] =>
      [.exactly (_supremum l Probability),
       if leqBool r then .exactly Boolean else .exactly (_supremum r PositiveReal)]
  | .ToRealNode, _, _ => [.UpperBound Real]
  | .ToPositiveRealNode, _, _ => [.UpperBound PositiveReal]
  | .ToProbabilityNode, _, _ => [.UpperBound Real]
  | .IfThenElseNode, [cg, tg, ag], [ci, ti, ai] =>
      [.exactly Boolean,
       .exactly (inf_type_of .IfThenElseNode [cg, tg, ag] [ci, ti, ai]),
       .exactly (inf_type_of .IfThenElseNode [cg, tg, ag] [ci, ti, ai])]
  | .ObservationNode _, _, _ => [.UpperBound Malformed]
  | .QueryNode, _, _ => [.UpperBound Malformed]
  | _, _, _ => []

/-- Modelled from the spec: `get_edge_labels` of `graph_labels.py` — the
static per-edge labels of each variant, used for diagnostics. -/
def edge_labels : NodeVariant → List String
  | .ConstantNode _ _ => []
  | .BernoulliNode => ["probability"]
  | .BetaNode => ["alpha", "beta"]
  | .BinomialNode => ["count", "probability"]
  | .SampleNode => ["operand"]
  | .AdditionNode => ["left", "right"]
  | .MultiplicationNode => ["left", "right"]
  | .PowerNode => ["left", "right"]
  | .ToRealNode => ["operand"]
  | .ToPositiveRealNode => ["operand"]
  | .ToProbabilityNode => ["operand"]
  | .IfThenElseNode => ["condition", "consequence", "alternative"]
  | .ObservationNode _ => ["operand"]
  | .QueryNode => ["operator"]

/-- The `graph_type`s of a handle list. -/
def gtsOf (s : GState) (ins : List Nat) : List BMGLatticeType :=
  ins.map (graphTypeOf s)

/-- The `inf_type`s of a handle list. -/
def itsOf (s : GState) (ins : List Nat) : List BMGLatticeType :=
  ins.map (infTypeOf s)

/-- Modelled from the spec (§4.3) and the in-repo builder: the compiler
builder's `add_node` appends a fresh node whose type caches are computed
from its inputs' caches.  The spec describes a dedup map keyed on
`(variant, inputs...)`, but the builder actually present in the sources
(`src/beanmachine/ppl/utils/bm_graph_builder.py`) interns nothing — each
factory call constructs a fresh node object (see the claim C5 analysis in
namespace `UtilsBuilder`) — so fresh insertion is the faithful model. -/
def add_node (s : GState) (v : NodeVariant) (ins : List Nat) : GState × Nat :=
  ({ s with
      nodes := s.nodes ++
        [⟨v, ins, graph_type_of v (gtsOf s ins),
          inf_type_of v (gtsOf s ins) (itsOf s ins)⟩] },
    s.nodes.length)

/-- Modelled from the spec: `add_constant_of_type(value, t)` — a constant
node of concrete type `t` carrying `value`. -/
def add_constant_of_type (s : GState) (value : Value) (t : BMGLatticeType) :
    GState × Nat :=
  add_node s (.ConstantNode value t) []

/-- Modelled from the spec: `add_constant_of_matrix_type(value, t)`.  In
this embedding matrix constants are synthesized exactly like scalar ones
(a constant node of the given type carrying the value), so the two
factories coincide. -/
def add_constant_of_matrix_type (s : GState) (value : Value)
    (t : BMGLatticeType) : GState × Nat :=
  add_constant_of_type s value t

/-- Modelled from the spec: `add_to_real(operand)`. -/
def add_to_real (s : GState) (operand : Nat) : GState × Nat :=
  add_node s .ToRealNode [operand]

/-- Modelled from the spec: `add_to_positive_real(operand)`. -/
def add_to_positive_real (s : GState) (operand : Nat) : GState × Nat :=
  add_node s .ToPositiveRealNode [operand]

/-- Modelled from the spec: `add_to_probability(operand)`. -/
def add_to_probability (s : GState) (operand : Nat) : GState × Nat :=
  add_node s .ToProbabilityNode [operand]

/-- Modelled from the spec: `add_if_then_else(condition, consequence,
alternative)`. -/
def add_if_then_else (s : GState) (condition consequence alternative : Nat) :
    GState × Nat :=
  add_node s .IfThenElseNode [condition, consequence, alternative]

/-- A Python exception escaping the fixer: an `assert` failure, a raised
`ValueError`, or (an artifact of the fuelled embedding) fuel exhaustion —
treated like a failure so that theorems about completed runs never rely
on it. -/
inductive PyError where
  | assertionError
  | valueError (msg : String)
  | fuelExhausted
deriving DecidableEq, Repr

/-- A Python `assert`: succeed or raise `AssertionError`. -/
def assertCond (b : Bool) : Except PyError Unit :=
  if b then .ok () else .error .assertionError

/-- `bt.type_meets_requirement` is referenced by `fix_requirements.py`
but absent from the provided `bmg_types.py`; modelled from the spec
(§3.2), it is the `meets_requirement` test on a type. -/
def type_meets_requirement (t : BMGLatticeType) (r : Requirement) : Bool :=
  meets_requirement t r

/-- `bt.node_meets_requirement` is referenced by `fix_requirements.py`
but absent from the provided `bmg_types.py`; modelled from the spec, it
tests the node's `graph_type` against the requirement. -/
def node_meets_requirement (s : GState) (n : Nat) (r : Requirement) : Bool :=
  meets_requirement (graphTypeOf s n) r

/-- `bt.requirement_to_type` is referenced by `fix_requirements.py` but
absent from the provided `bmg_types.py`; modelled from the spec: the type
carried by the requirement (an exact bound is the type itself; an upper
bound converts to its bound). -/
def requirement_to_type : Requirement → BMGLatticeType
  | .exactly t => t
  | .UpperBound t => t

/-- `bt.must_be_matrix` is referenced by `fix_requirements.py` but absent
from the provided `bmg_types.py`; modelled from the spec: the requirement
demands a proper matrix (not a 1×1 scalar alias). -/
def must_be_matrix (r : Requirement) : Bool :=
  match requirement_to_type r with
  | .matrix _ rows columns => ¬(rows = 1 ∧ columns = 1)
  | _ => false

/-- Line 241 of `fix_requirements.py` tests `requirement == Tensor` where
`Tensor` is the **torch.Tensor class** imported at line 16
(`from torch import Tensor`), not the lattice type `bt.Tensor`.  A
`BMGLatticeType` instance is never equal to the torch class object, so
the comparison is constantly false and the `ValueError` it guards is
unreachable. -/
def requirement_is_torch_tensor_class (_ : BMGLatticeType) : Bool := false

/-- `_can_force_to_prob(inf_type, requirement)` (lines 273–303): a real
or positive real may be explicitly clamped when a probability is
required. -/
def _can_force_to_prob (inf_type : BMGLatticeType) (requirement : Requirement) :
    Bool :=
  (requirement = .exactly Probability ∨
    requirement = upper_bound (.exactly Probability)) ∧
  (inf_type = Real ∨ inf_type = PositiveReal)

/-- The constant's Python `value` (only consulted on constant nodes). -/
def valueOf (s : GState) (n : Nat) : Value :=
  match variantOf s n with
  | .ConstantNode v _ => v
  | _ => .float 0

/-- Is the variant a distribution? -/
def isDistribution : NodeVariant → Bool
  | .BernoulliNode | .BetaNode | .BinomialNode => true
  | _ => false

/-- Is the variant an operator? -/
def isOperator : NodeVariant → Bool
  | .SampleNode | .AdditionNode | .MultiplicationNode | .PowerNode
  | .ToRealNode | .ToPositiveRealNode | .ToProbabilityNode
  | .IfThenElseNode => true
  | _ => false

/-- `_meet_constant_requirement(node, requirement, consumer, edge)`
(lines 37–74): a constant that meets the requirement is returned; one
whose `inf_type` fits under the requirement is re-synthesized at the
required type with the same value; otherwise a `Violation` is recorded
and the original returned. -/
def _meet_constant_requirement (s : GState) (node : Nat) (requirement : Requirement)
    (consumer : Nat) (edge : String) : Except PyError (GState × Nat) :=
  if node_meets_requirement s node requirement then .ok (s, node)
  else if type_meets_requirement (infTypeOf s node) (upper_bound requirement) then
    let required_type := requirement_to_type requirement
    let p :=
      if must_be_matrix requirement then
        add_constant_of_matrix_type s (valueOf s node) required_type
      else add_constant_of_type s (valueOf s node) required_type
    do
      assertCond (node_meets_requirement p.1 p.2 requirement)
      .ok p
  else
    .ok ({ s with errors := s.errors ++ [⟨node, requirement, consumer, edge⟩] }, node)

/-- `_meet_distribution_requirement` (lines 76–87): only a sample
consumes a distribution, and its requirement is the distribution's
`inf_type`; the node is returned unchanged. -/
def _meet_distribution_requirement (s : GState) (node : Nat)
    (requirement : Requirement) (consumer : Nat) (_edge : String) :
    Except PyError (GState × Nat) := do
  assertCond (variantOf s consumer = .SampleNode)
  assertCond (requirement = .exactly (infTypeOf s node))
  .ok (s, node)

mutual

/-- `meet_requirement(node, requirement, consumer, edge)` (lines
363–389): dispatch on the node family — observations and queries are
never inputs (assertion failures), constants, distributions and operators
go to their handlers.  (Map nodes, unsupported placeholders, are not
modelled.)  Recursion is fuelled; exhaustion is reported as an error so
that completed runs never depend on it. -/
def meet_requirement : Nat → GState → Nat → Requirement → Nat → String →
    Except PyError (GState × Nat)
  | 0, _, _, _, _, _ => .error .fuelExhausted
  | fuel + 1, s, node, requirement, consumer, edge =>
    match variantOf s node with
    | .ObservationNode _ => .error .assertionError
    | .QueryNode => .error .assertionError
    | .ConstantNode _ _ =>
        _meet_constant_requirement s node requirement consumer edge
    | .BernoulliNode | .BetaNode | .BinomialNode =>
        _meet_distribution_requirement s node requirement consumer edge
    | _ => _meet_operator_requirement fuel s node requirement consumer edge
termination_by structural fuel => fuel

/-- `_meet_operator_requirement` (lines 305–361): an operator meeting the
requirement is returned; one whose `inf_type` does not fit under the
requirement is either force-clamped to probability (real/positive real
under a probability requirement) or recorded as a `Violation`; otherwise
it is converted to the exact requirement, or to its `inf_type` for an
upper-bound requirement. -/
def _meet_operator_requirement : Nat → GState → Nat → Requirement → Nat →
    String → Except PyError (GState × Nat)
  | 0, _, _, _, _, _ => .error .fuelExhausted
  | fuel + 1, s, node, requirement, consumer, edge =>
    if node_meets_requirement s node requirement then .ok (s, node)
    else
      let it := infTypeOf s node
      if ¬ type_meets_requirement it (upper_bound requirement) then
        if _can_force_to_prob it requirement then do
          let p ← meet_requirement fuel s node (.exactly it) consumer edge
          let q := add_to_probability p.1 p.2
          assertCond (node_meets_requirement q.1 q.2 requirement)
          .ok q
        else
          .ok ({ s with
              errors := s.errors ++ [⟨node, requirement, consumer, edge⟩] },
            node)
      else do
        let p ←
          match requirement with
          | .exactly t => _convert_node fuel s node t consumer edge
          | .UpperBound _ => _convert_node fuel s node it consumer edge
        assertCond (node_meets_requirement p.1 p.2 requirement)
        .ok p
termination_by structural fuel => fuel

/-- `_convert_node` (lines 214–271): under the preconditions that the
node does not have the required type but its `inf_type` fits below it,
repair malformed multiplications and powers, reject a (torch-)tensor
requirement, insert `ToReal`/`ToPositiveReal` for real/positive-real
requirements, and otherwise (natural or probability required, boolean
convertible in hand) build `if node then 1 else 0`. -/
def _convert_node : Nat → GState → Nat → BMGLatticeType → Nat → String →
    Except PyError (GState × Nat)
  | 0, _, _, _, _, _ => .error .fuelExhausted
  | fuel + 1, s, node, requirement, consumer, edge => do
    assertCond (graphTypeOf s node ≠ requirement)
    assertCond (_supremum (infTypeOf s node) requirement = requirement)
    if variantOf s node = .MultiplicationNode ∧ graphTypeOf s node = Malformed then
      _convert_malformed_multiplication fuel s node requirement consumer edge
    else if variantOf s node = .PowerNode ∧ graphTypeOf s node = Malformed then
      _convert_malformed_power fuel s node requirement consumer edge
    else if requirement_is_torch_tensor_class requirement then
      .error (.valueError "Unsupported type requirement: Tensor")
    else if requirement = Real then .ok (add_to_real s node)
    else if requirement = PositiveReal then .ok (add_to_positive_real s node)
    else do
      assertCond (requirement = Natural ∨ requirement = Probability)
      assertCond (_supremum (infTypeOf s node) Boolean = Boolean)
      let pz := add_constant_of_type s (.float 0) requirement
      let po := add_constant_of_type pz.1 (.float 1) requirement
      .ok (add_if_then_else po.1 node po.2 pz.2)
termination_by structural fuel => fuel

/-- `_convert_malformed_multiplication` (lines 108–169): a malformed
multiplication convertible below the requirement has (after its own edges
were fixed) a boolean operand; rewrite it as
`IfThenElse(bool_operand, other_operand, 0 of the other's type)` and
recurse to meet the original requirement. -/
def _convert_malformed_multiplication : Nat → GState → Nat → BMGLatticeType →
    Nat → String → Except PyError (GState × Nat)
  | 0, _, _, _, _, _ => .error .fuelExhausted
  | fuel + 1, s, node, requirement, consumer, edge => do
    assertCond (graphTypeOf s node = Malformed)
    assertCond (_supremum (infTypeOf s node) requirement = requirement)
    let left := (inputsOf s node)[0]?.getD 0
    let right := (inputsOf s node)[1]?.getD 0
    let lgt := graphTypeOf s left
    let rgt := graphTypeOf s right
    assertCond (lgt ≠ Malformed ∧ rgt ≠ Malformed)
    assertCond (lgt = Boolean ∨ rgt = Boolean)
    if lgt = Boolean then do
      let pz := add_constant_of_type s (.float 0) rgt
      let pi := add_if_then_else pz.1 left right pz.2
      assertCond (graphTypeOf pi.1 pi.2 = rgt)
      meet_requirement fuel pi.1 pi.2 (.exactly requirement) consumer edge
    else do
      let pz := add_constant_of_type s (.float 0) lgt
      let pi := add_if_then_else pz.1 right left pz.2
      assertCond (graphTypeOf pi.1 pi.2 = lgt)
      meet_requirement fuel pi.1 pi.2 (.exactly requirement) consumer edge
termination_by structural fuel => fuel

/-- `_convert_malformed_power` (lines 171–212): a malformed power has a
boolean exponent; rewrite `x ** b` as `IfThenElse(b, x, 1 of x's type)`
and recurse to meet the original requirement. -/
def _convert_malformed_power : Nat → GState → Nat → BMGLatticeType → Nat →
    String → Except PyError (GState × Nat)
  | 0, _, _, _, _, _ => .error .fuelExhausted
  | fuel + 1, s, node, requirement, consumer, edge => do
    assertCond (graphTypeOf s node = Malformed)
    assertCond (_supremum (infTypeOf s node) requirement = requirement)
    let left := (inputsOf s node)[0]?.getD 0
    let right := (inputsOf s node)[1]?.getD 0
    let lgt := graphTypeOf s left
    let rgt := graphTypeOf s right
    assertCond (lgt ≠ Malformed)
    assertCond (rgt = Boolean)
    let po := add_constant_of_type s (.float 1) lgt
    let pi := add_if_then_else po.1 right left po.2
    assertCond (graphTypeOf pi.1 pi.2 = lgt)
    meet_requirement fuel pi.1 pi.2 (.exactly requirement) consumer edge

termination_by structural fuel => fuel
end

/-- Overwrite input slot `i` of node `k` (the fixer's
`node.inputs[i] = ...`). -/
def set_input (s : GState) (k i n' : Nat) : GState :=
  match s.nodes[k]? with
  | some nd => { s with nodes := s.nodes.set k { nd with inputs := nd.inputs.set i n' } }
  | none => s

/-- Refresh the cached `graph_type`/`inf_type` of node `k` from its
current inputs (Python recomputes these properties lazily; the only
mutation point is the rewrite of `k`'s own input slots, after which this
brings the caches back in line). -/
def refresh (s : GState) (k : Nat) : GState :=
  match s.nodes[k]? with
  | some nd =>
      { s with
        nodes := s.nodes.set k
          { nd with
            graph_type := graph_type_of nd.variant (gtsOf s nd.inputs)
            inf_type := inf_type_of nd.variant (gtsOf s nd.inputs) (itsOf s nd.inputs) } }
  | none => s

/-- The per-edge loop of `fix_problems` (lines 399–402): for edge `i`,
meet the requirement of the current `inputs[i]` and write the returned
handle back into the slot. -/
def fix_edges (fuel : Nat) (s : GState) (k : Nat) :
    Nat → List Requirement → List String → Except PyError GState
  | _, [], _ => .ok s
  | i, req :: reqs, lab :: labs => do
    let inp := (inputsOf s k)[i]?.getD 0
    let p ← meet_requirement fuel s inp req k lab
    fix_edges fuel (set_input p.1 k i p.2) k (i + 1) reqs labs
  | _, _ :: _, [] => .error .assertionError

/-- Visit one node: read its requirement vector and edge labels, fix
every edge, then refresh its type caches. -/
def fix_node (fuel : Nat) (s : GState) (k : Nat) : Except PyError GState := do
  let reqs := requirements_of (variantOf s k) (gtsOf s (inputsOf s k))
    (itsOf s (inputsOf s k))
  let s' ← fix_edges fuel s k 0 reqs (edge_labels (variantOf s k))
  .ok (refresh s' k)

/-- Visit the given nodes in order. -/
def fix_nodes (fuel : Nat) : GState → List Nat → Except PyError GState
  | s, [] => .ok s
  | s, k :: ks => do fix_nodes fuel (← fix_node fuel s k) ks

/-- `fix_problems()` (lines 391–402).  Modelled from the spec:
`_traverse_from_roots` (in the absent compiler builder) yields every node
in topological order, which is the builder's insertion order, i.e. handle
order. -/
def fix_problems (fuel : Nat) (s : GState) : Except PyError GState :=
  fix_nodes fuel s (List.range s.nodes.length)


/-- Every node's inputs are in-range handles. -/
def InputsValid (s : GState) : Prop :=
  ∀ nd ∈ s.nodes, ∀ j ∈ nd.inputs, j < s.nodes.length

/-- Every node's cached `graph_type` agrees with the recomputation from
its inputs' caches. -/
def GtCoherent (s : GState) : Prop :=
  ∀ nd ∈ s.nodes, nd.graph_type = graph_type_of nd.variant (gtsOf s nd.inputs)

/-- Every node's cached `inf_type` agrees with the recomputation from its
inputs' caches. -/
def ItCoherent (s : GState) : Prop :=
  ∀ nd ∈ s.nodes, nd.inf_type = inf_type_of nd.variant (gtsOf s nd.inputs) (itsOf s nd.inputs)

instance (s : GState) : Decidable (InputsValid s) := by
  unfold InputsValid; infer_instance

instance (s : GState) : Decidable (GtCoherent s) := by
  unfold GtCoherent; infer_instance

instance (s : GState) : Decidable (ItCoherent s) := by
  unfold ItCoherent; infer_instance

theorem mem_of_lookup {s : GState} {i : Nat} {nd : NodeData}
    (h : s.nodes[i]? = some nd) : nd ∈ s.nodes := by
  obtain ⟨hl, rfl⟩ := List.getElem?_eq_some.mp h
  exact List.getElem_mem _

/-- Appending nodes does not change lookups of existing handles. -/
theorem lookup_append {s : GState} (new : List NodeData) {j : Nat}
    (h : j < s.nodes.length) :
    (s.nodes ++ new)[j]? = s.nodes[j]? := by
  rw [List.getElem?_append, if_pos h]

theorem graphTypeOf_append (s : GState) (new : List NodeData)
    (errs : List Violation) {j : Nat} (h : j < s.nodes.length) :
    graphTypeOf ⟨s.nodes ++ new, errs⟩ j = graphTypeOf s j := by
  simp only [graphTypeOf]
  rw [lookup_append new h]

theorem infTypeOf_append (s : GState) (new : List NodeData)
    (errs : List Violation) {j : Nat} (h : j < s.nodes.length) :
    infTypeOf ⟨s.nodes ++ new, errs⟩ j = infTypeOf s j := by
  simp only [infTypeOf]
  rw [lookup_append new h]

theorem gtsOf_append (s : GState) (new : List NodeData) (errs : List Violation)
    (ins : List Nat) (h : ∀ j ∈ ins, j < s.nodes.length) :
    gtsOf ⟨s.nodes ++ new, errs⟩ ins = gtsOf s ins := by
  simp only [gtsOf]
  exact List.map_congr_left fun j hj => graphTypeOf_append s new errs (h j hj)

theorem itsOf_append (s : GState) (new : List NodeData) (errs : List Violation)
    (ins : List Nat) (h : ∀ j ∈ ins, j < s.nodes.length) :
    itsOf ⟨s.nodes ++ new, errs⟩ ins = itsOf s ins := by
  simp only [itsOf]
  exact List.map_congr_left fun j hj => infTypeOf_append s new errs (h j hj)

theorem lookup_final (l : List NodeData) (x : NodeData) (errs : List Violation) :
    variantOf ⟨l ++ [x], errs⟩ l.length = x.variant ∧
    inputsOf ⟨l ++ [x], errs⟩ l.length = x.inputs ∧
    graphTypeOf ⟨l ++ [x], errs⟩ l.length = x.graph_type ∧
    infTypeOf ⟨l ++ [x], errs⟩ l.length = x.inf_type := by
  simp [variantOf, inputsOf, graphTypeOf, infTypeOf]

/-- The result of `add_node`: the returned handle denotes a fresh node
with the requested structural key, its type caches are the recomputations
over the pre-call state, no error is recorded, and the arena is
extended. -/
theorem add_node_spec2 (s : GState) (v : NodeVariant) (ins : List Nat) :
    variantOf (add_node s v ins).1 (add_node s v ins).2 = v ∧
    inputsOf (add_node s v ins).1 (add_node s v ins).2 = ins ∧
    graphTypeOf (add_node s v ins).1 (add_node s v ins).2 =
      graph_type_of v (gtsOf s ins) ∧
    infTypeOf (add_node s v ins).1 (add_node s v ins).2 =
      inf_type_of v (gtsOf s ins) (itsOf s ins) ∧
    (add_node s v ins).1.errors = s.errors ∧
    s.nodes <+: (add_node s v ins).1.nodes ∧
    (add_node s v ins).2 < (add_node s v ins).1.nodes.length := by
  have hmain := lookup_final s.nodes
    ⟨v, ins, graph_type_of v (gtsOf s ins),
      inf_type_of v (gtsOf s ins) (itsOf s ins)⟩ s.errors
  exact ⟨hmain.1, hmain.2.1, hmain.2.2.1, hmain.2.2.2, rfl,
    List.prefix_append _ _, by simp [add_node]⟩

theorem assertCond_pos {p : Prop} [Decidable p] (h : p) :
    assertCond (decide p) = .ok () := by
  simp [assertCond, h]

theorem assertCond_neg {p : Prop} [Decidable p] (h : ¬p) :
    assertCond (decide p) = .error .assertionError := by
  simp [assertCond, h]

theorem variantOf_add_node_stable (s : GState) (v : NodeVariant) (ins : List Nat)
    {j : Nat} (hj : j < s.nodes.length) :
    variantOf (add_node s v ins).1 j = variantOf s j := by
  simp only [add_node, variantOf]
  rw [lookup_append _ hj]

theorem inputsOf_add_node_stable (s : GState) (v : NodeVariant) (ins : List Nat)
    {j : Nat} (hj : j < s.nodes.length) :
    inputsOf (add_node s v ins).1 j = inputsOf s j := by
  simp only [add_node, inputsOf]
  rw [lookup_append _ hj]

theorem graphTypeOf_add_node_stable (s : GState) (v : NodeVariant) (ins : List Nat)
    {j : Nat} (hj : j < s.nodes.length) :
    graphTypeOf (add_node s v ins).1 j = graphTypeOf s j :=
  graphTypeOf_append s _ _ hj

theorem infTypeOf_add_node_stable (s : GState) (v : NodeVariant) (ins : List Nat)
    {j : Nat} (hj : j < s.nodes.length) :
    infTypeOf (add_node s v ins).1 j = infTypeOf s j :=
  infTypeOf_append s _ _ hj

theorem add_node_len_mono (s : GState) (v : NodeVariant) (ins : List Nat) :
    s.nodes.length ≤ (add_node s v ins).1.nodes.length := by
  simp [add_node]

/-- `add_node` with in-range inputs preserves validity and coherence. -/
theorem add_node_preserves (s : GState) (v : NodeVariant) (ins : List Nat)
    (hval : ∀ j ∈ ins, j < s.nodes.length)
    (hIV : InputsValid s) (hg : GtCoherent s) (hi : ItCoherent s) :
    InputsValid (add_node s v ins).1 ∧ GtCoherent (add_node s v ins).1 ∧
      ItCoherent (add_node s v ins).1 := by
  set x : NodeData := ⟨v, ins, graph_type_of v (gtsOf s ins),
    inf_type_of v (gtsOf s ins) (itsOf s ins)⟩ with hx
  have hred : (add_node s v ins).1 = { s with nodes := s.nodes ++ [x] } := rfl
  rw [hred]
  refine ⟨?_, ?_, ?_⟩
  · intro nd hnd j hj
    simp only [List.length_append, List.length_singleton]
    rcases List.mem_append.mp hnd with h | h
    · have := hIV nd h j hj
      omega
    · simp only [List.mem_singleton] at h
      subst h
      have := hval j hj
      omega
  · intro nd hnd
    rcases List.mem_append.mp hnd with h | h
    · rw [hg nd h]
      congr 1
      exact (gtsOf_append s [x] s.errors nd.inputs (hIV nd h)).symm
    · simp only [List.mem_singleton] at h
      subst h
      show x.graph_type = graph_type_of x.variant
        (gtsOf { s with nodes := s.nodes ++ [x] } x.inputs)
      rw [show gtsOf { s with nodes := s.nodes ++ [x] } x.inputs = gtsOf s x.inputs from
        gtsOf_append s [x] s.errors x.inputs (by rw [hx]; exact hval)]
  · intro nd hnd
    rcases List.mem_append.mp hnd with h | h
    · rw [hi nd h]
      rw [show gtsOf { s with nodes := s.nodes ++ [x] } nd.inputs = gtsOf s nd.inputs from
        gtsOf_append s [x] s.errors nd.inputs (hIV nd h)]
      rw [show itsOf { s with nodes := s.nodes ++ [x] } nd.inputs = itsOf s nd.inputs from
        itsOf_append s [x] s.errors nd.inputs (hIV nd h)]
    · simp only [List.mem_singleton] at h
      subst h
      show x.inf_type = inf_type_of x.variant
        (gtsOf { s with nodes := s.nodes ++ [x] } x.inputs)
        (itsOf { s with nodes := s.nodes ++ [x] } x.inputs)
      rw [show gtsOf { s with nodes := s.nodes ++ [x] } x.inputs = gtsOf s x.inputs from
        gtsOf_append s [x] s.errors x.inputs (by rw [hx]; exact hval)]
      rw [show itsOf { s with nodes := s.nodes ++ [x] } x.inputs = itsOf s x.inputs from
        itsOf_append s [x] s.errors x.inputs (by rw [hx]; exact hval)]

theorem lookup_of_inputs {s : GState} {n : Nat} {ins : List Nat}
    (h : inputsOf s n = ins) (hne : ins ≠ []) :
    ∃ nd, s.nodes[n]? = some nd ∧ nd.inputs = ins := by
  cases hnd : s.nodes[n]? with
  | none =>
    exfalso
    apply hne
    rw [← h]
    simp [inputsOf, hnd]
  | some nd =>
    simp only [inputsOf, hnd, Option.map_some', Option.getD_some] at h
    exact ⟨nd, rfl, h⟩

theorem ok_bind {α β : Type} (a : α) (f : α → Except PyError β) :
    (Except.ok a >>= f) = f a := rfl

/-- Unfolding equation for `_convert_malformed_multiplication` at nonzero
fuel, with the local lets expanded. -/
theorem _convert_malformed_multiplication_succ (fuel : Nat) (s : GState)
    (node : Nat) (requirement : BMGLatticeType) (consumer : Nat) (edge : String) :
    _convert_malformed_multiplication (fuel + 1) s node requirement consumer edge =
      (do
        assertCond (graphTypeOf s node = Malformed)
        assertCond (_supremum (infTypeOf s node) requirement = requirement)
        assertCond (graphTypeOf s ((inputsOf s node)[0]?.getD 0) ≠ Malformed ∧
          graphTypeOf s ((inputsOf s node)[1]?.getD 0) ≠ Malformed)
        assertCond (graphTypeOf s ((inputsOf s node)[0]?.getD 0) = Boolean ∨
          graphTypeOf s ((inputsOf s node)[1]?.getD 0) = Boolean)
        if graphTypeOf s ((inputsOf s node)[0]?.getD 0) = Boolean then do
          assertCond (graphTypeOf
            (add_if_then_else
              (add_constant_of_type s (.float 0)
                (graphTypeOf s ((inputsOf s node)[1]?.getD 0))).1
              ((inputsOf s node)[0]?.getD 0) ((inputsOf s node)[1]?.getD 0)
              (add_constant_of_type s (.float 0)
                (graphTypeOf s ((inputsOf s node)[1]?.getD 0))).2).1
            (add_if_then_else
              (add_constant_of_type s (.float 0)
                (graphTypeOf s ((inputsOf s node)[1]?.getD 0))).1
              ((inputsOf s node)[0]?.getD 0) ((inputsOf s node)[1]?.getD 0)
              (add_constant_of_type s (.float 0)
                (graphTypeOf s ((inputsOf s node)[1]?.getD 0))).2).2 =
            graphTypeOf s ((inputsOf s node)[1]?.getD 0))
          meet_requirement fuel
            (add_if_then_else
              (add_constant_of_type s (.float 0)
                (graphTypeOf s ((inputsOf s node)[1]?.getD 0))).1
              ((inputsOf s node)[0]?.getD 0) ((inputsOf s node)[1]?.getD 0)
              (add_constant_of_type s (.float 0)
                (graphTypeOf s ((inputsOf s node)[1]?.getD 0))).2).1
            (add_if_then_else
              (add_constant_of_type s (.float 0)
                (graphTypeOf s ((inputsOf s node)[1]?.getD 0))).1
              ((inputsOf s node)[0]?.getD 0) ((inputsOf s node)[1]?.getD 0)
              (add_constant_of_type s (.float 0)
                (graphTypeOf s ((inputsOf s node)[1]?.getD 0))).2).2
            (.exactly requirement) consumer edge
        else do
          assertCond (graphTypeOf
            (add_if_then_else
              (add_constant_of_type s (.float 0)
                (graphTypeOf s ((inputsOf s node)[0]?.getD 0))).1
              ((inputsOf s node)[1]?.getD 0) ((inputsOf s node)[0]?.getD 0)
              (add_constant_of_type s (.float 0)
                (graphTypeOf s ((inputsOf s node)[0]?.getD 0))).2).1
            (add_if_then_else
              (add_constant_of_type s (.float 0)
                (graphTypeOf s ((inputsOf s node)[0]?.getD 0))).1
              ((inputsOf s node)[1]?.getD 0) ((inputsOf s node)[0]?.getD 0)
              (add_constant_of_type s (.float 0)
                (graphTypeOf s ((inputsOf s node)[0]?.getD 0))).2).2 =
            graphTypeOf s ((inputsOf s node)[0]?.getD 0))
          meet_requirement fuel
            (add_if_then_else
              (add_constant_of_type s (.float 0)
                (graphTypeOf s ((inputsOf s node)[0]?.getD 0))).1
              ((inputsOf s node)[1]?.getD 0) ((inputsOf s node)[0]?.getD 0)
              (add_constant_of_type s (.float 0)
                (graphTypeOf s ((inputsOf s node)[0]?.getD 0))).2).1
            (add_if_then_else
              (add_constant_of_type s (.float 0)
                (graphTypeOf s ((inputsOf s node)[0]?.getD 0))).1
              ((inputsOf s node)[1]?.getD 0) ((inputsOf s node)[0]?.getD 0)
              (add_constant_of_type s (.float 0)
                (graphTypeOf s ((inputsOf s node)[0]?.getD 0))).2).2
            (.exactly requirement) consumer edge) := by
  simp only [_convert_malformed_multiplication]

/-- Claim C7.  `_convert_malformed_multiplication` on a malformed
multiplication (`graph_type == Malformed`, `sup(inf_type, req) == req`)
whose operands have exactly one `Boolean` graph type and the other of
type `t ≠ Boolean`: the node is rewritten as
`IfThenElse(bool_operand, other_operand, constant 0 of type t)` — whose
`graph_type` is `t` — and the fixer then recursively meets the original
requirement on the rewritten node (both orientations). -/
theorem convert_malformed_multiplication_rewrite (fuel : Nat) (s : GState)
    (n : Nat) (req : BMGLatticeType) (c : Nat) (e : String) (l r : Nat)
    (t : BMGLatticeType)
    (hIV : InputsValid s) (hg : GtCoherent s) (hi : ItCoherent s)
    (hins : inputsOf s n = [l, r])
    (hgt : graphTypeOf s n = Malformed)
    (hsup : _supremum (infTypeOf s n) req = req)
    (htB : t ≠ Boolean) (htM : t ≠ Malformed) :
    (graphTypeOf s l = Boolean → graphTypeOf s r = t →
      graphTypeOf (add_if_then_else (add_constant_of_type s (.float 0) t).1 l r
          (add_constant_of_type s (.float 0) t).2).1
        (add_if_then_else (add_constant_of_type s (.float 0) t).1 l r
          (add_constant_of_type s (.float 0) t).2).2 = t ∧
      _convert_malformed_multiplication (fuel + 1) s n req c e =
        meet_requirement fuel
          (add_if_then_else (add_constant_of_type s (.float 0) t).1 l r
            (add_constant_of_type s (.float 0) t).2).1
          (add_if_then_else (add_constant_of_type s (.float 0) t).1 l r
            (add_constant_of_type s (.float 0) t).2).2
          (.exactly req) c e) ∧
    (graphTypeOf s r = Boolean → graphTypeOf s l = t →
      graphTypeOf (add_if_then_else (add_constant_of_type s (.float 0) t).1 r l
          (add_constant_of_type s (.float 0) t).2).1
        (add_if_then_else (add_constant_of_type s (.float 0) t).1 r l
          (add_constant_of_type s (.float 0) t).2).2 = t ∧
      _convert_malformed_multiplication (fuel + 1) s n req c e =
        meet_requirement fuel
          (add_if_then_else (add_constant_of_type s (.float 0) t).1 r l
            (add_constant_of_type s (.float 0) t).2).1
          (add_if_then_else (add_constant_of_type s (.float 0) t).1 r l
            (add_constant_of_type s (.float 0) t).2).2
          (.exactly req) c e) := by
  obtain ⟨nd, hnd, hndins⟩ := lookup_of_inputs hins (by simp)
  have hl : l < s.nodes.length := by
    refine hIV nd (mem_of_lookup hnd) l ?_
    rw [hndins]; simp
  have hr : r < s.nodes.length := by
    refine hIV nd (mem_of_lookup hnd) r ?_
    rw [hndins]; simp
  have hzspec := add_node_spec2 s (.ConstantNode (.float 0) t) []
  have hzcoh := add_node_preserves s (.ConstantNode (.float 0) t) [] (by simp)
    hIV hg hi
  have hzgt : graphTypeOf (add_constant_of_type s (.float 0) t).1
      (add_constant_of_type s (.float 0) t).2 = t := by
    show graphTypeOf (add_node s (.ConstantNode (.float 0) t) []).1
      (add_node s (.ConstantNode (.float 0) t) []).2 = t
    rw [hzspec.2.2.1]; rfl
  have hlgt : graphTypeOf (add_constant_of_type s (.float 0) t).1 l =
      graphTypeOf s l :=
    graphTypeOf_add_node_stable s (.ConstantNode (.float 0) t) [] hl
  have hrgt : graphTypeOf (add_constant_of_type s (.float 0) t).1 r =
      graphTypeOf s r :=
    graphTypeOf_add_node_stable s (.ConstantNode (.float 0) t) [] hr
  constructor
  · intro hlB hrT
    have hgite : graphTypeOf (add_if_then_else
        (add_constant_of_type s (.float 0) t).1 l r
        (add_constant_of_type s (.float 0) t).2).1
        (add_if_then_else (add_constant_of_type s (.float 0) t).1 l r
          (add_constant_of_type s (.float 0) t).2).2 = t := by
      have hspec2 := add_node_spec2 (add_constant_of_type s (.float 0) t).1
        .IfThenElseNode [l, r, (add_constant_of_type s (.float 0) t).2]
      show graphTypeOf (add_node (add_constant_of_type s (.float 0) t).1
        .IfThenElseNode [l, r, (add_constant_of_type s (.float 0) t).2]).1
        (add_node (add_constant_of_type s (.float 0) t).1 .IfThenElseNode
          [l, r, (add_constant_of_type s (.float 0) t).2]).2 = t
      rw [hspec2.2.2.1]
      show graph_type_of .IfThenElseNode
        [graphTypeOf (add_constant_of_type s (.float 0) t).1 l,
         graphTypeOf (add_constant_of_type s (.float 0) t).1 r,
         graphTypeOf (add_constant_of_type s (.float 0) t).1
           (add_constant_of_type s (.float 0) t).2] = t
      rw [hlgt, hrgt, hlB, hrT, hzgt]
      simp [graph_type_of]
    refine ⟨hgite, ?_⟩
    rw [_convert_malformed_multiplication_succ, hins]
    simp only [List.getElem?_cons_zero, List.getElem?_cons_succ,
      Option.getD_some]
    rw [hlB, hrT]
    rw [assertCond_pos hgt, assertCond_pos hsup]
    rw [assertCond_pos (show Boolean ≠ Malformed ∧ t ≠ Malformed from
      ⟨by decide, htM⟩)]
    rw [assertCond_pos (show Boolean = Boolean ∨ t = Boolean from Or.inl rfl)]
    simp only [ok_bind]
    simp only [if_true]
    rw [assertCond_pos hgite]
    simp only [ok_bind]
  · intro hrB hlT
    have hgite : graphTypeOf (add_if_then_else
        (add_constant_of_type s (.float 0) t).1 r l
        (add_constant_of_type s (.float 0) t).2).1
        (add_if_then_else (add_constant_of_type s (.float 0) t).1 r l
          (add_constant_of_type s (.float 0) t).2).2 = t := by
      have hspec2 := add_node_spec2 (add_constant_of_type s (.float 0) t).1
        .IfThenElseNode [r, l, (add_constant_of_type s (.float 0) t).2]
      show graphTypeOf (add_node (add_constant_of_type s (.float 0) t).1
        .IfThenElseNode [r, l, (add_constant_of_type s (.float 0) t).2]).1
        (add_node (add_constant_of_type s (.float 0) t).1 .IfThenElseNode
          [r, l, (add_constant_of_type s (.float 0) t).2]).2 = t
      rw [hspec2.2.2.1]
      show graph_type_of .IfThenElseNode
        [graphTypeOf (add_constant_of_type s (.float 0) t).1 r,
         graphTypeOf (add_constant_of_type s (.float 0) t).1 l,
         graphTypeOf (add_constant_of_type s (.float 0) t).1
           (add_constant_of_type s (.float 0) t).2] = t
      rw [hlgt, hrgt, hrB, hlT, hzgt]
      simp [graph_type_of]
    refine ⟨hgite, ?_⟩
    rw [_convert_malformed_multiplication_succ, hins]
    simp only [List.getElem?_cons_zero, List.getElem?_cons_succ,
      Option.getD_some]
    rw [hlT, hrB]
    rw [assertCond_pos hgt, assertCond_pos hsup]
    rw [assertCond_pos (show t ≠ Malformed ∧ Boolean ≠ Malformed from
      ⟨htM, by decide⟩)]
    rw [assertCond_pos (show t = Boolean ∨ Boolean = Boolean from Or.inr rfl)]
    simp only [ok_bind]
    rw [if_neg htB]
    rw [assertCond_pos hgite]
    simp only [ok_bind]

/-- A concrete graph for the multiplication-repair witness:
`Sample(Bernoulli(1)) * Natural(2)`, which is malformed
(`Boolean × Natural`). -/
def mulExample : GState :=
  ⟨[⟨.ConstantNode (.int 1) BMGTypes.Probability, [],
      BMGTypes.Probability, BMGTypes.One⟩,
    ⟨.BernoulliNode, [0], BMGTypes.Boolean, BMGTypes.Boolean⟩,
    ⟨.SampleNode, [1], BMGTypes.Boolean, BMGTypes.Boolean⟩,
    ⟨.ConstantNode (.int 2) BMGTypes.Natural, [],
      BMGTypes.Natural, BMGTypes.Natural⟩,
    ⟨.MultiplicationNode, [2, 3], Malformed, BMGTypes.Natural⟩], []⟩

/-- Witness for `convert_malformed_multiplication_rewrite` on
`mulExample` at requirement `Natural`. -/
theorem convert_malformed_multiplication_rewrite_witness :
    (InputsValid mulExample ∧ GtCoherent mulExample ∧ ItCoherent mulExample ∧
      inputsOf mulExample 4 = [2, 3] ∧
      graphTypeOf mulExample 4 = Malformed ∧
      _supremum (infTypeOf mulExample 4) BMGTypes.Natural = BMGTypes.Natural ∧
      graphTypeOf mulExample 2 = BMGTypes.Boolean ∧
      graphTypeOf mulExample 3 = BMGTypes.Natural) ∧
    (graphTypeOf
        (add_if_then_else (add_constant_of_type mulExample (.float 0)
            BMGTypes.Natural).1 2 3
          (add_constant_of_type mulExample (.float 0) BMGTypes.Natural).2).1
        (add_if_then_else (add_constant_of_type mulExample (.float 0)
            BMGTypes.Natural).1 2 3
          (add_constant_of_type mulExample (.float 0) BMGTypes.Natural).2).2 =
      BMGTypes.Natural ∧
    _convert_malformed_multiplication 9 mulExample 4 BMGTypes.Natural 5 "operator" =
      meet_requirement 8
        (add_if_then_else (add_constant_of_type mulExample (.float 0)
            BMGTypes.Natural).1 2 3
          (add_constant_of_type mulExample (.float 0) BMGTypes.Natural).2).1
        (add_if_then_else (add_constant_of_type mulExample (.float 0)
            BMGTypes.Natural).1 2 3
          (add_constant_of_type mulExample (.float 0) BMGTypes.Natural).2).2
        (.exactly BMGTypes.Natural) 5 "operator") :=
  ⟨⟨by decide, by decide, by decide, by decide, by decide, by decide, by decide,
    by decide⟩,
    (convert_malformed_multiplication_rewrite 8 mulExample 4 BMGTypes.Natural 5
      "operator" 2 3 BMGTypes.Natural (by decide) (by decide) (by decide)
      (by decide) (by decide) (by decide) (by decide) (by decide)).1
      (by decide) (by decide)⟩

deriving instance DecidableEq for Except

/-- Claim C4.  When the operator-conversion path `_convert_node` is
reached with an edge requirement equal to the exact lattice type `Tensor`
(the node's `inf_type` meets `UpperBound(Tensor)`, since `Tensor` is above
every non-`Malformed` type), the fixer does **not** raise the intended
`ValueError("Unsupported type requirement: Tensor")`: line 241 compares
the requirement against the `torch.Tensor` class imported at line 16
rather than against `bt.Tensor`, so that comparison is constantly false
and execution falls through to
`assert requirement == bt.Natural or requirement == bt.Probability`, which
fails with an `AssertionError` instead.  Evaluated here on a concrete
sample node (graph type `Boolean`, `sup(Boolean, Tensor) = Tensor`). -/
theorem convert_node_tensor_requirement_asserts :
    _convert_node 5 mulExample 2 Tensor 4 "left" = .error .assertionError ∧
    _convert_node 5 mulExample 2 Tensor 4 "left" ≠
      .error (.valueError "Unsupported type requirement: Tensor") := by
  constructor
  · decide
  · decide

/-! ### Claim C1: the per-edge invariant established by `fix_problems` -/

/-- The requirement vector of node `m` recomputed from the current
state. -/
def reqsOfNode (s : GState) (m : Nat) : List Requirement :=
  requirements_of (variantOf s m) (gtsOf s (inputsOf s m)) (itsOf s (inputsOf s m))

/-- The per-edge invariant of claim C1 at node `m`: every input edge
either meets its declared requirement or the error report holds a
`Violation` naming that producer, requirement, consumer and edge
label. -/
def EdgeInv (s : GState) (m : Nat) : Prop :=
  ∀ j, j < (reqsOfNode s m).length →
    meets_requirement (graphTypeOf s ((inputsOf s m)[j]?.getD 0))
      ((reqsOfNode s m)[j]?.getD (.exactly Malformed)) = true ∨
    (⟨(inputsOf s m)[j]?.getD 0, (reqsOfNode s m)[j]?.getD (.exactly Malformed),
      m, (edge_labels (variantOf s m))[j]?.getD ""⟩ : Violation) ∈ s.errors

/-- The number of inputs each variant is constructed with (the node
constructors of `bmg_nodes.py` all take a fixed operand tuple). -/
def arity : NodeVariant → Nat
  | .ConstantNode _ _ => 0
  | .BernoulliNode => 1
  | .BetaNode => 2
  | .BinomialNode => 2
  | .SampleNode => 1
  | .AdditionNode => 2
  | .MultiplicationNode => 2
  | .PowerNode => 2
  | .ToRealNode => 1
  | .ToPositiveRealNode => 1
  | .ToProbabilityNode => 1
  | .IfThenElseNode => 3
  | .ObservationNode _ => 1
  | .QueryNode => 1

/-- The invariants carried for the set `D` of settled handles (already
visited originals plus fixer-created nodes): in range, closed under
inputs, type caches coherent with recomputation, and both caches in the
scalar range. -/
structure DOk (s : GState) (D : Nat → Prop) : Prop where
  dlt : ∀ i, D i → i < s.nodes.length
  dclosed : ∀ i, D i → ∀ j ∈ inputsOf s i, D j
  dgt : ∀ i, D i →
    graphTypeOf s i = graph_type_of (variantOf s i) (gtsOf s (inputsOf s i))
  dit : ∀ i, D i →
    infTypeOf s i =
      inf_type_of (variantOf s i) (gtsOf s (inputsOf s i)) (itsOf s (inputsOf s i))
  dgts : ∀ i, D i → scalar_or_malformed (graphTypeOf s i) = true
  dits : ∀ i, D i → scalar_or_malformed (infTypeOf s i) = true
  dnm : ∀ i, D i → infTypeOf s i ≠ Malformed
  dar : ∀ i, i < s.nodes.length → (inputsOf s i).length = arity (variantOf s i)
  dcv : ∀ i v t, variantOf s i = .ConstantNode v t →
    scalar_or_malformed t = true

/-- Case analysis for the scalar range. -/
theorem som_cases {t : BMGLatticeType} (h : scalar_or_malformed t = true) :
    t = Malformed ∨ ∃ c, t = matrix c 1 1 := by
  cases t with
  | bottom => simp [scalar_or_malformed] at h
  | Tensor => simp [scalar_or_malformed] at h
  | Malformed => exact Or.inl rfl
  | matrix c r k =>
    refine Or.inr ⟨c, ?_⟩
    match r, k with
    | 1, 1 => rfl
    | 0, k => simp [scalar_or_malformed] at h
    | r + 2, k => simp [scalar_or_malformed] at h
    | 1, 0 => simp [scalar_or_malformed] at h
    | 1, k + 2 => simp [scalar_or_malformed] at h

/-- The supremum of two scalar-range types is in the scalar range. -/
theorem supT_som {a b : BMGLatticeType} (ha : scalar_or_malformed a = true)
    (hb : scalar_or_malformed b = true) :
    scalar_or_malformed (_supremum a b) = true := by
  rcases som_cases ha with rfl | ⟨c, rfl⟩ <;> rcases som_cases hb with rfl | ⟨c', rfl⟩
  · decide
  · revert c'; decide
  · revert c; decide
  · revert c c'; decide

theorem type_of_int_som (n : Int) :
    scalar_or_malformed (type_of_int n) = true := by
  unfold type_of_int
  split_ifs <;> decide

theorem type_of_value_som (v : Value) :
    scalar_or_malformed (type_of_value v) = true := by
  cases v with
  | bool b => cases b <;> decide
  | int n => exact type_of_int_som n
  | float q =>
    simp only [type_of_value]
    split_ifs with h1 h2 h3
    · exact type_of_int_som q.num
    · decide
    · decide
    · decide

theorem supT_malformed_right (t : BMGLatticeType) :
    _supremum t Malformed = Malformed := by
  cases t <;> rfl

theorem supT_malformed_left (t : BMGLatticeType) :
    _supremum Malformed t = Malformed := by
  cases t <;> rfl

/-- Absorption: `sup(a, sup(a, b)) = sup(a, b)` on non-malformed
scalars (checked against the source's asymmetric table). -/
theorem supT_absorb_left {a b : BMGLatticeType}
    (ha : scalar_or_malformed a = true) (hna : a ≠ Malformed)
    (hb : scalar_or_malformed b = true) (hnb : b ≠ Malformed) :
    _supremum a (_supremum a b) = _supremum a b := by
  rcases som_cases ha with rfl | ⟨c, rfl⟩
  · exact absurd rfl hna
  rcases som_cases hb with rfl | ⟨c', rfl⟩
  · exact absurd rfl hnb
  revert c c'; decide

/-- Absorption: `sup(sup(a, b), b) = sup(a, b)` on non-malformed scalars. -/
theorem supT_absorb_right {a b : BMGLatticeType}
    (ha : scalar_or_malformed a = true) (hna : a ≠ Malformed)
    (hb : scalar_or_malformed b = true) (hnb : b ≠ Malformed) :
    _supremum (_supremum a b) b = _supremum a b := by
  rcases som_cases ha with rfl | ⟨c, rfl⟩
  · exact absurd rfl hna
  rcases som_cases hb with rfl | ⟨c', rfl⟩
  · exact absurd rfl hnb
  revert c c'; decide

/-- Absorption: `sup(b, sup(a, b)) = sup(a, b)` on non-malformed scalars. -/
theorem supT_absorb_mid {a b : BMGLatticeType}
    (ha : scalar_or_malformed a = true) (hna : a ≠ Malformed)
    (hb : scalar_or_malformed b = true) (hnb : b ≠ Malformed) :
    _supremum b (_supremum a b) = _supremum a b := by
  rcases som_cases ha with rfl | ⟨c, rfl⟩
  · exact absurd rfl hna
  rcases som_cases hb with rfl | ⟨c', rfl⟩
  · exact absurd rfl hnb
  revert c c'; decide

/-- The supremum of two non-malformed scalars is not malformed. -/
theorem supT_nm {a b : BMGLatticeType}
    (ha : scalar_or_malformed a = true) (hna : a ≠ Malformed)
    (hb : scalar_or_malformed b = true) (hnb : b ≠ Malformed) :
    _supremum a b ≠ Malformed := by
  rcases som_cases ha with rfl | ⟨c, rfl⟩
  · exact absurd rfl hna
  rcases som_cases hb with rfl | ⟨c', rfl⟩
  · exact absurd rfl hnb
  revert c c'; decide

theorem type_of_int_nm (n : Int) : type_of_int n ≠ Malformed := by
  unfold type_of_int
  split_ifs <;> decide

theorem type_of_value_nm (v : Value) : type_of_value v ≠ Malformed := by
  cases v with
  | bool b => cases b <;> decide
  | int n => exact type_of_int_nm n
  | float q =>
    simp only [type_of_value]
    split_ifs
    · exact type_of_int_nm q.num
    · decide
    · decide
    · decide

/-! ### Persistence of node entries, `DOk` and `EdgeInv` under extension -/

theorem getp {l l' : List NodeData} (h : l <+: l') {j : Nat}
    (hj : j < l.length) : l'[j]? = l[j]? := by
  obtain ⟨t, rfl⟩ := h
  rw [List.getElem?_append, if_pos hj]

theorem variantOf_pre {s s' : GState} (h : s.nodes <+: s'.nodes) {j : Nat}
    (hj : j < s.nodes.length) : variantOf s' j = variantOf s j := by
  simp only [variantOf]; rw [getp h hj]

theorem inputsOf_pre {s s' : GState} (h : s.nodes <+: s'.nodes) {j : Nat}
    (hj : j < s.nodes.length) : inputsOf s' j = inputsOf s j := by
  simp only [inputsOf]; rw [getp h hj]

theorem graphTypeOf_pre {s s' : GState} (h : s.nodes <+: s'.nodes) {j : Nat}
    (hj : j < s.nodes.length) : graphTypeOf s' j = graphTypeOf s j := by
  simp only [graphTypeOf]; rw [getp h hj]

theorem infTypeOf_pre {s s' : GState} (h : s.nodes <+: s'.nodes) {j : Nat}
    (hj : j < s.nodes.length) : infTypeOf s' j = infTypeOf s j := by
  simp only [infTypeOf]; rw [getp h hj]

theorem gtsOf_pre {s s' : GState} (h : s.nodes <+: s'.nodes) {ins : List Nat}
    (hins : ∀ j ∈ ins, j < s.nodes.length) : gtsOf s' ins = gtsOf s ins := by
  simp only [gtsOf]
  exact List.map_congr_left fun j hj => graphTypeOf_pre h (hins j hj)

theorem itsOf_pre {s s' : GState} (h : s.nodes <+: s'.nodes) {ins : List Nat}
    (hins : ∀ j ∈ ins, j < s.nodes.length) : itsOf s' ins = itsOf s ins := by
  simp only [itsOf]
  exact List.map_congr_left fun j hj => infTypeOf_pre h (hins j hj)

theorem reqsOfNode_pre {s s' : GState} (h : s.nodes <+: s'.nodes) {m : Nat}
    (hm : m < s.nodes.length) (hins : ∀ j ∈ inputsOf s m, j < s.nodes.length) :
    reqsOfNode s' m = reqsOfNode s m := by
  unfold reqsOfNode
  rw [variantOf_pre h hm, inputsOf_pre h hm, gtsOf_pre h hins, itsOf_pre h hins]

/-- `EdgeInv` persists under appending nodes and errors, as long as the
node and its inputs are existing handles. -/
theorem EdgeInv_pre {s s' : GState} (hn : s.nodes <+: s'.nodes)
    (he : s.errors <+: s'.errors) {m : Nat} (hm : m < s.nodes.length)
    (hins : ∀ j ∈ inputsOf s m, j < s.nodes.length)
    (hlen : (reqsOfNode s m).length ≤ (inputsOf s m).length)
    (h : EdgeInv s m) : EdgeInv s' m := by
  intro j hj
  rw [reqsOfNode_pre hn hm hins] at hj ⊢
  rw [variantOf_pre hn hm, inputsOf_pre hn hm]
  have hmem : (inputsOf s m)[j]?.getD 0 ∈ inputsOf s m := by
    have hjl : j < (inputsOf s m).length := lt_of_lt_of_le hj hlen
    rw [List.getElem?_eq_getElem hjl]
    exact List.getElem_mem _
  rcases h j hj with hmeets | hviol
  · left
    rw [graphTypeOf_pre hn (hins _ hmem)]
    exact hmeets
  · right
    exact (he.sublist).subset hviol

/-- The appended-handle window between two states. -/
def Dx (s s' : GState) (D : Nat → Prop) : Nat → Prop :=
  fun i => D i ∨ (s.nodes.length ≤ i ∧ i < s'.nodes.length)

theorem dok_iff {s : GState} {D D' : Nat → Prop} (h : DOk s D)
    (hiff : ∀ i, D' i ↔ D i) : DOk s D' :=
  ⟨fun i hi => h.dlt i ((hiff i).mp hi),
   fun i hi j hj => (hiff j).mpr (h.dclosed i ((hiff i).mp hi) j hj),
   fun i hi => h.dgt i ((hiff i).mp hi),
   fun i hi => h.dit i ((hiff i).mp hi),
   fun i hi => h.dgts i ((hiff i).mp hi),
   fun i hi => h.dits i ((hiff i).mp hi),
   fun i hi => h.dnm i ((hiff i).mp hi),
   h.dar, h.dcv⟩

theorem variantOf_oob {s : GState} {i : Nat} (h : s.nodes.length ≤ i) :
    variantOf s i = .QueryNode := by
  simp [variantOf, List.getElem?_eq_none h]

theorem dok_errors {s : GState} {D : Nat → Prop} (es : List Violation)
    (h : DOk s D) : DOk ⟨s.nodes, es⟩ D :=
  ⟨h.dlt, h.dclosed, h.dgt, h.dit, h.dgts, h.dits, h.dnm, h.dar, h.dcv⟩

/-- Extending the arena with one well-typed node (inputs settled, scalar
range respected) preserves the `DOk` bundle, with the fresh handle
settled. -/
theorem dok_add {s : GState} {D : Nat → Prop} (h : DOk s D) (v : NodeVariant)
    (ins : List Nat) (hins : ∀ j ∈ ins, D j) (har : ins.length = arity v)
    (hcv : ∀ val t, v = .ConstantNode val t → scalar_or_malformed t = true)
    (hgs : scalar_or_malformed (graph_type_of v (gtsOf s ins)) = true)
    (his : scalar_or_malformed (inf_type_of v (gtsOf s ins) (itsOf s ins)) = true)
    (hnm : inf_type_of v (gtsOf s ins) (itsOf s ins) ≠ Malformed) :
    DOk (add_node s v ins).1 (fun i => D i ∨ i = s.nodes.length) := by
  obtain ⟨hv, hi, hg, hit, herr, hpre, hlt⟩ := add_node_spec2 s v ins
  have hlen : (add_node s v ins).1.nodes.length = s.nodes.length + 1 := by
    simp [add_node]
  have hinlt : ∀ j ∈ ins, j < s.nodes.length := fun j hj => h.dlt j (hins j hj)
  have hgts : gtsOf (add_node s v ins).1 ins = gtsOf s ins := gtsOf_pre hpre hinlt
  have hits : itsOf (add_node s v ins).1 ins = itsOf s ins := itsOf_pre hpre hinlt
  have hclt : ∀ i, D i → ∀ j ∈ inputsOf s i, j < s.nodes.length :=
    fun i hD j hj => h.dlt j (h.dclosed i hD j hj)
  refine ⟨?_, ?_, ?_, ?_, ?_, ?_, ?_, ?_, ?_⟩
  · rintro i (hD | rfl)
    · have := h.dlt i hD
      omega
    · omega
  · rintro i (hD | rfl) j hj
    · rw [inputsOf_pre hpre (h.dlt i hD)] at hj
      exact Or.inl (h.dclosed i hD j hj)
    · rw [show inputsOf (add_node s v ins).1 s.nodes.length = ins from hi] at hj
      exact Or.inl (hins j hj)
  · rintro i (hD | rfl)
    · rw [graphTypeOf_pre hpre (h.dlt i hD), variantOf_pre hpre (h.dlt i hD),
        inputsOf_pre hpre (h.dlt i hD), gtsOf_pre hpre (hclt i hD)]
      exact h.dgt i hD
    · rw [show graphTypeOf (add_node s v ins).1 s.nodes.length =
          graph_type_of v (gtsOf s ins) from hg,
        show variantOf (add_node s v ins).1 s.nodes.length = v from hv,
        show inputsOf (add_node s v ins).1 s.nodes.length = ins from hi, hgts]
  · rintro i (hD | rfl)
    · rw [infTypeOf_pre hpre (h.dlt i hD), variantOf_pre hpre (h.dlt i hD),
        inputsOf_pre hpre (h.dlt i hD), gtsOf_pre hpre (hclt i hD),
        itsOf_pre hpre (hclt i hD)]
      exact h.dit i hD
    · rw [show infTypeOf (add_node s v ins).1 s.nodes.length =
          inf_type_of v (gtsOf s ins) (itsOf s ins) from hit,
        show variantOf (add_node s v ins).1 s.nodes.length = v from hv,
        show inputsOf (add_node s v ins).1 s.nodes.length = ins from hi, hgts, hits]
  · rintro i (hD | rfl)
    · rw [graphTypeOf_pre hpre (h.dlt i hD)]
      exact h.dgts i hD
    · rw [show graphTypeOf (add_node s v ins).1 s.nodes.length =
          graph_type_of v (gtsOf s ins) from hg]
      exact hgs
  · rintro i (hD | rfl)
    · rw [infTypeOf_pre hpre (h.dlt i hD)]
      exact h.dits i hD
    · rw [show infTypeOf (add_node s v ins).1 s.nodes.length =
          inf_type_of v (gtsOf s ins) (itsOf s ins) from hit]
      exact his
  · rintro i (hD | rfl)
    · rw [infTypeOf_pre hpre (h.dlt i hD)]
      exact h.dnm i hD
    · rw [show infTypeOf (add_node s v ins).1 s.nodes.length =
          inf_type_of v (gtsOf s ins) (itsOf s ins) from hit]
      exact hnm
  · intro i hilt
    rw [hlen] at hilt
    rcases Nat.lt_succ_iff_lt_or_eq.mp hilt with hlt2 | rfl
    · rw [inputsOf_pre hpre hlt2, variantOf_pre hpre hlt2]
      exact h.dar i hlt2
    · rw [show inputsOf (add_node s v ins).1 s.nodes.length = ins from hi,
        show variantOf (add_node s v ins).1 s.nodes.length = v from hv]
      exact har
  · intro i val t hvar
    by_cases hc1 : i < s.nodes.length
    · rw [variantOf_pre hpre hc1] at hvar
      exact h.dcv i val t hvar
    · by_cases hc2 : i = s.nodes.length
      · subst hc2
        rw [show variantOf (add_node s v ins).1 s.nodes.length = v from hv] at hvar
        exact hcv val t hvar
      · rw [variantOf_oob (by omega)] at hvar
        cases hvar

/-- With the constructor arity respected, the requirement vector and the
edge labels both have exactly one entry per input. -/
theorem reqs_len (v : NodeVariant) (s : GState) (ins : List Nat)
    (h : ins.length = arity v) :
    (requirements_of v (gtsOf s ins) (itsOf s ins)).length = arity v ∧
    (edge_labels v).length = arity v := by
  cases v with
  | ConstantNode val t => exact ⟨rfl, rfl⟩
  | BernoulliNode => exact ⟨rfl, rfl⟩
  | BetaNode => exact ⟨rfl, rfl⟩
  | BinomialNode => exact ⟨rfl, rfl⟩
  | SampleNode =>
    obtain ⟨a, rfl⟩ := List.length_eq_one.mp h
    exact ⟨rfl, rfl⟩
  | AdditionNode =>
    obtain ⟨a, b, rfl⟩ := List.length_eq_two.mp h
    exact ⟨rfl, rfl⟩
  | MultiplicationNode =>
    obtain ⟨a, b, rfl⟩ := List.length_eq_two.mp h
    refine ⟨?_, rfl⟩
    show (requirements_of .MultiplicationNode _ [infTypeOf s a, infTypeOf s b]).length = 2
    simp only [requirements_of]
    split_ifs <;> rfl
  | PowerNode =>
    obtain ⟨a, b, rfl⟩ := List.length_eq_two.mp h
    exact ⟨rfl, rfl⟩
  | ToRealNode =>
    obtain ⟨a, rfl⟩ := List.length_eq_one.mp h
    exact ⟨rfl, rfl⟩
  | ToPositiveRealNode =>
    obtain ⟨a, rfl⟩ := List.length_eq_one.mp h
    exact ⟨rfl, rfl⟩
  | ToProbabilityNode =>
    obtain ⟨a, rfl⟩ := List.length_eq_one.mp h
    exact ⟨rfl, rfl⟩
  | IfThenElseNode =>
    obtain ⟨a, b, c, rfl⟩ := List.length_eq_three.mp h
    exact ⟨rfl, rfl⟩
  | ObservationNode val =>
    obtain ⟨a, rfl⟩ := List.length_eq_one.mp h
    exact ⟨rfl, rfl⟩
  | QueryNode =>
    obtain ⟨a, rfl⟩ := List.length_eq_one.mp h
    exact ⟨rfl, rfl⟩

theorem gt_toReal_som (g : BMGLatticeType) :
    scalar_or_malformed (graph_type_of .ToRealNode [g]) = true := by
  show scalar_or_malformed (if _supremum g Real = Real then Real else Malformed) = true
  split <;> decide

theorem gt_toPos_som (g : BMGLatticeType) :
    scalar_or_malformed (graph_type_of .ToPositiveRealNode [g]) = true := by
  show scalar_or_malformed
    (if _supremum g PositiveReal = PositiveReal then PositiveReal else Malformed) = true
  split <;> decide

theorem gt_toProb_som (g : BMGLatticeType) :
    scalar_or_malformed (graph_type_of .ToProbabilityNode [g]) = true := by
  show scalar_or_malformed (if _supremum g Real = Real then Probability else Malformed) = true
  split <;> decide

theorem gt_ite_som {c t a : BMGLatticeType} (ht : scalar_or_malformed t = true) :
    scalar_or_malformed (graph_type_of .IfThenElseNode [c, t, a]) = true := by
  show scalar_or_malformed (if c = Boolean ∧ t = a then t else Malformed) = true
  split
  · exact ht
  · decide

theorem it_ite_som {cg tg ag ci ti ai : BMGLatticeType}
    (hti : scalar_or_malformed ti = true) (hai : scalar_or_malformed ai = true) :
    scalar_or_malformed (inf_type_of .IfThenElseNode [cg, tg, ag] [ci, ti, ai]) = true := by
  show scalar_or_malformed
    (if cg = Boolean ∧ tg = ag ∧ scalar_or_malformed tg then tg else _supremum ti ai) = true
  split
  · rename_i h
    exact h.2.2
  · exact supT_som hti hai

theorem assert_bind {α : Type} {b : Bool} {k : Except PyError α} {r : α}
    (h : (assertCond b >>= fun _ => k) = .ok r) : b = true ∧ k = .ok r := by
  cases b
  · exact Except.noConfusion h
  · exact ⟨rfl, h⟩

theorem bind_eq_ok {α β : Type} {e : Except PyError α} {f : α → Except PyError β}
    {r : β} (h : (e >>= f) = .ok r) : ∃ a, e = .ok a ∧ f a = .ok r := by
  cases e with
  | error err => exact Except.noConfusion h
  | ok a => exact ⟨a, rfl, h⟩

/-- Both components of the state grow by appending only. -/
def Extends (s s' : GState) : Prop :=
  s.nodes <+: s'.nodes ∧ s.errors <+: s'.errors

theorem Extends.rfl {s : GState} : Extends s s :=
  ⟨List.prefix_refl _, List.prefix_refl _⟩

theorem Extends.trans {s t u : GState} (h1 : Extends s t) (h2 : Extends t u) :
    Extends s u :=
  ⟨h1.1.trans h2.1, h1.2.trans h2.2⟩

theorem dx_nil {s s' : GState} (hl : s'.nodes.length ≤ s.nodes.length)
    (D : Nat → Prop) : ∀ i, Dx s s' D i ↔ D i := by
  intro i
  constructor
  · rintro (h | ⟨a, b⟩)
    · exact h
    · omega
  · exact Or.inl

theorem dx_one {s : GState} (v : NodeVariant) (ins : List Nat) (D : Nat → Prop) :
    ∀ i, Dx s (add_node s v ins).1 D i ↔ (D i ∨ i = s.nodes.length) := by
  have hlen : (add_node s v ins).1.nodes.length = s.nodes.length + 1 := by
    simp [add_node]
  intro i
  constructor
  · rintro (h | ⟨a, b⟩)
    · exact Or.inl h
    · right; omega
  · rintro (h | rfl)
    · exact Or.inl h
    · right; omega

/-- The meet-handler postcondition bundle: the state only grows, the
settled set (extended by the appended window) keeps its invariants, the
returned handle is settled, it meets the requirement unless the original
was returned with a `Violation` recorded (which only happens when the
`inf_type` does not even fit under the requirement), the returned
`inf_type` is constrained, and every appended node already satisfies the
C1 edge invariant. -/
def MeetPost (s : GState) (n : Nat) (req : Requirement) (c : Nat) (e : String)
    (s' : GState) (n' : Nat) (D : Nat → Prop) : Prop :=
  Extends s s' ∧
  DOk s' (Dx s s' D) ∧
  Dx s s' D n' ∧
  (meets_requirement (graphTypeOf s' n') req = true ∨
    (n' = n ∧ (⟨n, req, c, e⟩ : Violation) ∈ s'.errors ∧
      meets_requirement (infTypeOf s n) (upper_bound req) = false)) ∧
  (n' = n ∨ infTypeOf s' n' = graphTypeOf s' n' ∨
    (infTypeOf s' n' = infTypeOf s n ∧
      ∃ cv ct, variantOf s n = .ConstantNode cv ct)) ∧
  (∀ a, s.nodes.length ≤ a → a < s'.nodes.length → EdgeInv s' a)

/-- The `_convert_node` postcondition bundle: as `MeetPost`, but nothing
is guaranteed about the requirement itself (the caller's assert checks
it); instead, whenever the conversion produced a well-typed node, that
node satisfies the edge invariant and pins its `inf_type`. -/
def ConvPost (s : GState) (n : Nat) (s' : GState) (n' : Nat)
    (D : Nat → Prop) : Prop :=
  Extends s s' ∧
  DOk s' (Dx s s' D) ∧
  Dx s s' D n' ∧
  (graphTypeOf s' n' ≠ Malformed →
    (s.nodes.length ≤ n' → EdgeInv s' n') ∧
    (infTypeOf s' n' = graphTypeOf s' n' ∨
      (infTypeOf s' n' = infTypeOf s n ∧
        ∃ cv ct, variantOf s n = .ConstantNode cv ct))) ∧
  (∀ a, s.nodes.length ≤ a → a < s'.nodes.length → a ≠ n' → EdgeInv s' a)

def MeetOK (fuel : Nat) : Prop :=
  ∀ s n req c e s' n', meet_requirement fuel s n req c e = .ok (s', n') →
    ∀ D, DOk s D → D n → scalar_or_malformed (requirement_to_type req) = true →
      MeetPost s n req c e s' n' D

def OpOK (fuel : Nat) : Prop :=
  ∀ s n req c e s' n', _meet_operator_requirement fuel s n req c e = .ok (s', n') →
    ∀ D, DOk s D → D n → scalar_or_malformed (requirement_to_type req) = true →
      MeetPost s n req c e s' n' D

def ConvOK (fuel : Nat) : Prop :=
  ∀ s n x c e s' n', _convert_node fuel s n x c e = .ok (s', n') →
    ∀ D, DOk s D → D n → scalar_or_malformed x = true →
      ConvPost s n s' n' D

def MulOK (fuel : Nat) : Prop :=
  ∀ s n x c e s' n',
    _convert_malformed_multiplication fuel s n x c e = .ok (s', n') →
    ∀ D, DOk s D → D n → scalar_or_malformed x = true →
      2 ≤ (inputsOf s n).length →
      ConvPost s n s' n' D

def PowOK (fuel : Nat) : Prop :=
  ∀ s n x c e s' n', _convert_malformed_power fuel s n x c e = .ok (s', n') →
    ∀ D, DOk s D → D n → scalar_or_malformed x = true →
      2 ≤ (inputsOf s n).length →
      ConvPost s n s' n' D

/-- The constant handler satisfies the meet postcondition. -/
theorem L_const {s : GState} {n : Nat} {req : Requirement} {c : Nat} {e : String}
    {s' : GState} {n' : Nat}
    (h : _meet_constant_requirement s n req c e = .ok (s', n'))
    (D : Nat → Prop) (hD : DOk s D) (hDn : D n)
    (hsom : scalar_or_malformed (requirement_to_type req) = true)
    {cv : Value} {ct : BMGLatticeType}
    (hvar : variantOf s n = .ConstantNode cv ct) :
    MeetPost s n req c e s' n' D := by
  have hval : valueOf s n = cv := by
    unfold valueOf
    rw [hvar]
  have hitn : infTypeOf s n = type_of_value cv := by
    rw [hD.dit n hDn, hvar]
    rfl
  simp only [_meet_constant_requirement, add_constant_of_matrix_type,
    add_constant_of_type, ite_self] at h
  split_ifs at h with h1 h2
  -- already meets: returned unchanged
  · simp only [Except.ok.injEq, Prod.mk.injEq] at h
    obtain ⟨rfl, rfl⟩ := h
    exact ⟨Extends.rfl, dok_iff hD (dx_nil (le_refl _) D), Or.inl hDn,
      Or.inl h1, Or.inl rfl, fun a ha1 ha2 => by omega⟩
  -- re-synthesized at the required type
  · obtain ⟨hassert, hp⟩ := assert_bind h
    simp only [Except.ok.injEq] at hp
    have hs' : s' = (add_node s (.ConstantNode (valueOf s n)
        (requirement_to_type req)) []).1 := by rw [hp]
    have hn' : n' = (add_node s (.ConstantNode (valueOf s n)
        (requirement_to_type req)) []).2 := by rw [hp]
    subst hs' hn'
    obtain ⟨hv, hi, hg, hit, herr, hpre, hlt⟩ :=
      add_node_spec2 s (.ConstantNode (valueOf s n) (requirement_to_type req)) []
    have hdok := dok_add hD (.ConstantNode (valueOf s n) (requirement_to_type req))
      [] (by intro j hj; cases hj) rfl
      (by intro val t heq; cases heq; exact hsom)
      (by rw [show graph_type_of (.ConstantNode (valueOf s n)
          (requirement_to_type req)) (gtsOf s []) = requirement_to_type req from rfl]
          exact hsom)
      (type_of_value_som _) (type_of_value_nm _)
    refine ⟨⟨hpre, by rw [herr]⟩,
      dok_iff hdok (fun i => (dx_one _ _ D i)), (dx_one _ _ D _).mpr (Or.inr rfl),
      Or.inl hassert, ?_, ?_⟩
    · right; right
      refine ⟨?_, cv, ct, hvar⟩
      rw [hit, hitn, hval]
      rfl
    · intro a ha1 ha2
      have hlen : (add_node s (.ConstantNode (valueOf s n)
          (requirement_to_type req)) []).1.nodes.length = s.nodes.length + 1 := by
        simp [add_node]
      have ha : a = s.nodes.length := by
        have := hlen ▸ ha2
        omega
      subst ha
      intro j hj
      unfold reqsOfNode at hj
      have hv' : variantOf (add_node s (.ConstantNode (valueOf s n)
          (requirement_to_type req)) []).1 s.nodes.length =
          .ConstantNode (valueOf s n) (requirement_to_type req) := hv
      rw [hv'] at hj
      simp [requirements_of] at hj
  -- violation recorded, node returned unchanged
  · simp only [Except.ok.injEq, Prod.mk.injEq] at h
    obtain ⟨rfl, rfl⟩ := h
    refine ⟨⟨List.prefix_refl _, List.prefix_append _ _⟩,
      dok_iff (dok_errors _ hD) (dx_nil (le_refl _) D), Or.inl hDn,
      Or.inr ⟨rfl, List.mem_append_right _ (List.mem_singleton_self _),
        eq_false_of_ne_true h2⟩,
      Or.inl rfl, fun a ha1 ha2 => absurd (lt_of_le_of_lt ha1 ha2) (lt_irrefl _)⟩

/-- The distribution handler satisfies the meet postcondition. -/
theorem L_dist {s : GState} {n : Nat} {req : Requirement} {c : Nat} {e : String}
    {s' : GState} {n' : Nat}
    (h : _meet_distribution_requirement s n req c e = .ok (s', n'))
    (D : Nat → Prop) (hD : DOk s D) (hDn : D n)
    (hgtit : graphTypeOf s n = infTypeOf s n) :
    MeetPost s n req c e s' n' D := by
  simp only [_meet_distribution_requirement] at h
  obtain ⟨ha1, h⟩ := assert_bind h
  obtain ⟨ha2, h⟩ := assert_bind h
  simp only [Except.ok.injEq, Prod.mk.injEq] at h
  obtain ⟨rfl, rfl⟩ := h
  have hreq : req = .exactly (infTypeOf s n) := of_decide_eq_true ha2
  refine ⟨Extends.rfl, dok_iff hD (dx_nil (le_refl _) D), Or.inl hDn, Or.inl ?_,
    Or.inl rfl, fun a hb1 hb2 => absurd (lt_of_le_of_lt hb1 hb2) (lt_irrefl _)⟩
  rw [hreq, hgtit]
  have hnm := hD.dnm n hDn
  simp [meets_requirement, hnm]

/-- A constant node has no edges, hence a trivial edge invariant. -/
theorem EdgeInv_const {s' : GState} {a : Nat} {cv : Value} {ct : BMGLatticeType}
    (hv : variantOf s' a = .ConstantNode cv ct) : EdgeInv s' a := by
  intro j hj
  unfold reqsOfNode at hj
  rw [hv] at hj
  simp [requirements_of] at hj

theorem dx_trans_iff {s t u : GState} (D : Nat → Prop)
    (h1 : s.nodes.length ≤ t.nodes.length)
    (h2 : t.nodes.length ≤ u.nodes.length) :
    ∀ i, Dx t u (Dx s t D) i ↔ Dx s u D i := by
  intro i
  unfold Dx
  constructor
  · rintro ((h | ⟨a, b⟩) | ⟨a, b⟩)
    · exact Or.inl h
    · right; omega
    · right; omega
  · rintro (h | ⟨a, b⟩)
    · exact Or.inl (Or.inl h)
    · by_cases hc : i < t.nodes.length
      · left; right; omega
      · right; omega

/-- The `if node then 1 else 0` construction of `_convert_node` (natural
or probability requirement, boolean-convertible operand) satisfies the
conversion postcondition. -/
theorem build_ite_spec (s : GState) (n : Nat) (x : BMGLatticeType) (D : Nat → Prop)
    (hD : DOk s D) (hDn : D n) (hx : x ≠ Malformed)
    (hsx : scalar_or_malformed x = true) :
    ConvPost s n
      (add_node (add_node (add_node s (.ConstantNode (.float 0) x) []).1
          (.ConstantNode (.float 1) x) []).1 .IfThenElseNode
        [n, (add_node (add_node s (.ConstantNode (.float 0) x) []).1
          (.ConstantNode (.float 1) x) []).2,
         (add_node s (.ConstantNode (.float 0) x) []).2]).1
      (add_node (add_node (add_node s (.ConstantNode (.float 0) x) []).1
          (.ConstantNode (.float 1) x) []).1 .IfThenElseNode
        [n, (add_node (add_node s (.ConstantNode (.float 0) x) []).1
          (.ConstantNode (.float 1) x) []).2,
         (add_node s (.ConstantNode (.float 0) x) []).2]).2 D := by
  have hnlt := hD.dlt n hDn
  obtain ⟨hvA, hiA, hgA, hitA, herrA, hpreA, hltA⟩ :=
    add_node_spec2 s (.ConstantNode (.float 0) x) []
  have hdokA := dok_add hD (.ConstantNode (.float 0) x) []
    (fun j hj => absurd hj (List.not_mem_nil _)) rfl
    (fun val' t' heq => by cases heq; exact hsx)
    hsx (type_of_value_som (.float 0)) (type_of_value_nm (.float 0))
  obtain ⟨hvB, hiB, hgB, hitB, herrB, hpreB, hltB⟩ :=
    add_node_spec2 (add_node s (.ConstantNode (.float 0) x) []).1
      (.ConstantNode (.float 1) x) []
  have hdokB := dok_add hdokA (.ConstantNode (.float 1) x) []
    (fun j hj => absurd hj (List.not_mem_nil _)) rfl
    (fun val' t' heq => by cases heq; exact hsx)
    hsx (type_of_value_som (.float 1)) (type_of_value_nm (.float 1))
  have lenA : (add_node s (.ConstantNode (.float 0) x) []).1.nodes.length =
      s.nodes.length + 1 := by simp [add_node]
  have lenB : (add_node (add_node s (.ConstantNode (.float 0) x) []).1
      (.ConstantNode (.float 1) x) []).1.nodes.length = s.nodes.length + 2 := by
    simp [add_node]
  -- graph/inf types of the three ITE operands in the two-constants state
  have hgn : graphTypeOf (add_node (add_node s (.ConstantNode (.float 0) x) []).1
      (.ConstantNode (.float 1) x) []).1 n = graphTypeOf s n := by
    rw [graphTypeOf_pre hpreB (by omega), graphTypeOf_pre hpreA hnlt]
  have hitn : infTypeOf (add_node (add_node s (.ConstantNode (.float 0) x) []).1
      (.ConstantNode (.float 1) x) []).1 n = infTypeOf s n := by
    rw [infTypeOf_pre hpreB (by omega), infTypeOf_pre hpreA hnlt]
  have hgB2 : graphTypeOf (add_node (add_node s (.ConstantNode (.float 0) x) []).1
      (.ConstantNode (.float 1) x) []).1
      (add_node (add_node s (.ConstantNode (.float 0) x) []).1
        (.ConstantNode (.float 1) x) []).2 = x := hgB
  have hitB2 : infTypeOf (add_node (add_node s (.ConstantNode (.float 0) x) []).1
      (.ConstantNode (.float 1) x) []).1
      (add_node (add_node s (.ConstantNode (.float 0) x) []).1
        (.ConstantNode (.float 1) x) []).2 = BMGTypes.One := hitB
  have hgA2 : graphTypeOf (add_node (add_node s (.ConstantNode (.float 0) x) []).1
      (.ConstantNode (.float 1) x) []).1
      (add_node s (.ConstantNode (.float 0) x) []).2 = x := by
    rw [graphTypeOf_pre hpreB hltA]
    exact hgA
  have hitA2 : infTypeOf (add_node (add_node s (.ConstantNode (.float 0) x) []).1
      (.ConstantNode (.float 1) x) []).1
      (add_node s (.ConstantNode (.float 0) x) []).2 = BMGTypes.Zero := by
    rw [infTypeOf_pre hpreB hltA]
    exact hitA
  obtain ⟨hvC, hiC, hgC, hitC, herrC, hpreC, hltC⟩ :=
    add_node_spec2 (add_node (add_node s (.ConstantNode (.float 0) x) []).1
        (.ConstantNode (.float 1) x) []).1 .IfThenElseNode
      [n, (add_node (add_node s (.ConstantNode (.float 0) x) []).1
        (.ConstantNode (.float 1) x) []).2,
       (add_node s (.ConstantNode (.float 0) x) []).2]
  have hgts : gtsOf (add_node (add_node s (.ConstantNode (.float 0) x) []).1
      (.ConstantNode (.float 1) x) []).1
      [n, (add_node (add_node s (.ConstantNode (.float 0) x) []).1
        (.ConstantNode (.float 1) x) []).2,
       (add_node s (.ConstantNode (.float 0) x) []).2] =
      [graphTypeOf s n, x, x] := by
    show [graphTypeOf _ n, graphTypeOf _ _, graphTypeOf _ _] = _
    rw [hgn, hgB2, hgA2]
  have hits : itsOf (add_node (add_node s (.ConstantNode (.float 0) x) []).1
      (.ConstantNode (.float 1) x) []).1
      [n, (add_node (add_node s (.ConstantNode (.float 0) x) []).1
        (.ConstantNode (.float 1) x) []).2,
       (add_node s (.ConstantNode (.float 0) x) []).2] =
      [infTypeOf s n, BMGTypes.One, BMGTypes.Zero] := by
    show [infTypeOf _ n, infTypeOf _ _, infTypeOf _ _] = _
    rw [hitn, hitB2, hitA2]
  have hdokC := dok_add hdokB .IfThenElseNode
    [n, (add_node (add_node s (.ConstantNode (.float 0) x) []).1
      (.ConstantNode (.float 1) x) []).2,
     (add_node s (.ConstantNode (.float 0) x) []).2]
    (by
      intro j hj
      simp only [List.mem_cons, List.mem_nil_iff, or_false] at hj
      rcases hj with rfl | rfl | rfl
      · exact Or.inl (Or.inl hDn)
      · exact Or.inr rfl
      · exact Or.inl (Or.inr rfl))
    rfl
    (fun val' t' heq => by cases heq)
    (by rw [hgts]; exact gt_ite_som hsx)
    (by rw [hgts, hits]; exact it_ite_som (by decide) (by decide))
    (by
      rw [hgts, hits]
      show (if graphTypeOf s n = Boolean ∧ x = x ∧ scalar_or_malformed x
        then x else _supremum BMGTypes.One BMGTypes.Zero) ≠ Malformed
      split
      · exact hx
      · decide)
  have lenC : (add_node (add_node (add_node s (.ConstantNode (.float 0) x) []).1
      (.ConstantNode (.float 1) x) []).1 .IfThenElseNode
      [n, (add_node (add_node s (.ConstantNode (.float 0) x) []).1
        (.ConstantNode (.float 1) x) []).2,
       (add_node s (.ConstantNode (.float 0) x) []).2]).1.nodes.length =
      s.nodes.length + 3 := by
    simp [add_node]
  have hc2len : (add_node (add_node (add_node s (.ConstantNode (.float 0) x) []).1
      (.ConstantNode (.float 1) x) []).1 .IfThenElseNode
      [n, (add_node (add_node s (.ConstantNode (.float 0) x) []).1
        (.ConstantNode (.float 1) x) []).2,
       (add_node s (.ConstantNode (.float 0) x) []).2]).2 =
      s.nodes.length + 2 := by
    show (add_node (add_node s (.ConstantNode (.float 0) x) []).1
      (.ConstantNode (.float 1) x) []).1.nodes.length = _
    rw [lenB]
  have hmemlt : ∀ j ∈ [n, (add_node (add_node s (.ConstantNode (.float 0) x) []).1
      (.ConstantNode (.float 1) x) []).2,
      (add_node s (.ConstantNode (.float 0) x) []).2],
      j < (add_node (add_node s (.ConstantNode (.float 0) x) []).1
        (.ConstantNode (.float 1) x) []).1.nodes.length := by
    intro j hj
    simp only [List.mem_cons, List.mem_nil_iff, or_false] at hj
    rcases hj with rfl | rfl | rfl
    · omega
    · exact hltB
    · show s.nodes.length < _
      omega
  refine ⟨⟨(hpreA.trans hpreB).trans hpreC, ?_⟩, ?_, ?_, ?_, ?_⟩
  · rw [herrC, herrB, herrA]
  · refine dok_iff hdokC ?_
    intro i
    constructor
    · rintro (hDi | ⟨h1, h2⟩)
      · exact Or.inl (Or.inl (Or.inl hDi))
      · rw [lenC] at h2
        by_cases hc0 : i = s.nodes.length
        · exact Or.inl (Or.inl (Or.inr hc0))
        · by_cases hc1 : i = s.nodes.length + 1
          · exact Or.inl (Or.inr (by rw [lenA]; omega))
          · exact Or.inr (by rw [lenB]; omega)
    · rintro (((hDi | h0) | hA) | hB)
      · exact Or.inl hDi
      · right
        rw [lenC]
        omega
      · right
        rw [lenA] at hA
        rw [lenC]
        omega
      · right
        rw [lenB] at hB
        rw [lenC]
        omega
  · right
    constructor
    · omega
    · exact hltC
  · intro hgm
    have hgC2 : graphTypeOf (add_node (add_node (add_node s
        (.ConstantNode (.float 0) x) []).1 (.ConstantNode (.float 1) x) []).1
        .IfThenElseNode
        [n, (add_node (add_node s (.ConstantNode (.float 0) x) []).1
          (.ConstantNode (.float 1) x) []).2,
         (add_node s (.ConstantNode (.float 0) x) []).2]).1
        (add_node (add_node (add_node s (.ConstantNode (.float 0) x) []).1
          (.ConstantNode (.float 1) x) []).1 .IfThenElseNode
        [n, (add_node (add_node s (.ConstantNode (.float 0) x) []).1
          (.ConstantNode (.float 1) x) []).2,
         (add_node s (.ConstantNode (.float 0) x) []).2]).2 =
        (if graphTypeOf s n = Boolean ∧ x = x then x else Malformed) := by
      rw [hgC, hgts]
      rfl
    have hgnB : graphTypeOf s n = Boolean := by
      by_cases hb : graphTypeOf s n = Boolean
      · exact hb
      · rw [hgC2, if_neg (fun hand => hb hand.1)] at hgm
        exact absurd rfl hgm
    have hgx : graphTypeOf (add_node (add_node (add_node s
        (.ConstantNode (.float 0) x) []).1 (.ConstantNode (.float 1) x) []).1
        .IfThenElseNode
        [n, (add_node (add_node s (.ConstantNode (.float 0) x) []).1
          (.ConstantNode (.float 1) x) []).2,
         (add_node s (.ConstantNode (.float 0) x) []).2]).1
        (add_node (add_node (add_node s (.ConstantNode (.float 0) x) []).1
          (.ConstantNode (.float 1) x) []).1 .IfThenElseNode
        [n, (add_node (add_node s (.ConstantNode (.float 0) x) []).1
          (.ConstantNode (.float 1) x) []).2,
         (add_node s (.ConstantNode (.float 0) x) []).2]).2 = x := by
      rw [hgC2, if_pos ⟨hgnB, rfl⟩]
    have hitx : infTypeOf (add_node (add_node (add_node s
        (.ConstantNode (.float 0) x) []).1 (.ConstantNode (.float 1) x) []).1
        .IfThenElseNode
        [n, (add_node (add_node s (.ConstantNode (.float 0) x) []).1
          (.ConstantNode (.float 1) x) []).2,
         (add_node s (.ConstantNode (.float 0) x) []).2]).1
        (add_node (add_node (add_node s (.ConstantNode (.float 0) x) []).1
          (.ConstantNode (.float 1) x) []).1 .IfThenElseNode
        [n, (add_node (add_node s (.ConstantNode (.float 0) x) []).1
          (.ConstantNode (.float 1) x) []).2,
         (add_node s (.ConstantNode (.float 0) x) []).2]).2 = x := by
      rw [hitC, hgts, hits]
      show (if graphTypeOf s n = Boolean ∧ x = x ∧ scalar_or_malformed x
        then x else _supremum BMGTypes.One BMGTypes.Zero) = x
      rw [if_pos ⟨hgnB, rfl, hsx⟩]
    refine ⟨fun _ => ?_, Or.inl (by rw [hitx, hgx])⟩
    intro j hj
    have hreqs : reqsOfNode (add_node (add_node (add_node s
        (.ConstantNode (.float 0) x) []).1 (.ConstantNode (.float 1) x) []).1
        .IfThenElseNode
        [n, (add_node (add_node s (.ConstantNode (.float 0) x) []).1
          (.ConstantNode (.float 1) x) []).2,
         (add_node s (.ConstantNode (.float 0) x) []).2]).1
        (add_node (add_node (add_node s (.ConstantNode (.float 0) x) []).1
          (.ConstantNode (.float 1) x) []).1 .IfThenElseNode
        [n, (add_node (add_node s (.ConstantNode (.float 0) x) []).1
          (.ConstantNode (.float 1) x) []).2,
         (add_node s (.ConstantNode (.float 0) x) []).2]).2 =
        [.exactly Boolean, .exactly x, .exactly x] := by
      unfold reqsOfNode
      rw [hvC, hiC, gtsOf_pre hpreC hmemlt, itsOf_pre hpreC hmemlt, hgts, hits]
      show [Requirement.exactly Boolean,
        .exactly (inf_type_of .IfThenElseNode [graphTypeOf s n, x, x]
          [infTypeOf s n, BMGTypes.One, BMGTypes.Zero]),
        .exactly (inf_type_of .IfThenElseNode [graphTypeOf s n, x, x]
          [infTypeOf s n, BMGTypes.One, BMGTypes.Zero])] = _
      rw [show inf_type_of .IfThenElseNode [graphTypeOf s n, x, x]
          [infTypeOf s n, BMGTypes.One, BMGTypes.Zero] =
          (if graphTypeOf s n = Boolean ∧ x = x ∧ scalar_or_malformed x
            then x else _supremum BMGTypes.One BMGTypes.Zero) from rfl,
        if_pos ⟨hgnB, rfl, hsx⟩]
    rw [hreqs] at hj ⊢
    rw [hiC]
    have hgnC : graphTypeOf (add_node (add_node (add_node s
        (.ConstantNode (.float 0) x) []).1 (.ConstantNode (.float 1) x) []).1
        .IfThenElseNode
        [n, (add_node (add_node s (.ConstantNode (.float 0) x) []).1
          (.ConstantNode (.float 1) x) []).2,
         (add_node s (.ConstantNode (.float 0) x) []).2]).1 n = Boolean := by
      rw [graphTypeOf_pre hpreC (by omega), hgn, hgnB]
    have hgB2C : graphTypeOf (add_node (add_node (add_node s
        (.ConstantNode (.float 0) x) []).1 (.ConstantNode (.float 1) x) []).1
        .IfThenElseNode
        [n, (add_node (add_node s (.ConstantNode (.float 0) x) []).1
          (.ConstantNode (.float 1) x) []).2,
         (add_node s (.ConstantNode (.float 0) x) []).2]).1
        (add_node (add_node s (.ConstantNode (.float 0) x) []).1
          (.ConstantNode (.float 1) x) []).2 = x := by
      rw [graphTypeOf_pre hpreC hltB, hgB2]
    have hgA2C : graphTypeOf (add_node (add_node (add_node s
        (.ConstantNode (.float 0) x) []).1 (.ConstantNode (.float 1) x) []).1
        .IfThenElseNode
        [n, (add_node (add_node s (.ConstantNode (.float 0) x) []).1
          (.ConstantNode (.float 1) x) []).2,
         (add_node s (.ConstantNode (.float 0) x) []).2]).1
        (add_node s (.ConstantNode (.float 0) x) []).2 = x := by
      rw [graphTypeOf_pre hpreC (by show s.nodes.length < _; omega), hgA2]
    match j, hj with
    | 0, _ =>
      left
      show meets_requirement (graphTypeOf _ n) (.exactly Boolean) = true
      rw [hgnC]
      decide
    | 1, _ =>
      left
      show meets_requirement (graphTypeOf _ ((add_node (add_node s
        (.ConstantNode (.float 0) x) []).1 (.ConstantNode (.float 1) x) []).2))
        (.exactly x) = true
      rw [hgB2C]
      simp [meets_requirement, hx]
    | 2, _ =>
      left
      show meets_requirement (graphTypeOf _ ((add_node s
        (.ConstantNode (.float 0) x) []).2)) (.exactly x) = true
      rw [hgA2C]
      simp [meets_requirement, hx]
  · intro a ha1 ha2 hane
    rw [lenC] at ha2
    rw [hc2len] at hane
    have hcase : a = s.nodes.length ∨ a = s.nodes.length + 1 := by omega
    rcases hcase with rfl | rfl
    · refine @EdgeInv_const _ _ (.float 0) x ?_
      have : variantOf (add_node (add_node (add_node s
          (.ConstantNode (.float 0) x) []).1 (.ConstantNode (.float 1) x) []).1
          .IfThenElseNode
          [n, (add_node (add_node s (.ConstantNode (.float 0) x) []).1
            (.ConstantNode (.float 1) x) []).2,
           (add_node s (.ConstantNode (.float 0) x) []).2]).1
          (add_node s (.ConstantNode (.float 0) x) []).2 =
          .ConstantNode (.float 0) x := by
        rw [variantOf_pre hpreC (by show s.nodes.length < _; omega),
          variantOf_pre hpreB hltA]
        exact hvA
      exact this
    · refine @EdgeInv_const _ _ (.float 1) x ?_
      have : variantOf (add_node (add_node (add_node s
          (.ConstantNode (.float 0) x) []).1 (.ConstantNode (.float 1) x) []).1
          .IfThenElseNode
          [n, (add_node (add_node s (.ConstantNode (.float 0) x) []).1
            (.ConstantNode (.float 1) x) []).2,
           (add_node s (.ConstantNode (.float 0) x) []).2]).1
          (add_node (add_node s (.ConstantNode (.float 0) x) []).1
            (.ConstantNode (.float 1) x) []).2 =
          .ConstantNode (.float 1) x := by
        rw [variantOf_pre hpreC hltB]
        exact hvB
      rw [show s.nodes.length + 1 = (add_node (add_node s
        (.ConstantNode (.float 0) x) []).1 (.ConstantNode (.float 1) x) []).2
        from by rw [← lenA]; rfl]
      exact this

/-- The `IfThenElse(cond, other, const-of-other-type)` rewrite performed
by the malformed-multiplication and malformed-power repairs: the built
node is well-typed at the other operand's `graph_type`, satisfies the
edge invariant, and preserves the settled set. -/
theorem repair_ite_spec (s : GState) (cond other : Nat) (val : Value)
    (D : Nat → Prop) (hD : DOk s D) (hDc : D cond) (hDo : D other)
    (hcb : graphTypeOf s cond = Boolean)
    (honm : graphTypeOf s other ≠ Malformed) :
    Extends s (add_node (add_node s (.ConstantNode val (graphTypeOf s other)) []).1
        .IfThenElseNode
        [cond, other, (add_node s (.ConstantNode val (graphTypeOf s other)) []).2]).1 ∧
    (add_node (add_node s (.ConstantNode val (graphTypeOf s other)) []).1
        .IfThenElseNode
        [cond, other, (add_node s (.ConstantNode val (graphTypeOf s other)) []).2]).1.errors
      = s.errors ∧
    DOk (add_node (add_node s (.ConstantNode val (graphTypeOf s other)) []).1
        .IfThenElseNode
        [cond, other, (add_node s (.ConstantNode val (graphTypeOf s other)) []).2]).1
      (Dx s (add_node (add_node s (.ConstantNode val (graphTypeOf s other)) []).1
        .IfThenElseNode
        [cond, other, (add_node s (.ConstantNode val (graphTypeOf s other)) []).2]).1 D) ∧
    Dx s (add_node (add_node s (.ConstantNode val (graphTypeOf s other)) []).1
        .IfThenElseNode
        [cond, other, (add_node s (.ConstantNode val (graphTypeOf s other)) []).2]).1 D
      (add_node (add_node s (.ConstantNode val (graphTypeOf s other)) []).1
        .IfThenElseNode
        [cond, other, (add_node s (.ConstantNode val (graphTypeOf s other)) []).2]).2 ∧
    graphTypeOf (add_node (add_node s (.ConstantNode val (graphTypeOf s other)) []).1
        .IfThenElseNode
        [cond, other, (add_node s (.ConstantNode val (graphTypeOf s other)) []).2]).1
      (add_node (add_node s (.ConstantNode val (graphTypeOf s other)) []).1
        .IfThenElseNode
        [cond, other, (add_node s (.ConstantNode val (graphTypeOf s other)) []).2]).2
      = graphTypeOf s other ∧
    infTypeOf (add_node (add_node s (.ConstantNode val (graphTypeOf s other)) []).1
        .IfThenElseNode
        [cond, other, (add_node s (.ConstantNode val (graphTypeOf s other)) []).2]).1
      (add_node (add_node s (.ConstantNode val (graphTypeOf s other)) []).1
        .IfThenElseNode
        [cond, other, (add_node s (.ConstantNode val (graphTypeOf s other)) []).2]).2
      = graphTypeOf s other ∧
    EdgeInv (add_node (add_node s (.ConstantNode val (graphTypeOf s other)) []).1
        .IfThenElseNode
        [cond, other, (add_node s (.ConstantNode val (graphTypeOf s other)) []).2]).1
      (add_node (add_node s (.ConstantNode val (graphTypeOf s other)) []).1
        .IfThenElseNode
        [cond, other, (add_node s (.ConstantNode val (graphTypeOf s other)) []).2]).2 ∧
    (∀ a, s.nodes.length ≤ a →
      a < (add_node (add_node s (.ConstantNode val (graphTypeOf s other)) []).1
        .IfThenElseNode
        [cond, other, (add_node s (.ConstantNode val (graphTypeOf s other)) []).2]).1.nodes.length →
      a ≠ (add_node (add_node s (.ConstantNode val (graphTypeOf s other)) []).1
        .IfThenElseNode
        [cond, other, (add_node s (.ConstantNode val (graphTypeOf s other)) []).2]).2 →
      EdgeInv (add_node (add_node s (.ConstantNode val (graphTypeOf s other)) []).1
        .IfThenElseNode
        [cond, other, (add_node s (.ConstantNode val (graphTypeOf s other)) []).2]).1 a) ∧
    variantOf (add_node (add_node s (.ConstantNode val (graphTypeOf s other)) []).1
        .IfThenElseNode
        [cond, other, (add_node s (.ConstantNode val (graphTypeOf s other)) []).2]).1
      (add_node (add_node s (.ConstantNode val (graphTypeOf s other)) []).1
        .IfThenElseNode
        [cond, other, (add_node s (.ConstantNode val (graphTypeOf s other)) []).2]).2
      = .IfThenElseNode ∧
    inputsOf (add_node (add_node s (.ConstantNode val (graphTypeOf s other)) []).1
        .IfThenElseNode
        [cond, other, (add_node s (.ConstantNode val (graphTypeOf s other)) []).2]).1
      (add_node (add_node s (.ConstantNode val (graphTypeOf s other)) []).1
        .IfThenElseNode
        [cond, other, (add_node s (.ConstantNode val (graphTypeOf s other)) []).2]).2
      = [cond, other, (add_node s (.ConstantNode val (graphTypeOf s other)) []).2] ∧
    variantOf (add_node (add_node s (.ConstantNode val (graphTypeOf s other)) []).1
        .IfThenElseNode
        [cond, other, (add_node s (.ConstantNode val (graphTypeOf s other)) []).2]).1
      (add_node s (.ConstantNode val (graphTypeOf s other)) []).2
      = .ConstantNode val (graphTypeOf s other) ∧
    (add_node (add_node s (.ConstantNode val (graphTypeOf s other)) []).1
        .IfThenElseNode
        [cond, other, (add_node s (.ConstantNode val (graphTypeOf s other)) []).2]).2
      = s.nodes.length + 1 ∧
    (add_node (add_node s (.ConstantNode val (graphTypeOf s other)) []).1
        .IfThenElseNode
        [cond, other, (add_node s (.ConstantNode val (graphTypeOf s other)) []).2]).1.nodes.length
      = s.nodes.length + 2 := by
  have hclt := hD.dlt cond hDc
  have holt := hD.dlt other hDo
  have hsog : scalar_or_malformed (graphTypeOf s other) = true := hD.dgts other hDo
  obtain ⟨hvA, hiA, hgA, hitA, herrA, hpreA, hltA⟩ :=
    add_node_spec2 s (.ConstantNode val (graphTypeOf s other)) []
  have hdokA := dok_add hD (.ConstantNode val (graphTypeOf s other)) []
    (fun j hj => absurd hj (List.not_mem_nil _)) rfl
    (fun val' t' heq => by cases heq; exact hsog)
    hsog (type_of_value_som val) (type_of_value_nm val)
  have lenA : (add_node s (.ConstantNode val (graphTypeOf s other)) []).1.nodes.length =
      s.nodes.length + 1 := by simp [add_node]
  have hgc1 : graphTypeOf (add_node s (.ConstantNode val (graphTypeOf s other)) []).1
      cond = Boolean := by rw [graphTypeOf_pre hpreA hclt, hcb]
  have hgo1 : graphTypeOf (add_node s (.ConstantNode val (graphTypeOf s other)) []).1
      other = graphTypeOf s other := graphTypeOf_pre hpreA holt
  have hgz1 : graphTypeOf (add_node s (.ConstantNode val (graphTypeOf s other)) []).1
      (add_node s (.ConstantNode val (graphTypeOf s other)) []).2 =
      graphTypeOf s other := hgA
  have hio1 : infTypeOf (add_node s (.ConstantNode val (graphTypeOf s other)) []).1
      other = infTypeOf s other := infTypeOf_pre hpreA holt
  have hgts : gtsOf (add_node s (.ConstantNode val (graphTypeOf s other)) []).1
      [cond, other, (add_node s (.ConstantNode val (graphTypeOf s other)) []).2] =
      [Boolean, graphTypeOf s other, graphTypeOf s other] := by
    show [graphTypeOf _ cond, graphTypeOf _ other, graphTypeOf _ _] = _
    rw [hgc1, hgo1, hgz1]
  have hits : itsOf (add_node s (.ConstantNode val (graphTypeOf s other)) []).1
      [cond, other, (add_node s (.ConstantNode val (graphTypeOf s other)) []).2] =
      [infTypeOf (add_node s (.ConstantNode val (graphTypeOf s other)) []).1 cond,
       infTypeOf s other, type_of_value val] := by
    show [infTypeOf _ cond, infTypeOf _ other, infTypeOf _ _] = _
    rw [hio1]
    rw [show infTypeOf (add_node s (.ConstantNode val (graphTypeOf s other)) []).1
      (add_node s (.ConstantNode val (graphTypeOf s other)) []).2 =
      type_of_value val from hitA]
  have hitsom : scalar_or_malformed (infTypeOf s other) = true := hD.dits other hDo
  have hdokB := dok_add hdokA .IfThenElseNode
    [cond, other, (add_node s (.ConstantNode val (graphTypeOf s other)) []).2]
    (by
      intro j hj
      simp only [List.mem_cons, List.mem_nil_iff, or_false] at hj
      rcases hj with rfl | rfl | rfl
      · exact Or.inl hDc
      · exact Or.inl hDo
      · exact Or.inr rfl)
    rfl
    (fun val' t' heq => by cases heq)
    (by rw [hgts]; exact gt_ite_som hsog)
    (by rw [hgts, hits]; exact it_ite_som hitsom (type_of_value_som val))
    (by
      rw [hgts, hits]
      show (if Boolean = Boolean ∧ graphTypeOf s other = graphTypeOf s other ∧
          scalar_or_malformed (graphTypeOf s other)
        then graphTypeOf s other
        else _supremum (infTypeOf s other) (type_of_value val)) ≠ Malformed
      rw [if_pos ⟨rfl, rfl, hsog⟩]
      exact honm)
  obtain ⟨hvB, hiB, hgB, hitB, herrB, hpreB, hltB⟩ :=
    add_node_spec2 (add_node s (.ConstantNode val (graphTypeOf s other)) []).1
      .IfThenElseNode
      [cond, other, (add_node s (.ConstantNode val (graphTypeOf s other)) []).2]
  have lenB : (add_node (add_node s (.ConstantNode val (graphTypeOf s other)) []).1
      .IfThenElseNode
      [cond, other, (add_node s (.ConstantNode val (graphTypeOf s other)) []).2]).1.nodes.length
      = s.nodes.length + 2 := by
    simp [add_node]
  have hB2 : (add_node (add_node s (.ConstantNode val (graphTypeOf s other)) []).1
      .IfThenElseNode
      [cond, other, (add_node s (.ConstantNode val (graphTypeOf s other)) []).2]).2
      = s.nodes.length + 1 := by
    show (add_node s (.ConstantNode val (graphTypeOf s other)) []).1.nodes.length = _
    rw [lenA]
  have hgpi : graphTypeOf (add_node (add_node s
      (.ConstantNode val (graphTypeOf s other)) []).1 .IfThenElseNode
      [cond, other, (add_node s (.ConstantNode val (graphTypeOf s other)) []).2]).1
      (add_node (add_node s (.ConstantNode val (graphTypeOf s other)) []).1
        .IfThenElseNode
        [cond, other, (add_node s (.ConstantNode val (graphTypeOf s other)) []).2]).2
      = graphTypeOf s other := by
    rw [hgB, hgts]
    show (if Boolean = Boolean ∧ graphTypeOf s other = graphTypeOf s other
      then graphTypeOf s other else Malformed) = _
    rw [if_pos ⟨rfl, rfl⟩]
  have hipi : infTypeOf (add_node (add_node s
      (.ConstantNode val (graphTypeOf s other)) []).1 .IfThenElseNode
      [cond, other, (add_node s (.ConstantNode val (graphTypeOf s other)) []).2]).1
      (add_node (add_node s (.ConstantNode val (graphTypeOf s other)) []).1
        .IfThenElseNode
        [cond, other, (add_node s (.ConstantNode val (graphTypeOf s other)) []).2]).2
      = graphTypeOf s other := by
    rw [hitB, hgts, hits]
    show (if Boolean = Boolean ∧ graphTypeOf s other = graphTypeOf s other ∧
        scalar_or_malformed (graphTypeOf s other)
      then graphTypeOf s other
      else _supremum (infTypeOf s other) (type_of_value val)) = _
    rw [if_pos ⟨rfl, rfl, hsog⟩]
  have hmemlt : ∀ j ∈ [cond, other,
      (add_node s (.ConstantNode val (graphTypeOf s other)) []).2],
      j < (add_node s (.ConstantNode val (graphTypeOf s other)) []).1.nodes.length := by
    intro j hj
    simp only [List.mem_cons, List.mem_nil_iff, or_false] at hj
    rcases hj with rfl | rfl | rfl
    · omega
    · omega
    · exact hltA
  refine ⟨⟨hpreA.trans hpreB, by rw [herrB, herrA]⟩, by rw [herrB, herrA], ?_, ?_,
    hgpi, hipi, ?_, ?_, hvB, hiB, by rw [variantOf_pre hpreB hltA]; exact hvA, hB2, lenB⟩
  · refine dok_iff hdokB ?_
    intro i
    constructor
    · rintro (hDi | ⟨h1, h2⟩)
      · exact Or.inl (Or.inl hDi)
      · rw [lenB] at h2
        by_cases hc0 : i = s.nodes.length
        · exact Or.inl (Or.inr hc0)
        · exact Or.inr (by rw [lenA]; omega)
    · rintro ((hDi | h0) | hA)
      · exact Or.inl hDi
      · right
        rw [lenB]
        omega
      · right
        rw [lenA] at hA
        rw [lenB]
        omega
  · right
    rw [hB2, lenB]
    omega
  · intro j hj
    have hreqs : reqsOfNode (add_node (add_node s
        (.ConstantNode val (graphTypeOf s other)) []).1 .IfThenElseNode
        [cond, other, (add_node s (.ConstantNode val (graphTypeOf s other)) []).2]).1
        (add_node (add_node s (.ConstantNode val (graphTypeOf s other)) []).1
          .IfThenElseNode
          [cond, other, (add_node s (.ConstantNode val (graphTypeOf s other)) []).2]).2 =
        [.exactly Boolean, .exactly (graphTypeOf s other),
         .exactly (graphTypeOf s other)] := by
      unfold reqsOfNode
      rw [hvB, hiB, gtsOf_pre hpreB hmemlt, itsOf_pre hpreB hmemlt, hgts, hits]
      show [Requirement.exactly Boolean,
        .exactly (inf_type_of .IfThenElseNode
          [Boolean, graphTypeOf s other, graphTypeOf s other]
          [infTypeOf (add_node s (.ConstantNode val (graphTypeOf s other)) []).1 cond,
           infTypeOf s other, type_of_value val]),
        .exactly (inf_type_of .IfThenElseNode
          [Boolean, graphTypeOf s other, graphTypeOf s other]
          [infTypeOf (add_node s (.ConstantNode val (graphTypeOf s other)) []).1 cond,
           infTypeOf s other, type_of_value val])] = _
      rw [show inf_type_of .IfThenElseNode
          [Boolean, graphTypeOf s other, graphTypeOf s other]
          [infTypeOf (add_node s (.ConstantNode val (graphTypeOf s other)) []).1 cond,
           infTypeOf s other, type_of_value val] =
          (if Boolean = Boolean ∧ graphTypeOf s other = graphTypeOf s other ∧
            scalar_or_malformed (graphTypeOf s other)
          then graphTypeOf s other
          else _supremum (infTypeOf s other) (type_of_value val)) from rfl,
        if_pos ⟨rfl, rfl, hsog⟩]
    rw [hreqs] at hj ⊢
    rw [hiB]
    have hgcB : graphTypeOf (add_node (add_node s
        (.ConstantNode val (graphTypeOf s other)) []).1 .IfThenElseNode
        [cond, other, (add_node s (.ConstantNode val (graphTypeOf s other)) []).2]).1
        cond = Boolean := by
      rw [graphTypeOf_pre hpreB (by omega), hgc1]
    have hgoB : graphTypeOf (add_node (add_node s
        (.ConstantNode val (graphTypeOf s other)) []).1 .IfThenElseNode
        [cond, other, (add_node s (.ConstantNode val (graphTypeOf s other)) []).2]).1
        other = graphTypeOf s other := by
      rw [graphTypeOf_pre hpreB (by omega), hgo1]
    have hgzB : graphTypeOf (add_node (add_node s
        (.ConstantNode val (graphTypeOf s other)) []).1 .IfThenElseNode
        [cond, other, (add_node s (.ConstantNode val (graphTypeOf s other)) []).2]).1
        (add_node s (.ConstantNode val (graphTypeOf s other)) []).2 =
        graphTypeOf s other := by
      rw [graphTypeOf_pre hpreB hltA, hgz1]
    match j, hj with
    | 0, _ =>
      left
      show meets_requirement (graphTypeOf _ cond) (.exactly Boolean) = true
      rw [hgcB]
      decide
    | 1, _ =>
      left
      show meets_requirement (graphTypeOf _ other) (.exactly (graphTypeOf s other)) = true
      rw [hgoB]
      simp [meets_requirement, honm]
    | 2, _ =>
      left
      show meets_requirement (graphTypeOf _
        ((add_node s (.ConstantNode val (graphTypeOf s other)) []).2))
        (.exactly (graphTypeOf s other)) = true
      rw [hgzB]
      simp [meets_requirement, honm]
  · intro a ha1 ha2 hane
    rw [lenB] at ha2
    rw [hB2] at hane
    have hcase : a = s.nodes.length := by omega
    subst hcase
    refine @EdgeInv_const _ _ val (graphTypeOf s other) ?_
    have : variantOf (add_node (add_node s
        (.ConstantNode val (graphTypeOf s other)) []).1 .IfThenElseNode
        [cond, other, (add_node s (.ConstantNode val (graphTypeOf s other)) []).2]).1
        (add_node s (.ConstantNode val (graphTypeOf s other)) []).2 =
        .ConstantNode val (graphTypeOf s other) := by
      rw [variantOf_pre hpreB hltA]
      exact hvA
    exact this

theorem mem_getD {l : List Nat} {j : Nat} (hj : j < l.length) :
    l[j]?.getD 0 ∈ l := by
  rw [List.getElem?_eq_getElem hj]
  exact List.getElem_mem _

theorem reqsOfNode_len {s : GState} {m : Nat}
    (h : (inputsOf s m).length = arity (variantOf s m)) :
    (reqsOfNode s m).length = (inputsOf s m).length := by
  unfold reqsOfNode
  rw [(reqs_len _ s _ h).1, h]

/-- One fuel step: the malformed-multiplication repair satisfies the
conversion postcondition, assuming the meet handler does at lower fuel. -/
theorem L_mul_step (fuel : Nat) (hmeet : MeetOK fuel) : MulOK (fuel + 1) := by
  intro s n x c e s' n' h D hD hDn hsx hlen2
  rw [_convert_malformed_multiplication_succ] at h
  obtain ⟨ha1, h⟩ := assert_bind h
  obtain ⟨ha2, h⟩ := assert_bind h
  obtain ⟨ha3, h⟩ := assert_bind h
  obtain ⟨ha4, h⟩ := assert_bind h
  have hlm : (inputsOf s n)[0]?.getD 0 ∈ inputsOf s n := mem_getD (by omega)
  have hrm : (inputsOf s n)[1]?.getD 0 ∈ inputsOf s n := mem_getD (by omega)
  have hDl : D ((inputsOf s n)[0]?.getD 0) := hD.dclosed n hDn _ hlm
  have hDr : D ((inputsOf s n)[1]?.getD 0) := hD.dclosed n hDn _ hrm
  have ha3' := of_decide_eq_true ha3
  split_ifs at h with hlb
  · -- left operand boolean: ITE(left, right, 0 of right's type)
    obtain ⟨ha5, h⟩ := assert_bind h
    obtain ⟨hext, herr, hdok1, hdx1, hgpi, hipi, hedge, hwin, hvarpi, hinpi, hvz,
        hpi2, hlen1⟩ :=
      repair_ite_spec s ((inputsOf s n)[0]?.getD 0) ((inputsOf s n)[1]?.getD 0)
        (.float 0) D hD hDl hDr hlb ha3'.2
    have h' : meet_requirement fuel
        (add_node (add_node s (.ConstantNode (.float 0)
            (graphTypeOf s ((inputsOf s n)[1]?.getD 0))) []).1 .IfThenElseNode
          [(inputsOf s n)[0]?.getD 0, (inputsOf s n)[1]?.getD 0,
           (add_node s (.ConstantNode (.float 0)
             (graphTypeOf s ((inputsOf s n)[1]?.getD 0))) []).2]).1
        (add_node (add_node s (.ConstantNode (.float 0)
            (graphTypeOf s ((inputsOf s n)[1]?.getD 0))) []).1 .IfThenElseNode
          [(inputsOf s n)[0]?.getD 0, (inputsOf s n)[1]?.getD 0,
           (add_node s (.ConstantNode (.float 0)
             (graphTypeOf s ((inputsOf s n)[1]?.getD 0))) []).2]).2
        (.exactly x) c e = .ok (s', n') := h
    obtain ⟨⟨hpn, hpe⟩, hdok2, hdx2, hP4, hP5, hP6⟩ :=
      hmeet _ _ _ _ _ _ _ h' _ hdok1 hdx1 hsx
    have hplen : (add_node (add_node s (.ConstantNode (.float 0)
        (graphTypeOf s ((inputsOf s n)[1]?.getD 0))) []).1 .IfThenElseNode
        [(inputsOf s n)[0]?.getD 0, (inputsOf s n)[1]?.getD 0,
         (add_node s (.ConstantNode (.float 0)
           (graphTypeOf s ((inputsOf s n)[1]?.getD 0))) []).2]).1.nodes.length ≤
        s'.nodes.length := hpn.length_le
    have hslen : s.nodes.length ≤ (add_node (add_node s (.ConstantNode (.float 0)
        (graphTypeOf s ((inputsOf s n)[1]?.getD 0))) []).1 .IfThenElseNode
        [(inputsOf s n)[0]?.getD 0, (inputsOf s n)[1]?.getD 0,
         (add_node s (.ConstantNode (.float 0)
           (graphTypeOf s ((inputsOf s n)[1]?.getD 0))) []).2]).1.nodes.length := by
      rw [hlen1]
      omega
    have hpi2lt : (add_node (add_node s (.ConstantNode (.float 0)
        (graphTypeOf s ((inputsOf s n)[1]?.getD 0))) []).1 .IfThenElseNode
        [(inputsOf s n)[0]?.getD 0, (inputsOf s n)[1]?.getD 0,
         (add_node s (.ConstantNode (.float 0)
           (graphTypeOf s ((inputsOf s n)[1]?.getD 0))) []).2]).2 <
        (add_node (add_node s (.ConstantNode (.float 0)
        (graphTypeOf s ((inputsOf s n)[1]?.getD 0))) []).1 .IfThenElseNode
        [(inputsOf s n)[0]?.getD 0, (inputsOf s n)[1]?.getD 0,
         (add_node s (.ConstantNode (.float 0)
           (graphTypeOf s ((inputsOf s n)[1]?.getD 0))) []).2]).1.nodes.length := by
      rw [hpi2, hlen1]
      omega
    have hinb : ∀ j ∈ inputsOf (add_node (add_node s (.ConstantNode (.float 0)
        (graphTypeOf s ((inputsOf s n)[1]?.getD 0))) []).1 .IfThenElseNode
        [(inputsOf s n)[0]?.getD 0, (inputsOf s n)[1]?.getD 0,
         (add_node s (.ConstantNode (.float 0)
           (graphTypeOf s ((inputsOf s n)[1]?.getD 0))) []).2]).1
        (add_node (add_node s (.ConstantNode (.float 0)
        (graphTypeOf s ((inputsOf s n)[1]?.getD 0))) []).1 .IfThenElseNode
        [(inputsOf s n)[0]?.getD 0, (inputsOf s n)[1]?.getD 0,
         (add_node s (.ConstantNode (.float 0)
           (graphTypeOf s ((inputsOf s n)[1]?.getD 0))) []).2]).2,
        j < (add_node (add_node s (.ConstantNode (.float 0)
        (graphTypeOf s ((inputsOf s n)[1]?.getD 0))) []).1 .IfThenElseNode
        [(inputsOf s n)[0]?.getD 0, (inputsOf s n)[1]?.getD 0,
         (add_node s (.ConstantNode (.float 0)
           (graphTypeOf s ((inputsOf s n)[1]?.getD 0))) []).2]).1.nodes.length := by
      rw [hinpi]
      intro j hj
      simp only [List.mem_cons, List.mem_nil_iff, or_false] at hj
      have hll := hD.dlt _ hDl
      have hrl := hD.dlt _ hDr
      rcases hj with rfl | rfl | rfl
      · rw [hlen1]; omega
      · rw [hlen1]; omega
      · show s.nodes.length < _
        rw [hlen1]
        omega
    have hrql : (reqsOfNode (add_node (add_node s (.ConstantNode (.float 0)
        (graphTypeOf s ((inputsOf s n)[1]?.getD 0))) []).1 .IfThenElseNode
        [(inputsOf s n)[0]?.getD 0, (inputsOf s n)[1]?.getD 0,
         (add_node s (.ConstantNode (.float 0)
           (graphTypeOf s ((inputsOf s n)[1]?.getD 0))) []).2]).1
        (add_node (add_node s (.ConstantNode (.float 0)
        (graphTypeOf s ((inputsOf s n)[1]?.getD 0))) []).1 .IfThenElseNode
        [(inputsOf s n)[0]?.getD 0, (inputsOf s n)[1]?.getD 0,
         (add_node s (.ConstantNode (.float 0)
           (graphTypeOf s ((inputsOf s n)[1]?.getD 0))) []).2]).2).length ≤
        (inputsOf (add_node (add_node s (.ConstantNode (.float 0)
        (graphTypeOf s ((inputsOf s n)[1]?.getD 0))) []).1 .IfThenElseNode
        [(inputsOf s n)[0]?.getD 0, (inputsOf s n)[1]?.getD 0,
         (add_node s (.ConstantNode (.float 0)
           (graphTypeOf s ((inputsOf s n)[1]?.getD 0))) []).2]).1
        (add_node (add_node s (.ConstantNode (.float 0)
        (graphTypeOf s ((inputsOf s n)[1]?.getD 0))) []).1 .IfThenElseNode
        [(inputsOf s n)[0]?.getD 0, (inputsOf s n)[1]?.getD 0,
         (add_node s (.ConstantNode (.float 0)
           (graphTypeOf s ((inputsOf s n)[1]?.getD 0))) []).2]).2).length :=
      le_of_eq (reqsOfNode_len (hdok1.dar _ hpi2lt))
    have hedge' := EdgeInv_pre hpn hpe hpi2lt hinb hrql hedge
    refine ⟨hext.trans ⟨hpn, hpe⟩,
      dok_iff hdok2 (fun i => (dx_trans_iff D hslen hplen i).symm),
      (dx_trans_iff D hslen hplen n').mp hdx2, ?_, ?_⟩
    · intro hgm
      rcases hP4 with hmeets | ⟨hn'eq, hviol, hnotub⟩
      · refine ⟨?_, ?_⟩
        · intro hge
          rcases hdx2 with hD' | ⟨hw1, hw2⟩
          · rcases hD' with hDn' | ⟨hv1, hv2⟩
            · exact absurd (hD.dlt n' hDn') (by omega)
            · rw [hlen1] at hv2
              by_cases hc : n' = s.nodes.length + 1
              · rw [hc, ← hpi2]
                exact hedge'
              · have hc0 : n' = s.nodes.length := by omega
                rw [hc0]
                refine @EdgeInv_const _ _ (.float 0)
                  (graphTypeOf s ((inputsOf s n)[1]?.getD 0)) ?_
                rw [show variantOf s' s.nodes.length =
                  variantOf (add_node (add_node s (.ConstantNode (.float 0)
                    (graphTypeOf s ((inputsOf s n)[1]?.getD 0))) []).1 .IfThenElseNode
                    [(inputsOf s n)[0]?.getD 0, (inputsOf s n)[1]?.getD 0,
                     (add_node s (.ConstantNode (.float 0)
                       (graphTypeOf s ((inputsOf s n)[1]?.getD 0))) []).2]).1
                    (add_node s (.ConstantNode (.float 0)
                      (graphTypeOf s ((inputsOf s n)[1]?.getD 0))) []).2
                  from variantOf_pre hpn (by rw [hlen1]; omega)]
                exact hvz
          · exact hP6 n' hw1 hw2
        · rcases hP5 with hn'pi | hitgt | ⟨hitpres, cv', ct', hconstpi⟩
          · left
            rw [hn'pi, graphTypeOf_pre hpn hpi2lt, infTypeOf_pre hpn hpi2lt,
              hgpi, hipi]
          · exact Or.inl hitgt
          · rw [hvarpi] at hconstpi
            cases hconstpi
      · refine ⟨?_, ?_⟩
        · intro hge
          rw [hn'eq]
          exact hedge'
        · left
          rw [hn'eq, graphTypeOf_pre hpn hpi2lt, infTypeOf_pre hpn hpi2lt,
            hgpi, hipi]
    · intro a ha1 ha2 hane
      by_cases hc : a < (add_node (add_node s (.ConstantNode (.float 0)
          (graphTypeOf s ((inputsOf s n)[1]?.getD 0))) []).1 .IfThenElseNode
          [(inputsOf s n)[0]?.getD 0, (inputsOf s n)[1]?.getD 0,
           (add_node s (.ConstantNode (.float 0)
             (graphTypeOf s ((inputsOf s n)[1]?.getD 0))) []).2]).1.nodes.length
      · rw [hlen1] at hc
        by_cases hc2 : a = s.nodes.length + 1
        · rw [hc2, ← hpi2]
          exact hedge'
        · have hc0 : a = s.nodes.length := by omega
          rw [hc0]
          refine @EdgeInv_const _ _ (.float 0)
            (graphTypeOf s ((inputsOf s n)[1]?.getD 0)) ?_
          rw [show variantOf s' s.nodes.length =
            variantOf (add_node (add_node s (.ConstantNode (.float 0)
              (graphTypeOf s ((inputsOf s n)[1]?.getD 0))) []).1 .IfThenElseNode
              [(inputsOf s n)[0]?.getD 0, (inputsOf s n)[1]?.getD 0,
               (add_node s (.ConstantNode (.float 0)
                 (graphTypeOf s ((inputsOf s n)[1]?.getD 0))) []).2]).1
              (add_node s (.ConstantNode (.float 0)
                (graphTypeOf s ((inputsOf s n)[1]?.getD 0))) []).2
            from variantOf_pre hpn (by rw [hlen1]; omega)]
          exact hvz
      · exact hP6 a (by omega) ha2
  · -- right operand boolean: ITE(right, left, 0 of left's type)
    have hrb : graphTypeOf s ((inputsOf s n)[1]?.getD 0) = Boolean := by
      rcases of_decide_eq_true ha4 with hl | hr
      · exact absurd hl hlb
      · exact hr
    obtain ⟨ha5, h⟩ := assert_bind h
    obtain ⟨hext, herr, hdok1, hdx1, hgpi, hipi, hedge, hwin, hvarpi, hinpi, hvz,
        hpi2, hlen1⟩ :=
      repair_ite_spec s ((inputsOf s n)[1]?.getD 0) ((inputsOf s n)[0]?.getD 0)
        (.float 0) D hD hDr hDl hrb ha3'.1
    have h' : meet_requirement fuel
        (add_node (add_node s (.ConstantNode (.float 0)
            (graphTypeOf s ((inputsOf s n)[0]?.getD 0))) []).1 .IfThenElseNode
          [(inputsOf s n)[1]?.getD 0, (inputsOf s n)[0]?.getD 0,
           (add_node s (.ConstantNode (.float 0)
             (graphTypeOf s ((inputsOf s n)[0]?.getD 0))) []).2]).1
        (add_node (add_node s (.ConstantNode (.float 0)
            (graphTypeOf s ((inputsOf s n)[0]?.getD 0))) []).1 .IfThenElseNode
          [(inputsOf s n)[1]?.getD 0, (inputsOf s n)[0]?.getD 0,
           (add_node s (.ConstantNode (.float 0)
             (graphTypeOf s ((inputsOf s n)[0]?.getD 0))) []).2]).2
        (.exactly x) c e = .ok (s', n') := h
    obtain ⟨⟨hpn, hpe⟩, hdok2, hdx2, hP4, hP5, hP6⟩ :=
      hmeet _ _ _ _ _ _ _ h' _ hdok1 hdx1 hsx
    have hplen : (add_node (add_node s (.ConstantNode (.float 0)
        (graphTypeOf s ((inputsOf s n)[0]?.getD 0))) []).1 .IfThenElseNode
        [(inputsOf s n)[1]?.getD 0, (inputsOf s n)[0]?.getD 0,
         (add_node s (.ConstantNode (.float 0)
           (graphTypeOf s ((inputsOf s n)[0]?.getD 0))) []).2]).1.nodes.length ≤
        s'.nodes.length := hpn.length_le
    have hslen : s.nodes.length ≤ (add_node (add_node s (.ConstantNode (.float 0)
        (graphTypeOf s ((inputsOf s n)[0]?.getD 0))) []).1 .IfThenElseNode
        [(inputsOf s n)[1]?.getD 0, (inputsOf s n)[0]?.getD 0,
         (add_node s (.ConstantNode (.float 0)
           (graphTypeOf s ((inputsOf s n)[0]?.getD 0))) []).2]).1.nodes.length := by
      rw [hlen1]
      omega
    have hpi2lt : (add_node (add_node s (.ConstantNode (.float 0)
        (graphTypeOf s ((inputsOf s n)[0]?.getD 0))) []).1 .IfThenElseNode
        [(inputsOf s n)[1]?.getD 0, (inputsOf s n)[0]?.getD 0,
         (add_node s (.ConstantNode (.float 0)
           (graphTypeOf s ((inputsOf s n)[0]?.getD 0))) []).2]).2 <
        (add_node (add_node s (.ConstantNode (.float 0)
        (graphTypeOf s ((inputsOf s n)[0]?.getD 0))) []).1 .IfThenElseNode
        [(inputsOf s n)[1]?.getD 0, (inputsOf s n)[0]?.getD 0,
         (add_node s (.ConstantNode (.float 0)
           (graphTypeOf s ((inputsOf s n)[0]?.getD 0))) []).2]).1.nodes.length := by
      rw [hpi2, hlen1]
      omega
    have hinb : ∀ j ∈ inputsOf (add_node (add_node s (.ConstantNode (.float 0)
        (graphTypeOf s ((inputsOf s n)[0]?.getD 0))) []).1 .IfThenElseNode
        [(inputsOf s n)[1]?.getD 0, (inputsOf s n)[0]?.getD 0,
         (add_node s (.ConstantNode (.float 0)
           (graphTypeOf s ((inputsOf s n)[0]?.getD 0))) []).2]).1
        (add_node (add_node s (.ConstantNode (.float 0)
        (graphTypeOf s ((inputsOf s n)[0]?.getD 0))) []).1 .IfThenElseNode
        [(inputsOf s n)[1]?.getD 0, (inputsOf s n)[0]?.getD 0,
         (add_node s (.ConstantNode (.float 0)
           (graphTypeOf s ((inputsOf s n)[0]?.getD 0))) []).2]).2,
        j < (add_node (add_node s (.ConstantNode (.float 0)
        (graphTypeOf s ((inputsOf s n)[0]?.getD 0))) []).1 .IfThenElseNode
        [(inputsOf s n)[1]?.getD 0, (inputsOf s n)[0]?.getD 0,
         (add_node s (.ConstantNode (.float 0)
           (graphTypeOf s ((inputsOf s n)[0]?.getD 0))) []).2]).1.nodes.length := by
      rw [hinpi]
      intro j hj
      simp only [List.mem_cons, List.mem_nil_iff, or_false] at hj
      have hll := hD.dlt _ hDl
      have hrl := hD.dlt _ hDr
      rcases hj with rfl | rfl | rfl
      · rw [hlen1]; omega
      · rw [hlen1]; omega
      · show s.nodes.length < _
        rw [hlen1]
        omega
    have hrql : (reqsOfNode (add_node (add_node s (.ConstantNode (.float 0)
        (graphTypeOf s ((inputsOf s n)[0]?.getD 0))) []).1 .IfThenElseNode
        [(inputsOf s n)[1]?.getD 0, (inputsOf s n)[0]?.getD 0,
         (add_node s (.ConstantNode (.float 0)
           (graphTypeOf s ((inputsOf s n)[0]?.getD 0))) []).2]).1
        (add_node (add_node s (.ConstantNode (.float 0)
        (graphTypeOf s ((inputsOf s n)[0]?.getD 0))) []).1 .IfThenElseNode
        [(inputsOf s n)[1]?.getD 0, (inputsOf s n)[0]?.getD 0,
         (add_node s (.ConstantNode (.float 0)
           (graphTypeOf s ((inputsOf s n)[0]?.getD 0))) []).2]).2).length ≤
        (inputsOf (add_node (add_node s (.ConstantNode (.float 0)
        (graphTypeOf s ((inputsOf s n)[0]?.getD 0))) []).1 .IfThenElseNode
        [(inputsOf s n)[1]?.getD 0, (inputsOf s n)[0]?.getD 0,
         (add_node s (.ConstantNode (.float 0)
           (graphTypeOf s ((inputsOf s n)[0]?.getD 0))) []).2]).1
        (add_node (add_node s (.ConstantNode (.float 0)
        (graphTypeOf s ((inputsOf s n)[0]?.getD 0))) []).1 .IfThenElseNode
        [(inputsOf s n)[1]?.getD 0, (inputsOf s n)[0]?.getD 0,
         (add_node s (.ConstantNode (.float 0)
           (graphTypeOf s ((inputsOf s n)[0]?.getD 0))) []).2]).2).length :=
      le_of_eq (reqsOfNode_len (hdok1.dar _ hpi2lt))
    have hedge' := EdgeInv_pre hpn hpe hpi2lt hinb hrql hedge
    refine ⟨hext.trans ⟨hpn, hpe⟩,
      dok_iff hdok2 (fun i => (dx_trans_iff D hslen hplen i).symm),
      (dx_trans_iff D hslen hplen n').mp hdx2, ?_, ?_⟩
    · intro hgm
      rcases hP4 with hmeets | ⟨hn'eq, hviol, hnotub⟩
      · refine ⟨?_, ?_⟩
        · intro hge
          rcases hdx2 with hD' | ⟨hw1, hw2⟩
          · rcases hD' with hDn' | ⟨hv1, hv2⟩
            · exact absurd (hD.dlt n' hDn') (by omega)
            · rw [hlen1] at hv2
              by_cases hc : n' = s.nodes.length + 1
              · rw [hc, ← hpi2]
                exact hedge'
              · have hc0 : n' = s.nodes.length := by omega
                rw [hc0]
                refine @EdgeInv_const _ _ (.float 0)
                  (graphTypeOf s ((inputsOf s n)[0]?.getD 0)) ?_
                rw [show variantOf s' s.nodes.length =
                  variantOf (add_node (add_node s (.ConstantNode (.float 0)
                    (graphTypeOf s ((inputsOf s n)[0]?.getD 0))) []).1 .IfThenElseNode
                    [(inputsOf s n)[1]?.getD 0, (inputsOf s n)[0]?.getD 0,
                     (add_node s (.ConstantNode (.float 0)
                       (graphTypeOf s ((inputsOf s n)[0]?.getD 0))) []).2]).1
                    (add_node s (.ConstantNode (.float 0)
                      (graphTypeOf s ((inputsOf s n)[0]?.getD 0))) []).2
                  from variantOf_pre hpn (by rw [hlen1]; omega)]
                exact hvz
          · exact hP6 n' hw1 hw2
        · rcases hP5 with hn'pi | hitgt | ⟨hitpres, cv', ct', hconstpi⟩
          · left
            rw [hn'pi, graphTypeOf_pre hpn hpi2lt, infTypeOf_pre hpn hpi2lt,
              hgpi, hipi]
          · exact Or.inl hitgt
          · rw [hvarpi] at hconstpi
            cases hconstpi
      · refine ⟨?_, ?_⟩
        · intro hge
          rw [hn'eq]
          exact hedge'
        · left
          rw [hn'eq, graphTypeOf_pre hpn hpi2lt, infTypeOf_pre hpn hpi2lt,
            hgpi, hipi]
    · intro a ha1 ha2 hane
      by_cases hc : a < (add_node (add_node s (.ConstantNode (.float 0)
          (graphTypeOf s ((inputsOf s n)[0]?.getD 0))) []).1 .IfThenElseNode
          [(inputsOf s n)[1]?.getD 0, (inputsOf s n)[0]?.getD 0,
           (add_node s (.ConstantNode (.float 0)
             (graphTypeOf s ((inputsOf s n)[0]?.getD 0))) []).2]).1.nodes.length
      · rw [hlen1] at hc
        by_cases hc2 : a = s.nodes.length + 1
        · rw [hc2, ← hpi2]
          exact hedge'
        · have hc0 : a = s.nodes.length := by omega
          rw [hc0]
          refine @EdgeInv_const _ _ (.float 0)
            (graphTypeOf s ((inputsOf s n)[0]?.getD 0)) ?_
          rw [show variantOf s' s.nodes.length =
            variantOf (add_node (add_node s (.ConstantNode (.float 0)
              (graphTypeOf s ((inputsOf s n)[0]?.getD 0))) []).1 .IfThenElseNode
              [(inputsOf s n)[1]?.getD 0, (inputsOf s n)[0]?.getD 0,
               (add_node s (.ConstantNode (.float 0)
                 (graphTypeOf s ((inputsOf s n)[0]?.getD 0))) []).2]).1
              (add_node s (.ConstantNode (.float 0)
                (graphTypeOf s ((inputsOf s n)[0]?.getD 0))) []).2
            from variantOf_pre hpn (by rw [hlen1]; omega)]
          exact hvz
      · exact hP6 a (by omega) ha2

/-- Unfolding equation for `_convert_malformed_power` at nonzero fuel,
with the local lets expanded. -/
theorem _convert_malformed_power_succ (fuel : Nat) (s : GState) (node : Nat)
    (requirement : BMGLatticeType) (consumer : Nat) (edge : String) :
    _convert_malformed_power (fuel + 1) s node requirement consumer edge =
      (do
        assertCond (graphTypeOf s node = Malformed)
        assertCond (_supremum (infTypeOf s node) requirement = requirement)
        assertCond (graphTypeOf s ((inputsOf s node)[0]?.getD 0) ≠ Malformed)
        assertCond (graphTypeOf s ((inputsOf s node)[1]?.getD 0) = Boolean)
        assertCond (graphTypeOf
          (add_if_then_else
            (add_constant_of_type s (.float 1)
              (graphTypeOf s ((inputsOf s node)[0]?.getD 0))).1
            ((inputsOf s node)[1]?.getD 0) ((inputsOf s node)[0]?.getD 0)
            (add_constant_of_type s (.float 1)
              (graphTypeOf s ((inputsOf s node)[0]?.getD 0))).2).1
          (add_if_then_else
            (add_constant_of_type s (.float 1)
              (graphTypeOf s ((inputsOf s node)[0]?.getD 0))).1
            ((inputsOf s node)[1]?.getD 0) ((inputsOf s node)[0]?.getD 0)
            (add_constant_of_type s (.float 1)
              (graphTypeOf s ((inputsOf s node)[0]?.getD 0))).2).2 =
          graphTypeOf s ((inputsOf s node)[0]?.getD 0))
        meet_requirement fuel
          (add_if_then_else
            (add_constant_of_type s (.float 1)
              (graphTypeOf s ((inputsOf s node)[0]?.getD 0))).1
            ((inputsOf s node)[1]?.getD 0) ((inputsOf s node)[0]?.getD 0)
            (add_constant_of_type s (.float 1)
              (graphTypeOf s ((inputsOf s node)[0]?.getD 0))).2).1
          (add_if_then_else
            (add_constant_of_type s (.float 1)
              (graphTypeOf s ((inputsOf s node)[0]?.getD 0))).1
            ((inputsOf s node)[1]?.getD 0) ((inputsOf s node)[0]?.getD 0)
            (add_constant_of_type s (.float 1)
              (graphTypeOf s ((inputsOf s node)[0]?.getD 0))).2).2
          (.exactly requirement) consumer edge) := by
  simp only [_convert_malformed_power]

/-- One fuel step: the malformed-power repair satisfies the conversion
postcondition, assuming the meet handler does at lower fuel. -/
theorem L_pow_step (fuel : Nat) (hmeet : MeetOK fuel) : PowOK (fuel + 1) := by
  intro s n x c e s' n' h D hD hDn hsx hlen2
  rw [_convert_malformed_power_succ] at h
  obtain ⟨ha1, h⟩ := assert_bind h
  obtain ⟨ha2, h⟩ := assert_bind h
  obtain ⟨ha3, h⟩ := assert_bind h
  obtain ⟨ha4, h⟩ := assert_bind h
  obtain ⟨ha5, h⟩ := assert_bind h
  have hlm : (inputsOf s n)[0]?.getD 0 ∈ inputsOf s n := mem_getD (by omega)
  have hrm : (inputsOf s n)[1]?.getD 0 ∈ inputsOf s n := mem_getD (by omega)
  have hDl : D ((inputsOf s n)[0]?.getD 0) := hD.dclosed n hDn _ hlm
  have hDr : D ((inputsOf s n)[1]?.getD 0) := hD.dclosed n hDn _ hrm
  have ha3' := of_decide_eq_true ha3
  have ha4' := of_decide_eq_true ha4
  obtain ⟨hext, herr, hdok1, hdx1, hgpi, hipi, hedge, hwin, hvarpi, hinpi, hvz,
      hpi2, hlen1⟩ :=
    repair_ite_spec s ((inputsOf s n)[1]?.getD 0) ((inputsOf s n)[0]?.getD 0)
      (.float 1) D hD hDr hDl ha4' ha3'
  have h' : meet_requirement fuel
      (add_node (add_node s (.ConstantNode (.float 1)
          (graphTypeOf s ((inputsOf s n)[0]?.getD 0))) []).1 .IfThenElseNode
        [(inputsOf s n)[1]?.getD 0, (inputsOf s n)[0]?.getD 0,
         (add_node s (.ConstantNode (.float 1)
           (graphTypeOf s ((inputsOf s n)[0]?.getD 0))) []).2]).1
      (add_node (add_node s (.ConstantNode (.float 1)
          (graphTypeOf s ((inputsOf s n)[0]?.getD 0))) []).1 .IfThenElseNode
        [(inputsOf s n)[1]?.getD 0, (inputsOf s n)[0]?.getD 0,
         (add_node s (.ConstantNode (.float 1)
           (graphTypeOf s ((inputsOf s n)[0]?.getD 0))) []).2]).2
      (.exactly x) c e = .ok (s', n') := h
  obtain ⟨⟨hpn, hpe⟩, hdok2, hdx2, hP4, hP5, hP6⟩ :=
    hmeet _ _ _ _ _ _ _ h' _ hdok1 hdx1 hsx
  have hplen : (add_node (add_node s (.ConstantNode (.float 1)
      (graphTypeOf s ((inputsOf s n)[0]?.getD 0))) []).1 .IfThenElseNode
      [(inputsOf s n)[1]?.getD 0, (inputsOf s n)[0]?.getD 0,
       (add_node s (.ConstantNode (.float 1)
         (graphTypeOf s ((inputsOf s n)[0]?.getD 0))) []).2]).1.nodes.length ≤
      s'.nodes.length := hpn.length_le
  have hslen : s.nodes.length ≤ (add_node (add_node s (.ConstantNode (.float 1)
      (graphTypeOf s ((inputsOf s n)[0]?.getD 0))) []).1 .IfThenElseNode
      [(inputsOf s n)[1]?.getD 0, (inputsOf s n)[0]?.getD 0,
       (add_node s (.ConstantNode (.float 1)
         (graphTypeOf s ((inputsOf s n)[0]?.getD 0))) []).2]).1.nodes.length := by
    rw [hlen1]
    omega
  have hpi2lt : (add_node (add_node s (.ConstantNode (.float 1)
      (graphTypeOf s ((inputsOf s n)[0]?.getD 0))) []).1 .IfThenElseNode
      [(inputsOf s n)[1]?.getD 0, (inputsOf s n)[0]?.getD 0,
       (add_node s (.ConstantNode (.float 1)
         (graphTypeOf s ((inputsOf s n)[0]?.getD 0))) []).2]).2 <
      (add_node (add_node s (.ConstantNode (.float 1)
      (graphTypeOf s ((inputsOf s n)[0]?.getD 0))) []).1 .IfThenElseNode
      [(inputsOf s n)[1]?.getD 0, (inputsOf s n)[0]?.getD 0,
       (add_node s (.ConstantNode (.float 1)
         (graphTypeOf s ((inputsOf s n)[0]?.getD 0))) []).2]).1.nodes.length := by
    rw [hpi2, hlen1]
    omega
  have hinb : ∀ j ∈ inputsOf (add_node (add_node s (.ConstantNode (.float 1)
      (graphTypeOf s ((inputsOf s n)[0]?.getD 0))) []).1 .IfThenElseNode
      [(inputsOf s n)[1]?.getD 0, (inputsOf s n)[0]?.getD 0,
       (add_node s (.ConstantNode (.float 1)
         (graphTypeOf s ((inputsOf s n)[0]?.getD 0))) []).2]).1
      (add_node (add_node s (.ConstantNode (.float 1)
      (graphTypeOf s ((inputsOf s n)[0]?.getD 0))) []).1 .IfThenElseNode
      [(inputsOf s n)[1]?.getD 0, (inputsOf s n)[0]?.getD 0,
       (add_node s (.ConstantNode (.float 1)
         (graphTypeOf s ((inputsOf s n)[0]?.getD 0))) []).2]).2,
      j < (add_node (add_node s (.ConstantNode (.float 1)
      (graphTypeOf s ((inputsOf s n)[0]?.getD 0))) []).1 .IfThenElseNode
      [(inputsOf s n)[1]?.getD 0, (inputsOf s n)[0]?.getD 0,
       (add_node s (.ConstantNode (.float 1)
         (graphTypeOf s ((inputsOf s n)[0]?.getD 0))) []).2]).1.nodes.length := by
    rw [hinpi]
    intro j hj
    simp only [List.mem_cons, List.mem_nil_iff, or_false] at hj
    have hll := hD.dlt _ hDl
    have hrl := hD.dlt _ hDr
    rcases hj with rfl | rfl | rfl
    · rw [hlen1]; omega
    · rw [hlen1]; omega
    · show s.nodes.length < _
      rw [hlen1]
      omega
  have hrql : (reqsOfNode (add_node (add_node s (.ConstantNode (.float 1)
      (graphTypeOf s ((inputsOf s n)[0]?.getD 0))) []).1 .IfThenElseNode
      [(inputsOf s n)[1]?.getD 0, (inputsOf s n)[0]?.getD 0,
       (add_node s (.ConstantNode (.float 1)
         (graphTypeOf s ((inputsOf s n)[0]?.getD 0))) []).2]).1
      (add_node (add_node s (.ConstantNode (.float 1)
      (graphTypeOf s ((inputsOf s n)[0]?.getD 0))) []).1 .IfThenElseNode
      [(inputsOf s n)[1]?.getD 0, (inputsOf s n)[0]?.getD 0,
       (add_node s (.ConstantNode (.float 1)
         (graphTypeOf s ((inputsOf s n)[0]?.getD 0))) []).2]).2).length ≤
      (inputsOf (add_node (add_node s (.ConstantNode (.float 1)
      (graphTypeOf s ((inputsOf s n)[0]?.getD 0))) []).1 .IfThenElseNode
      [(inputsOf s n)[1]?.getD 0, (inputsOf s n)[0]?.getD 0,
       (add_node s (.ConstantNode (.float 1)
         (graphTypeOf s ((inputsOf s n)[0]?.getD 0))) []).2]).1
      (add_node (add_node s (.ConstantNode (.float 1)
      (graphTypeOf s ((inputsOf s n)[0]?.getD 0))) []).1 .IfThenElseNode
      [(inputsOf s n)[1]?.getD 0, (inputsOf s n)[0]?.getD 0,
       (add_node s (.ConstantNode (.float 1)
         (graphTypeOf s ((inputsOf s n)[0]?.getD 0))) []).2]).2).length :=
    le_of_eq (reqsOfNode_len (hdok1.dar _ hpi2lt))
  have hedge' := EdgeInv_pre hpn hpe hpi2lt hinb hrql hedge
  refine ⟨hext.trans ⟨hpn, hpe⟩,
    dok_iff hdok2 (fun i => (dx_trans_iff D hslen hplen i).symm),
    (dx_trans_iff D hslen hplen n').mp hdx2, ?_, ?_⟩
  · intro hgm
    rcases hP4 with hmeets | ⟨hn'eq, hviol, hnotub⟩
    · refine ⟨?_, ?_⟩
      · intro hge
        rcases hdx2 with hD' | ⟨hw1, hw2⟩
        · rcases hD' with hDn' | ⟨hv1, hv2⟩
          · exact absurd (hD.dlt n' hDn') (by omega)
          · rw [hlen1] at hv2
            by_cases hc : n' = s.nodes.length + 1
            · rw [hc, ← hpi2]
              exact hedge'
            · have hc0 : n' = s.nodes.length := by omega
              rw [hc0]
              refine @EdgeInv_const _ _ (.float 1)
                (graphTypeOf s ((inputsOf s n)[0]?.getD 0)) ?_
              rw [show variantOf s' s.nodes.length =
                variantOf (add_node (add_node s (.ConstantNode (.float 1)
                  (graphTypeOf s ((inputsOf s n)[0]?.getD 0))) []).1 .IfThenElseNode
                  [(inputsOf s n)[1]?.getD 0, (inputsOf s n)[0]?.getD 0,
                   (add_node s (.ConstantNode (.float 1)
                     (graphTypeOf s ((inputsOf s n)[0]?.getD 0))) []).2]).1
                  (add_node s (.ConstantNode (.float 1)
                    (graphTypeOf s ((inputsOf s n)[0]?.getD 0))) []).2
                from variantOf_pre hpn (by rw [hlen1]; omega)]
              exact hvz
        · exact hP6 n' hw1 hw2
      · rcases hP5 with hn'pi | hitgt | ⟨hitpres, cv', ct', hconstpi⟩
        · left
          rw [hn'pi, graphTypeOf_pre hpn hpi2lt, infTypeOf_pre hpn hpi2lt,
            hgpi, hipi]
        · exact Or.inl hitgt
        · rw [hvarpi] at hconstpi
          cases hconstpi
    · refine ⟨?_, ?_⟩
      · intro hge
        rw [hn'eq]
        exact hedge'
      · left
        rw [hn'eq, graphTypeOf_pre hpn hpi2lt, infTypeOf_pre hpn hpi2lt,
          hgpi, hipi]
  · intro a ha1 ha2 hane
    by_cases hc : a < (add_node (add_node s (.ConstantNode (.float 1)
        (graphTypeOf s ((inputsOf s n)[0]?.getD 0))) []).1 .IfThenElseNode
        [(inputsOf s n)[1]?.getD 0, (inputsOf s n)[0]?.getD 0,
         (add_node s (.ConstantNode (.float 1)
           (graphTypeOf s ((inputsOf s n)[0]?.getD 0))) []).2]).1.nodes.length
    · rw [hlen1] at hc
      by_cases hc2 : a = s.nodes.length + 1
      · rw [hc2, ← hpi2]
        exact hedge'
      · have hc0 : a = s.nodes.length := by omega
        rw [hc0]
        refine @EdgeInv_const _ _ (.float 1)
          (graphTypeOf s ((inputsOf s n)[0]?.getD 0)) ?_
        rw [show variantOf s' s.nodes.length =
          variantOf (add_node (add_node s (.ConstantNode (.float 1)
            (graphTypeOf s ((inputsOf s n)[0]?.getD 0))) []).1 .IfThenElseNode
            [(inputsOf s n)[1]?.getD 0, (inputsOf s n)[0]?.getD 0,
             (add_node s (.ConstantNode (.float 1)
               (graphTypeOf s ((inputsOf s n)[0]?.getD 0))) []).2]).1
            (add_node s (.ConstantNode (.float 1)
              (graphTypeOf s ((inputsOf s n)[0]?.getD 0))) []).2
          from variantOf_pre hpn (by rw [hlen1]; omega)]
        exact hvz
    · exact hP6 a (by omega) ha2

/-- One fuel step: `_convert_node` satisfies the conversion
postcondition, assuming the repairs do at lower fuel. -/
theorem L_conv_step (fuel : Nat) (hmulOK : MulOK fuel) (hpowOK : PowOK fuel) :
    ConvOK (fuel + 1) := by
  intro s n x c e s' n' h D hD hDn hsx
  simp only [_convert_node] at h
  obtain ⟨ha1, h⟩ := assert_bind h
  obtain ⟨ha2, h⟩ := assert_bind h
  split_ifs at h with hmul hpow hreal hposr
  · -- malformed multiplication repair
    have hlen2 : 2 ≤ (inputsOf s n).length := by
      have hda := hD.dar n (hD.dlt n hDn)
      rw [hmul.1] at hda
      have harm : arity .MultiplicationNode = 2 := rfl
      omega
    exact hmulOK _ _ _ _ _ _ _ h D hD hDn hsx hlen2
  · -- malformed power repair
    have hlen2 : 2 ≤ (inputsOf s n).length := by
      have hda := hD.dar n (hD.dlt n hDn)
      rw [hpow.1] at hda
      have harp : arity .PowerNode = 2 := rfl
      omega
    exact hpowOK _ _ _ _ _ _ _ h D hD hDn hsx hlen2
  · -- ToReal insertion
    simp only [Except.ok.injEq] at h
    have h2 : add_node s .ToRealNode [n] = (s', n') := h
    have hs' : s' = (add_node s .ToRealNode [n]).1 := by rw [h2]
    have hn' : n' = (add_node s .ToRealNode [n]).2 := by rw [h2]
    subst hs' hn'
    obtain ⟨hv, hi, hg, hit, herr, hpre, hlt⟩ := add_node_spec2 s .ToRealNode [n]
    have hdok := dok_add hD .ToRealNode [n]
      (by
        intro j hj
        simp only [List.mem_cons, List.mem_nil_iff, or_false] at hj
        rw [hj]
        exact hDn)
      rfl
      (fun val' t' heq => by cases heq)
      (by exact gt_toReal_som (graphTypeOf s n))
      (show scalar_or_malformed Real = true by decide)
      (show (Real : BMGLatticeType) ≠ Malformed by decide)
    have hlenX : (add_node s .ToRealNode [n]).1.nodes.length = s.nodes.length + 1 := by
      simp [add_node]
    refine ⟨⟨hpre, by rw [herr]⟩, dok_iff hdok (dx_one _ _ D),
      (dx_one _ _ D _).mpr (Or.inr rfl), ?_, ?_⟩
    · intro hgm
      have hsr : _supremum (graphTypeOf s n) Real = Real := by
        by_cases hq : _supremum (graphTypeOf s n) Real = Real
        · exact hq
        · exfalso
          apply hgm
          rw [hg]
          show (if _supremum (graphTypeOf s n) Real = Real
            then Real else Malformed) = Malformed
          rw [if_neg hq]
      have hgnm : graphTypeOf s n ≠ Malformed := by
        intro hq
        rw [hq, supT_malformed_left] at hsr
        exact absurd hsr (by decide)
      have hgx : graphTypeOf (add_node s .ToRealNode [n]).1
          (add_node s .ToRealNode [n]).2 = Real := by
        rw [hg]
        show (if _supremum (graphTypeOf s n) Real = Real
          then Real else Malformed) = Real
        rw [if_pos hsr]
      have hix : infTypeOf (add_node s .ToRealNode [n]).1
          (add_node s .ToRealNode [n]).2 = Real := hit
      refine ⟨fun _ => ?_, Or.inl (by rw [hix, hgx])⟩
      intro j hj
      have hreqs : reqsOfNode (add_node s .ToRealNode [n]).1
          (add_node s .ToRealNode [n]).2 = [.UpperBound Real] := by
        unfold reqsOfNode
        rw [hv]
        rfl
      rw [hreqs] at hj ⊢
      rw [hi]
      match j, hj with
      | 0, _ =>
        left
        show meets_requirement (graphTypeOf _ n) (.UpperBound Real) = true
        rw [graphTypeOf_pre hpre (hD.dlt n hDn)]
        simp [meets_requirement, hgnm, hsr]
    · intro a ha1 ha2 hane
      exfalso
      rw [hlenX] at ha2
      have hx2 : (add_node s .ToRealNode [n]).2 = s.nodes.length := rfl
      rw [hx2] at hane
      omega
  · -- ToPositiveReal insertion
    simp only [Except.ok.injEq] at h
    have h2 : add_node s .ToPositiveRealNode [n] = (s', n') := h
    have hs' : s' = (add_node s .ToPositiveRealNode [n]).1 := by rw [h2]
    have hn' : n' = (add_node s .ToPositiveRealNode [n]).2 := by rw [h2]
    subst hs' hn'
    obtain ⟨hv, hi, hg, hit, herr, hpre, hlt⟩ :=
      add_node_spec2 s .ToPositiveRealNode [n]
    have hdok := dok_add hD .ToPositiveRealNode [n]
      (by
        intro j hj
        simp only [List.mem_cons, List.mem_nil_iff, or_false] at hj
        rw [hj]
        exact hDn)
      rfl
      (fun val' t' heq => by cases heq)
      (by exact gt_toPos_som (graphTypeOf s n))
      (show scalar_or_malformed PositiveReal = true by decide)
      (show (PositiveReal : BMGLatticeType) ≠ Malformed by decide)
    have hlenX : (add_node s .ToPositiveRealNode [n]).1.nodes.length =
        s.nodes.length + 1 := by
      simp [add_node]
    refine ⟨⟨hpre, by rw [herr]⟩, dok_iff hdok (dx_one _ _ D),
      (dx_one _ _ D _).mpr (Or.inr rfl), ?_, ?_⟩
    · intro hgm
      have hsr : _supremum (graphTypeOf s n) PositiveReal = PositiveReal := by
        by_cases hq : _supremum (graphTypeOf s n) PositiveReal = PositiveReal
        · exact hq
        · exfalso
          apply hgm
          rw [hg]
          show (if _supremum (graphTypeOf s n) PositiveReal = PositiveReal
            then PositiveReal else Malformed) = Malformed
          rw [if_neg hq]
      have hgnm : graphTypeOf s n ≠ Malformed := by
        intro hq
        rw [hq, supT_malformed_left] at hsr
        exact absurd hsr (by decide)
      have hgx : graphTypeOf (add_node s .ToPositiveRealNode [n]).1
          (add_node s .ToPositiveRealNode [n]).2 = PositiveReal := by
        rw [hg]
        show (if _supremum (graphTypeOf s n) PositiveReal = PositiveReal
          then PositiveReal else Malformed) = PositiveReal
        rw [if_pos hsr]
      have hix : infTypeOf (add_node s .ToPositiveRealNode [n]).1
          (add_node s .ToPositiveRealNode [n]).2 = PositiveReal := hit
      refine ⟨fun _ => ?_, Or.inl (by rw [hix, hgx])⟩
      intro j hj
      have hreqs : reqsOfNode (add_node s .ToPositiveRealNode [n]).1
          (add_node s .ToPositiveRealNode [n]).2 = [.UpperBound PositiveReal] := by
        unfold reqsOfNode
        rw [hv]
        rfl
      rw [hreqs] at hj ⊢
      rw [hi]
      match j, hj with
      | 0, _ =>
        left
        show meets_requirement (graphTypeOf _ n) (.UpperBound PositiveReal) = true
        rw [graphTypeOf_pre hpre (hD.dlt n hDn)]
        simp [meets_requirement, hgnm, hsr]
    · intro a ha1 ha2 hane
      exfalso
      rw [hlenX] at ha2
      have hx2 : (add_node s .ToPositiveRealNode [n]).2 = s.nodes.length := rfl
      rw [hx2] at hane
      omega
  · -- natural/probability requirement: build `if node then 1 else 0`
    obtain ⟨ha3, h⟩ := assert_bind h
    obtain ⟨ha4, h⟩ := assert_bind h
    simp only [Except.ok.injEq] at h
    have h2 : add_node (add_node (add_node s (.ConstantNode (.float 0) x) []).1
        (.ConstantNode (.float 1) x) []).1 .IfThenElseNode
        [n, (add_node (add_node s (.ConstantNode (.float 0) x) []).1
          (.ConstantNode (.float 1) x) []).2,
         (add_node s (.ConstantNode (.float 0) x) []).2] = (s', n') := h
    have hs' : s' = (add_node (add_node (add_node s (.ConstantNode (.float 0) x) []).1
        (.ConstantNode (.float 1) x) []).1 .IfThenElseNode
        [n, (add_node (add_node s (.ConstantNode (.float 0) x) []).1
          (.ConstantNode (.float 1) x) []).2,
         (add_node s (.ConstantNode (.float 0) x) []).2]).1 := by rw [h2]
    have hn' : n' = (add_node (add_node (add_node s (.ConstantNode (.float 0) x) []).1
        (.ConstantNode (.float 1) x) []).1 .IfThenElseNode
        [n, (add_node (add_node s (.ConstantNode (.float 0) x) []).1
          (.ConstantNode (.float 1) x) []).2,
         (add_node s (.ConstantNode (.float 0) x) []).2]).2 := by rw [h2]
    subst hs' hn'
    have hx : x ≠ Malformed := by
      rcases of_decide_eq_true ha3 with h3 | h3 <;> (rw [h3]; decide)
    exact build_ite_spec s n x D hD hDn hx hsx

theorem meets_exactly {t u : BMGLatticeType}
    (h : meets_requirement t (.exactly u) = true) : t = u ∧ t ≠ Malformed := by
  unfold meets_requirement at h
  split_ifs at h with hm
  exact ⟨of_decide_eq_true h, hm⟩

theorem meets_nm {t : BMGLatticeType} {r : Requirement}
    (h : meets_requirement t r = true) : t ≠ Malformed := by
  unfold meets_requirement at h
  split_ifs at h with hm
  exact hm

/-- One fuel step: the operator handler satisfies the meet
postcondition, assuming the meet handler and the conversion do at lower
fuel. -/
theorem L_op_step (fuel : Nat) (hmeet : MeetOK fuel) (hconv : ConvOK fuel) :
    OpOK (fuel + 1) := by
  intro s n req c e s' n' h D hD hDn hsom
  simp only [_meet_operator_requirement] at h
  split_ifs at h with h1 h2 h3
  · -- already meets
    simp only [Except.ok.injEq, Prod.mk.injEq] at h
    obtain ⟨rfl, rfl⟩ := h
    exact ⟨Extends.rfl, dok_iff hD (dx_nil (le_refl _) D), Or.inl hDn,
      Or.inl h1, Or.inl rfl, fun a ha1 ha2 => absurd (lt_of_le_of_lt ha1 ha2) (lt_irrefl _)⟩
  · -- convert to the exact requirement / to the inf type
    cases req with
    | exactly t =>
      replace h : (_convert_node fuel s n t c e >>= fun y =>
          assertCond (node_meets_requirement y.1 y.2 (.exactly t)) >>= fun _ =>
          Except.ok y) = Except.ok (s', n') := h
      obtain ⟨p, hp, h⟩ := bind_eq_ok h
      obtain ⟨hassert, h⟩ := assert_bind h
      obtain ⟨p1, p2⟩ := p
      simp only [Except.ok.injEq, Prod.mk.injEq] at h
      obtain ⟨rfl, rfl⟩ := h
      obtain ⟨hext, hdok, hdx, hC4, hC5⟩ :=
        hconv _ _ _ _ _ _ _ hp D hD hDn hsom
      have hgnm := meets_nm hassert
      obtain ⟨hedge', hitfact⟩ := hC4 hgnm
      refine ⟨hext, hdok, hdx, Or.inl hassert, ?_, ?_⟩
      · rcases hitfact with hgt | ⟨hpres, cv', ct', hconst⟩
        · exact Or.inr (Or.inl hgt)
        · exact Or.inr (Or.inr ⟨hpres, cv', ct', hconst⟩)
      · intro a ha1 ha2
        by_cases hc : a = p2
        · rw [hc]
          exact hedge' (hc ▸ ha1)
        · exact hC5 a ha1 ha2 hc
    | UpperBound u =>
      replace h : (_convert_node fuel s n (infTypeOf s n) c e >>= fun y =>
          assertCond (node_meets_requirement y.1 y.2 (.UpperBound u)) >>= fun _ =>
          Except.ok y) = Except.ok (s', n') := h
      obtain ⟨p, hp, h⟩ := bind_eq_ok h
      obtain ⟨hassert, h⟩ := assert_bind h
      obtain ⟨p1, p2⟩ := p
      simp only [Except.ok.injEq, Prod.mk.injEq] at h
      obtain ⟨rfl, rfl⟩ := h
      obtain ⟨hext, hdok, hdx, hC4, hC5⟩ :=
        hconv _ _ _ _ _ _ _ hp D hD hDn (hD.dits n hDn)
      have hgnm := meets_nm hassert
      obtain ⟨hedge', hitfact⟩ := hC4 hgnm
      refine ⟨hext, hdok, hdx, Or.inl hassert, ?_, ?_⟩
      · rcases hitfact with hgt | ⟨hpres, cv', ct', hconst⟩
        · exact Or.inr (Or.inl hgt)
        · exact Or.inr (Or.inr ⟨hpres, cv', ct', hconst⟩)
      · intro a ha1 ha2
        by_cases hc : a = p2
        · rw [hc]
          exact hedge' (hc ▸ ha1)
        · exact hC5 a ha1 ha2 hc
  · -- force to probability
    obtain ⟨p, hp, h⟩ := bind_eq_ok h
    obtain ⟨hassert, h⟩ := assert_bind h
    simp only [Except.ok.injEq] at h
    have h2' : add_node p.1 .ToProbabilityNode [p.2] = (s', n') := h
    have hs' : s' = (add_node p.1 .ToProbabilityNode [p.2]).1 := by rw [h2']
    have hn' : n' = (add_node p.1 .ToProbabilityNode [p.2]).2 := by rw [h2']
    subst hs' hn'
    obtain ⟨⟨hpn, hpe⟩, hdokP, hdxP, hP4, hP5, hP6⟩ :=
      hmeet _ _ _ _ _ _ _ hp D hD hDn (hD.dits n hDn)
    have hitnm := hD.dnm n hDn
    have hP4m : meets_requirement (graphTypeOf p.1 p.2) (.exactly (infTypeOf s n))
        = true := by
      rcases hP4 with hm | ⟨_, _, hnot⟩
      · exact hm
      · exfalso
        have hok : meets_requirement (infTypeOf s n)
            (upper_bound (.exactly (infTypeOf s n))) = true := by
          show meets_requirement (infTypeOf s n)
            (.UpperBound (infTypeOf s n)) = true
          unfold meets_requirement
          rw [if_neg hitnm]
          exact decide_eq_true (by unfold _supremum; rw [if_pos rfl])
        rw [hok] at hnot
        exact absurd hnot (by decide)
    obtain ⟨hgp2, hgp2nm⟩ := meets_exactly hP4m
    obtain ⟨hv, hi, hg, hit, herr, hpre, hlt⟩ :=
      add_node_spec2 p.1 .ToProbabilityNode [p.2]
    have hp2lt : p.2 < p.1.nodes.length := by
      rcases hdxP with hDp | ⟨hw1, hw2⟩
      · exact lt_of_lt_of_le (hD.dlt _ hDp) hpn.length_le
      · exact hw2
    have hdokQ := dok_add hdokP .ToProbabilityNode [p.2]
      (by
        intro j hj
        simp only [List.mem_cons, List.mem_nil_iff, or_false] at hj
        rw [hj]
        exact hdxP)
      rfl
      (fun val' t' heq => by cases heq)
      (by exact gt_toProb_som (graphTypeOf p.1 p.2))
      (show scalar_or_malformed Probability = true by decide)
      (show (Probability : BMGLatticeType) ≠ Malformed by decide)
    have hlenQ : (add_node p.1 .ToProbabilityNode [p.2]).1.nodes.length =
        p.1.nodes.length + 1 := by
      simp [add_node]
    have hslen : s.nodes.length ≤ p.1.nodes.length := hpn.length_le
    have hqpre : p.1.nodes <+: (add_node p.1 .ToProbabilityNode [p.2]).1.nodes := hpre
    have hgqnm : graphTypeOf (add_node p.1 .ToProbabilityNode [p.2]).1
        (add_node p.1 .ToProbabilityNode [p.2]).2 ≠ Malformed := meets_nm hassert
    have hsupP : _supremum (graphTypeOf p.1 p.2) Real = Real := by
      by_cases hq : _supremum (graphTypeOf p.1 p.2) Real = Real
      · exact hq
      · exfalso
        apply hgqnm
        rw [hg]
        show (if _supremum (graphTypeOf p.1 p.2) Real = Real
          then Probability else Malformed) = Malformed
        rw [if_neg hq]
    have hgq : graphTypeOf (add_node p.1 .ToProbabilityNode [p.2]).1
        (add_node p.1 .ToProbabilityNode [p.2]).2 = Probability := by
      rw [hg]
      show (if _supremum (graphTypeOf p.1 p.2) Real = Real
        then Probability else Malformed) = Probability
      rw [if_pos hsupP]
    have hiq : infTypeOf (add_node p.1 .ToProbabilityNode [p.2]).1
        (add_node p.1 .ToProbabilityNode [p.2]).2 = Probability := hit
    refine ⟨⟨(hpn.trans hpre), (hpe.trans (by rw [herr]))⟩,
      ?_, ?_, Or.inl hassert, Or.inr (Or.inl (by rw [hiq, hgq])), ?_⟩
    · refine dok_iff hdokQ ?_
      intro i
      constructor
      · rintro (hDi | ⟨hw1, hw2⟩)
        · exact Or.inl (Or.inl hDi)
        · rw [hlenQ] at hw2
          by_cases hc : i < p.1.nodes.length
          · exact Or.inl (Or.inr ⟨hw1, hc⟩)
          · exact Or.inr (by omega)
      · rintro ((hDi | ⟨hw1, hw2⟩) | h0)
        · exact Or.inl hDi
        · exact Or.inr ⟨hw1, by omega⟩
        · exact Or.inr ⟨by omega, by rw [h0, hlenQ]; omega⟩
    · exact Or.inr ⟨by
        show s.nodes.length ≤ p.1.nodes.length
        omega, by rw [hlenQ]; omega⟩
    · intro a ha1 ha2
      by_cases hc : a < p.1.nodes.length
      · have hin : ∀ j ∈ inputsOf p.1 a, j < p.1.nodes.length := by
          intro j hj
          exact hdokP.dlt j (hdokP.dclosed a (Or.inr ⟨ha1, hc⟩) j hj)
        exact EdgeInv_pre hqpre (by rw [herr]) hc hin
          (le_of_eq (reqsOfNode_len (hdokP.dar a hc))) (hP6 a ha1 hc)
      · have ha' : a = p.1.nodes.length := by
          rw [hlenQ] at ha2
          omega
        subst ha'
        intro j hj
        have hreqs : reqsOfNode (add_node p.1 .ToProbabilityNode [p.2]).1
            p.1.nodes.length = [.UpperBound Real] := by
          unfold reqsOfNode
          have hv' : variantOf (add_node p.1 .ToProbabilityNode [p.2]).1
              p.1.nodes.length = .ToProbabilityNode := hv
          rw [hv']
          rfl
        rw [hreqs] at hj ⊢
        have hi' : inputsOf (add_node p.1 .ToProbabilityNode [p.2]).1
            p.1.nodes.length = [p.2] := hi
        rw [hi']
        match j, hj with
        | 0, _ =>
          left
          show meets_requirement (graphTypeOf _ p.2) (.UpperBound Real) = true
          rw [show graphTypeOf (add_node p.1 .ToProbabilityNode [p.2]).1 p.2 =
            graphTypeOf p.1 p.2 from graphTypeOf_pre hpre hp2lt]
          simp [meets_requirement, hgp2nm, hsupP]
  · -- violation recorded
    simp only [Except.ok.injEq, Prod.mk.injEq] at h
    obtain ⟨rfl, rfl⟩ := h
    refine ⟨⟨List.prefix_refl _, List.prefix_append _ _⟩,
      dok_iff (dok_errors _ hD) (dx_nil (le_refl _) D), Or.inl hDn,
      Or.inr ⟨rfl, List.mem_append_right _ (List.mem_singleton_self _),
        eq_false_of_ne_true h2⟩,
      Or.inl rfl, fun a ha1 ha2 => absurd (lt_of_le_of_lt ha1 ha2) (lt_irrefl _)⟩

/-- One fuel step: `meet_requirement` satisfies the meet postcondition,
assuming the operator handler does at lower fuel. -/
theorem L_meet_step (fuel : Nat) (hop : OpOK fuel) : MeetOK (fuel + 1) := by
  intro s n req c e s' n' h D hD hDn hsom
  simp only [meet_requirement] at h
  split at h
  · exact Except.noConfusion h
  · exact Except.noConfusion h
  · rename_i cv ct heq
    exact L_const h D hD hDn hsom heq
  · rename_i heq
    refine L_dist h D hD hDn ?_
    rw [hD.dgt n hDn, hD.dit n hDn, heq]
    rfl
  · rename_i heq
    refine L_dist h D hD hDn ?_
    rw [hD.dgt n hDn, hD.dit n hDn, heq]
    rfl
  · rename_i heq
    refine L_dist h D hD hDn ?_
    rw [hD.dgt n hDn, hD.dit n hDn, heq]
    rfl
  all_goals exact hop _ _ _ _ _ _ _ h D hD hDn hsom

/-- The complete postcondition bundle of the fixer's mutual handlers, by
induction on fuel. -/
theorem fixer_ok : ∀ fuel, MeetOK fuel ∧ OpOK fuel ∧ ConvOK fuel ∧ MulOK fuel ∧
    PowOK fuel := by
  intro fuel
  induction fuel with
  | zero =>
    refine ⟨?_, ?_, ?_, ?_, ?_⟩ <;>
      (intro s n req c e s' n' h; exact Except.noConfusion h)
  | succ f ih =>
    obtain ⟨hm, ho, hc, hmu, hp⟩ := ih
    exact ⟨L_meet_step f ho, L_op_step f hm hc, L_conv_step f hmu hp,
      L_mul_step f hm, L_pow_step f hm⟩

/-! ### The per-node visit: edge loop and refresh -/

theorem set_input_get_ne (s : GState) (k i n' : Nat) {j : Nat} (hjk : j ≠ k) :
    (set_input s k i n').nodes[j]? = s.nodes[j]? := by
  unfold set_input
  split
  · exact List.getElem?_set_ne (fun h => hjk h.symm)
  · rfl

theorem set_input_len (s : GState) (k i n' : Nat) :
    (set_input s k i n').nodes.length = s.nodes.length := by
  unfold set_input
  split
  · exact List.length_set _ _ _
  · rfl

theorem set_input_errors (s : GState) (k i n' : Nat) :
    (set_input s k i n').errors = s.errors := by
  unfold set_input
  split <;> rfl

theorem refresh_get_ne (s : GState) (k : Nat) {j : Nat} (hjk : j ≠ k) :
    (refresh s k).nodes[j]? = s.nodes[j]? := by
  unfold refresh
  split
  · exact List.getElem?_set_ne (fun h => hjk h.symm)
  · rfl

theorem refresh_len (s : GState) (k : Nat) :
    (refresh s k).nodes.length = s.nodes.length := by
  unfold refresh
  split
  · exact List.length_set _ _ _
  · rfl

theorem refresh_errors (s : GState) (k : Nat) :
    (refresh s k).errors = s.errors := by
  unfold refresh
  split <;> rfl

theorem set_input_at_k {s : GState} {k : Nat} (i n' : Nat)
    (hk : k < s.nodes.length) :
    variantOf (set_input s k i n') k = variantOf s k ∧
    graphTypeOf (set_input s k i n') k = graphTypeOf s k ∧
    infTypeOf (set_input s k i n') k = infTypeOf s k ∧
    inputsOf (set_input s k i n') k = (inputsOf s k).set i n' := by
  obtain ⟨nd, hnd⟩ : ∃ nd, s.nodes[k]? = some nd :=
    ⟨s.nodes[k], List.getElem?_eq_getElem hk⟩
  unfold set_input
  rw [hnd]
  have hset : (s.nodes.set k { nd with inputs := nd.inputs.set i n' })[k]? =
      some { nd with inputs := nd.inputs.set i n' } :=
    List.getElem?_set_self (by simpa using hk)
  refine ⟨?_, ?_, ?_, ?_⟩
  · simp only [variantOf, hset, hnd]
    rfl
  · simp only [graphTypeOf, hset, hnd]
    rfl
  · simp only [infTypeOf, hset, hnd]
    rfl
  · simp only [inputsOf, hset, hnd]
    rfl

theorem refresh_at_k {s : GState} {k : Nat} (hk : k < s.nodes.length) :
    variantOf (refresh s k) k = variantOf s k ∧
    inputsOf (refresh s k) k = inputsOf s k ∧
    graphTypeOf (refresh s k) k =
      graph_type_of (variantOf s k) (gtsOf s (inputsOf s k)) ∧
    infTypeOf (refresh s k) k =
      inf_type_of (variantOf s k) (gtsOf s (inputsOf s k)) (itsOf s (inputsOf s k)) := by
  obtain ⟨nd, hnd⟩ : ∃ nd, s.nodes[k]? = some nd :=
    ⟨s.nodes[k], List.getElem?_eq_getElem hk⟩
  have hva : variantOf s k = nd.variant := by simp [variantOf, hnd]
  have hia : inputsOf s k = nd.inputs := by simp [inputsOf, hnd]
  unfold refresh
  rw [hnd]
  have hset : (s.nodes.set k
      { nd with
        graph_type := graph_type_of nd.variant (gtsOf s nd.inputs)
        inf_type := inf_type_of nd.variant (gtsOf s nd.inputs) (itsOf s nd.inputs) })[k]? =
      some { nd with
        graph_type := graph_type_of nd.variant (gtsOf s nd.inputs)
        inf_type := inf_type_of nd.variant (gtsOf s nd.inputs) (itsOf s nd.inputs) } :=
    List.getElem?_set_self (by simpa using hk)
  refine ⟨?_, ?_, ?_, ?_⟩
  · simp only [variantOf, hset, hnd]
    rfl
  · simp only [inputsOf, hset, hnd]
    rfl
  · simp only [graphTypeOf, hset]
    rw [hva, hia]
    rfl
  · simp only [infTypeOf, hset]
    rw [hva, hia]
    rfl

/-- With scalar-range inputs, every requirement a node states carries a
scalar-range type. -/
theorem reqs_som (v : NodeVariant) (gts its : List BMGLatticeType)
    (hg : ∀ g ∈ gts, scalar_or_malformed g = true)
    (hi : ∀ t ∈ its, scalar_or_malformed t = true) :
    ∀ r ∈ requirements_of v gts its,
      scalar_or_malformed (requirement_to_type r) = true := by
  intro r hr
  unfold requirements_of at hr
  split at hr
  · exact absurd hr (List.not_mem_nil _)
  · simp only [List.mem_cons, List.mem_nil_iff, or_false] at hr
    rw [hr]
    decide
  · simp only [List.mem_cons, List.mem_nil_iff, or_false] at hr
    rcases hr with rfl | rfl <;> decide
  · simp only [List.mem_cons, List.mem_nil_iff, or_false] at hr
    rcases hr with rfl | rfl <;> decide
  · rename_i g d
    simp only [List.mem_cons, List.mem_nil_iff, or_false] at hr
    rw [hr]
    exact hi d (by simp)
  · rename_i g l rr
    simp only [List.mem_cons, List.mem_nil_iff, or_false] at hr
    have hl : scalar_or_malformed l = true := hi l (by simp)
    have hr2 : scalar_or_malformed rr = true := hi rr (by simp)
    rcases hr with rfl | rfl <;>
      exact supT_som (supT_som hl hr2) (by decide)
  · rename_i g l rr
    have hl : scalar_or_malformed l = true := hi l (by simp)
    have hr2 : scalar_or_malformed rr = true := hi rr (by simp)
    split_ifs at hr
    · simp only [List.mem_cons, List.mem_nil_iff, or_false] at hr
      rcases hr with rfl | rfl <;> decide
    · simp only [List.mem_cons, List.mem_nil_iff, or_false] at hr
      rcases hr with rfl | rfl
      · decide
      · exact supT_som hr2 (by decide)
    · simp only [List.mem_cons, List.mem_nil_iff, or_false] at hr
      rcases hr with rfl | rfl
      · exact supT_som hl (by decide)
      · decide
    · simp only [List.mem_cons, List.mem_nil_iff, or_false] at hr
      rcases hr with rfl | rfl <;>
        exact supT_som (supT_som hl hr2) (by decide)
  · rename_i g l rr
    have hl : scalar_or_malformed l = true := hi l (by simp)
    have hr2 : scalar_or_malformed rr = true := hi rr (by simp)
    simp only [List.mem_cons, List.mem_nil_iff, or_false] at hr
    rcases hr with rfl | rfl
    · exact supT_som hl (by decide)
    · by_cases hb : leqBool rr = true
      · rw [if_pos hb]
        decide
      · rw [if_neg hb]
        exact supT_som hr2 (by decide)
  · simp only [List.mem_cons, List.mem_nil_iff, or_false] at hr
    rw [hr]
    decide
  · simp only [List.mem_cons, List.mem_nil_iff, or_false] at hr
    rw [hr]
    decide
  · simp only [List.mem_cons, List.mem_nil_iff, or_false] at hr
    rw [hr]
    decide
  · rename_i cg tg ag ci ti ai
    have hti : scalar_or_malformed ti = true := hi ti (by simp)
    have hai : scalar_or_malformed ai = true := hi ai (by simp)
    simp only [List.mem_cons, List.mem_nil_iff, or_false] at hr
    rcases hr with rfl | rfl | rfl
    · decide
    · exact @it_ite_som cg tg ag ci ti ai hti hai
    · exact @it_ite_som cg tg ag ci ti ai hti hai
  · simp only [List.mem_cons, List.mem_nil_iff, or_false] at hr
    rw [hr]
    decide
  · simp only [List.mem_cons, List.mem_nil_iff, or_false] at hr
    rw [hr]
    decide
  · exact absurd hr (List.not_mem_nil _)

theorem supT_self (t : BMGLatticeType) : _supremum t t = t := by
  unfold _supremum
  rw [if_pos rfl]

/-- The outcome of fixing one edge with requirement `x`: producer types
`(g0, i0)` before, `(g1, i1)` after.  Either the final producer meets the
requirement and its `inf_type` is the original or its own `graph_type`,
or nothing changed and the original's `inf_type` did not even fit below
the requirement. -/
def EOut (x : Requirement) (g0 i0 g1 i1 : BMGLatticeType) : Prop :=
  (meets_requirement g1 x = true ∧ (i1 = i0 ∨ i1 = g1)) ∨
  (g1 = g0 ∧ i1 = i0 ∧ meets_requirement i0 (upper_bound x) = false)

theorem eout_exact {x g0 i0 g1 i1 : BMGLatticeType}
    (h : EOut (.exactly x) g0 i0 g1 i1) :
    (g1 = x ∧ x ≠ Malformed ∧ (i1 = i0 ∨ i1 = x)) ∨
    (g1 = g0 ∧ i1 = i0 ∧ meets_requirement i0 (.UpperBound x) = false) := by
  rcases h with ⟨hm, hi⟩ | ⟨hg, hi, hnm⟩
  · obtain ⟨rfl, hnm⟩ := meets_exactly hm
    exact Or.inl ⟨rfl, hnm, hi⟩
  · exact Or.inr ⟨hg, hi, hnm⟩

theorem meets_ub_false {t u : BMGLatticeType}
    (h : meets_requirement t (.UpperBound u) = false) :
    t = Malformed ∨ _supremum t u ≠ u := by
  unfold meets_requirement at h
  split_ifs at h with hm
  · exact Or.inl hm
  · exact Or.inr (by simpa using h)

/-- Sample-node stability: the fixed operand keeps its `inf_type`. -/
theorem stab_sample {g0 i0 g1 i1 : BMGLatticeType}
    (hsi : scalar_or_malformed i0 = true)
    (hsg : scalar_or_malformed g0 = true)
    (h : EOut (.exactly i0) g0 i0 g1 i1) :
    i1 = i0 ∧ scalar_or_malformed g1 = true := by
  rcases eout_exact h with ⟨rfl, hnm, hi⟩ | ⟨rfl, rfl, _⟩
  · refine ⟨?_, hsi⟩
    rcases hi with rfl | rfl <;> rfl
  · exact ⟨rfl, hsg⟩

theorem addS_som {a b : BMGLatticeType}
    (hsa : scalar_or_malformed a = true) (hna : a ≠ Malformed)
    (hsb : scalar_or_malformed b = true) (hnb : b ≠ Malformed) :
    scalar_or_malformed (_supremum (_supremum a b) PositiveReal) = true ∧
    _supremum (_supremum a b) PositiveReal ≠ Malformed := by
  rcases som_cases hsa with rfl | ⟨c, rfl⟩
  · exact absurd rfl hna
  rcases som_cases hsb with rfl | ⟨c', rfl⟩
  · exact absurd rfl hnb
  revert c c'
  decide

theorem addS_stab {a b a' b' : BMGLatticeType}
    (hsa : scalar_or_malformed a = true) (hna : a ≠ Malformed)
    (hsb : scalar_or_malformed b = true) (hnb : b ≠ Malformed)
    (ha' : a' = a ∨ a' = _supremum (_supremum a b) PositiveReal)
    (hb' : b' = b ∨ b' = _supremum (_supremum a b) PositiveReal) :
    _supremum (_supremum a' b') PositiveReal =
      _supremum (_supremum a b) PositiveReal := by
  rcases som_cases hsa with rfl | ⟨c, rfl⟩
  · exact absurd rfl hna
  rcases som_cases hsb with rfl | ⟨c', rfl⟩
  · exact absurd rfl hnb
  rcases ha' with rfl | rfl <;> rcases hb' with rfl | rfl
  · rfl
  · revert c c'; decide
  · revert c c'; decide
  · revert c c'; decide

/-- The two requirement types of a multiplication, by boolean-operand
branch (the shape of `requirements_of` for `MultiplicationNode`). -/
def mulS1 (a b : BMGLatticeType) : BMGLatticeType :=
  if leqBool a ∧ leqBool b then Boolean
  else if leqBool a then Boolean
  else if leqBool b then _supremum a BMGTypes.Zero
  else _supremum (_supremum a b) Probability

def mulS2 (a b : BMGLatticeType) : BMGLatticeType :=
  if leqBool a ∧ leqBool b then Boolean
  else if leqBool a then _supremum b BMGTypes.Zero
  else if leqBool b then Boolean
  else _supremum (_supremum a b) Probability

theorem mul_reqs_eq (gts : List BMGLatticeType) (l r : BMGLatticeType) :
    requirements_of .MultiplicationNode gts [l, r] =
      [.exactly (mulS1 l r), .exactly (mulS2 l r)] := by
  simp only [requirements_of, mulS1, mulS2]
  split_ifs <;> rfl

theorem mulS_som {a b : BMGLatticeType}
    (hsa : scalar_or_malformed a = true) (hna : a ≠ Malformed)
    (hsb : scalar_or_malformed b = true) (hnb : b ≠ Malformed) :
    (scalar_or_malformed (mulS1 a b) = true ∧ mulS1 a b ≠ Malformed) ∧
    (scalar_or_malformed (mulS2 a b) = true ∧ mulS2 a b ≠ Malformed) := by
  rcases som_cases hsa with rfl | ⟨c, rfl⟩
  · exact absurd rfl hna
  rcases som_cases hsb with rfl | ⟨c', rfl⟩
  · exact absurd rfl hnb
  revert c c'
  decide

theorem mulS_stab {a b a' b' : BMGLatticeType}
    (hsa : scalar_or_malformed a = true) (hna : a ≠ Malformed)
    (hsb : scalar_or_malformed b = true) (hnb : b ≠ Malformed)
    (ha' : a' = a ∨ a' = mulS1 a b) (hb' : b' = b ∨ b' = mulS2 a b) :
    mulS1 a' b' = mulS1 a b ∧ mulS2 a' b' = mulS2 a b := by
  rcases som_cases hsa with rfl | ⟨c, rfl⟩
  · exact absurd rfl hna
  rcases som_cases hsb with rfl | ⟨c', rfl⟩
  · exact absurd rfl hnb
  rcases ha' with rfl | rfl <;> rcases hb' with rfl | rfl
  · exact ⟨rfl, rfl⟩
  · revert c c'; decide
  · revert c c'; decide
  · revert c c'; decide

/-- The multiplication `inf_type` by boolean-operand branch. -/
def mulI (a b : BMGLatticeType) : BMGLatticeType :=
  if leqBool a ∧ leqBool b then Boolean
  else if leqBool a then _supremum b BMGTypes.Zero
  else if leqBool b then _supremum a BMGTypes.Zero
  else _supremum (_supremum a b) Probability

theorem mul_inf_eq (gts : List BMGLatticeType) (l r : BMGLatticeType) :
    inf_type_of .MultiplicationNode gts [l, r] = mulI l r := by
  simp only [inf_type_of, mulI]

theorem mulI_som {a b : BMGLatticeType}
    (hsa : scalar_or_malformed a = true) (hna : a ≠ Malformed)
    (hsb : scalar_or_malformed b = true) (hnb : b ≠ Malformed) :
    scalar_or_malformed (mulI a b) = true ∧ mulI a b ≠ Malformed := by
  rcases som_cases hsa with rfl | ⟨c, rfl⟩
  · exact absurd rfl hna
  rcases som_cases hsb with rfl | ⟨c', rfl⟩
  · exact absurd rfl hnb
  revert c c'
  decide

theorem mulI_stab {a b a' b' : BMGLatticeType}
    (hsa : scalar_or_malformed a = true) (hna : a ≠ Malformed)
    (hsb : scalar_or_malformed b = true) (hnb : b ≠ Malformed)
    (ha' : a' = a ∨ a' = mulS1 a b) (hb' : b' = b ∨ b' = mulS2 a b) :
    mulI a' b' = mulI a b := by
  rcases som_cases hsa with rfl | ⟨c, rfl⟩
  · exact absurd rfl hna
  rcases som_cases hsb with rfl | ⟨c', rfl⟩
  · exact absurd rfl hnb
  rcases ha' with rfl | rfl <;> rcases hb' with rfl | rfl
  · rfl
  · revert c c'; decide
  · revert c c'; decide
  · revert c c'; decide

/-- The two requirement types of a power. -/
def powS1 (a _b : BMGLatticeType) : BMGLatticeType := _supremum a Probability

def powS2 (_a b : BMGLatticeType) : BMGLatticeType :=
  if leqBool b then Boolean else _supremum b PositiveReal

theorem pow_reqs_eq (gts : List BMGLatticeType) (l r : BMGLatticeType) :
    requirements_of .PowerNode gts [l, r] =
      [.exactly (powS1 l r), .exactly (powS2 l r)] := by
  simp only [requirements_of, powS1, powS2]
  split_ifs <;> rfl

theorem powS_som {a b : BMGLatticeType}
    (hsa : scalar_or_malformed a = true) (hna : a ≠ Malformed)
    (hsb : scalar_or_malformed b = true) (hnb : b ≠ Malformed) :
    (scalar_or_malformed (powS1 a b) = true ∧ powS1 a b ≠ Malformed) ∧
    (scalar_or_malformed (powS2 a b) = true ∧ powS2 a b ≠ Malformed) := by
  rcases som_cases hsa with rfl | ⟨c, rfl⟩
  · exact absurd rfl hna
  rcases som_cases hsb with rfl | ⟨c', rfl⟩
  · exact absurd rfl hnb
  revert c c'
  decide

theorem powS_stab {a b a' b' : BMGLatticeType}
    (hsa : scalar_or_malformed a = true) (hna : a ≠ Malformed)
    (hsb : scalar_or_malformed b = true) (hnb : b ≠ Malformed)
    (ha' : a' = a ∨ a' = powS1 a b) (hb' : b' = b ∨ b' = powS2 a b) :
    powS1 a' b' = powS1 a b ∧ powS2 a' b' = powS2 a b := by
  rcases som_cases hsa with rfl | ⟨c, rfl⟩
  · exact absurd rfl hna
  rcases som_cases hsb with rfl | ⟨c', rfl⟩
  · exact absurd rfl hnb
  rcases ha' with rfl | rfl <;> rcases hb' with rfl | rfl
  · exact ⟨rfl, rfl⟩
  · revert c c'; decide
  · revert c c'; decide
  · revert c c'; decide

/-- The power `inf_type` is its base clamped at probability. -/
theorem pow_inf_eq (gts : List BMGLatticeType) (l r : BMGLatticeType) :
    inf_type_of .PowerNode gts [l, r] = _supremum l Probability := rfl

theorem powI_som {a : BMGLatticeType}
    (hsa : scalar_or_malformed a = true) (hna : a ≠ Malformed) :
    scalar_or_malformed (_supremum a Probability) = true ∧
    _supremum a Probability ≠ Malformed := by
  rcases som_cases hsa with rfl | ⟨c, rfl⟩
  · exact absurd rfl hna
  revert c
  decide

theorem ite_inf_eq (cg tg ag ci ti ai : BMGLatticeType) :
    inf_type_of .IfThenElseNode [cg, tg, ag] [ci, ti, ai] =
      (if cg = Boolean ∧ tg = ag ∧ scalar_or_malformed tg then tg
       else _supremum ti ai) := rfl

/-- If-then-else stability: after fixing the three edges, the recomputed
`inf_type` (hence the branch requirement) is unchanged and well formed. -/
theorem stab_ite {cg tg ag ci ti ai cg' tg' ag' ci' ti' ai' : BMGLatticeType}
    (hstg : scalar_or_malformed tg = true)
    (hscg : scalar_or_malformed cg = true)
    (hsag : scalar_or_malformed ag = true)
    (hsti : scalar_or_malformed ti = true) (hnti : ti ≠ Malformed)
    (hsai : scalar_or_malformed ai = true) (hnai : ai ≠ Malformed)
    (hc : EOut (.exactly Boolean) cg ci cg' ci')
    (ht : EOut (.exactly (inf_type_of .IfThenElseNode [cg, tg, ag] [ci, ti, ai]))
      tg ti tg' ti')
    (ha : EOut (.exactly (inf_type_of .IfThenElseNode [cg, tg, ag] [ci, ti, ai]))
      ag ai ag' ai') :
    inf_type_of .IfThenElseNode [cg', tg', ag'] [ci', ti', ai'] =
      inf_type_of .IfThenElseNode [cg, tg, ag] [ci, ti, ai] ∧
    inf_type_of .IfThenElseNode [cg, tg, ag] [ci, ti, ai] ≠ Malformed ∧
    scalar_or_malformed cg' = true ∧ scalar_or_malformed tg' = true ∧
    scalar_or_malformed ag' = true := by
  by_cases hwf : cg = Boolean ∧ tg = ag ∧ scalar_or_malformed tg
  · -- well-formed at visit time: the edges already meet or are untouched
    have hT : inf_type_of .IfThenElseNode [cg, tg, ag] [ci, ti, ai] = tg := by
      rw [ite_inf_eq, if_pos hwf]
    rw [hT] at ht ha ⊢
    have htgnm : tg ≠ Malformed := by
      rcases eout_exact ht with ⟨_, hnm, _⟩ | ⟨_, _, hub⟩
      · exact hnm
      · intro hM
        rcases meets_ub_false hub with h0 | h0
        · exact hnti h0
        · rw [hM, supT_malformed_right] at h0
          exact h0 rfl
    have hcg' : cg' = Boolean := by
      rcases eout_exact hc with ⟨rfl, _, _⟩ | ⟨rfl, _, _⟩
      · rfl
      · exact hwf.1
    have htg' : tg' = tg := by
      rcases eout_exact ht with ⟨rfl, _, _⟩ | ⟨rfl, _, _⟩ <;> rfl
    have hag' : ag' = tg := by
      rcases eout_exact ha with ⟨rfl, _, _⟩ | ⟨rfl, _, _⟩
      · rfl
      · exact hwf.2.1.symm
    refine ⟨?_, htgnm, by rw [hcg']; decide, by rw [htg']; exact hstg,
      by rw [hag']; exact hstg⟩
    rw [ite_inf_eq, if_pos ⟨hcg', by rw [htg', hag'], by rw [htg']; exact hstg⟩, htg']
  · -- malformed at visit time: both branch edges must have been fixed
    have hT : inf_type_of .IfThenElseNode [cg, tg, ag] [ci, ti, ai] =
        _supremum ti ai := by
      rw [ite_inf_eq, if_neg hwf]
    have hTs : scalar_or_malformed (_supremum ti ai) = true := supT_som hsti hsai
    have hTnm : _supremum ti ai ≠ Malformed := supT_nm hsti hnti hsai hnai
    rw [hT] at ht ha ⊢
    have ht' : tg' = _supremum ti ai ∧ (ti' = ti ∨ ti' = _supremum ti ai) := by
      rcases eout_exact ht with ⟨rfl, _, hi⟩ | ⟨_, _, hub⟩
      · exact ⟨rfl, hi⟩
      · exfalso
        rcases meets_ub_false hub with h0 | h0
        · exact hnti h0
        · exact h0 (supT_absorb_left hsti hnti hsai hnai)
    have ha' : ag' = _supremum ti ai ∧ (ai' = ai ∨ ai' = _supremum ti ai) := by
      rcases eout_exact ha with ⟨rfl, _, hi⟩ | ⟨_, _, hub⟩
      · exact ⟨rfl, hi⟩
      · exfalso
        rcases meets_ub_false hub with h0 | h0
        · exact hnai h0
        · exact h0 (supT_absorb_mid hsti hnti hsai hnai)
    have hscg' : scalar_or_malformed cg' = true := by
      rcases eout_exact hc with ⟨rfl, _, _⟩ | ⟨rfl, _, _⟩
      · decide
      · exact hscg
    refine ⟨?_, hTnm, hscg', by rw [ht'.1]; exact hTs, by rw [ha'.1]; exact hTs⟩
    rw [ite_inf_eq]
    by_cases hcb : cg' = Boolean
    · rw [if_pos ⟨hcb, by rw [ht'.1, ha'.1], by rw [ht'.1]; exact hTs⟩, ht'.1]
    · rw [if_neg (fun hand => hcb hand.1)]
      rcases ht'.2 with rfl | rfl <;> rcases ha'.2 with rfl | rfl
      · rfl
      · exact supT_absorb_left hsti hnti hsai hnai
      · exact supT_absorb_right hsti hnti hsai hnai
      · exact supT_self _

/-- Generic transport of `EdgeInv` between states agreeing on the node,
its inputs' caches and (monotonically) on errors. -/
theorem EdgeInv_transport {s u : GState} {m : Nat}
    (hvar : variantOf u m = variantOf s m) (hins : inputsOf u m = inputsOf s m)
    (hg : ∀ j ∈ inputsOf s m, graphTypeOf u j = graphTypeOf s j)
    (hi2 : ∀ j ∈ inputsOf s m, infTypeOf u j = infTypeOf s j)
    (herr : ∀ x ∈ s.errors, x ∈ u.errors)
    (hlen : (reqsOfNode s m).length ≤ (inputsOf s m).length)
    (h : EdgeInv s m) : EdgeInv u m := by
  have hreqs : reqsOfNode u m = reqsOfNode s m := by
    unfold reqsOfNode
    rw [hvar, hins]
    unfold gtsOf itsOf
    rw [List.map_congr_left hg, List.map_congr_left hi2]
  intro j hj
  rw [hreqs] at hj ⊢
  rw [hvar, hins]
  have hmem : (inputsOf s m)[j]?.getD 0 ∈ inputsOf s m :=
    mem_getD (lt_of_lt_of_le hj hlen)
  rcases h j hj with hmeets | hviol
  · left
    rw [hg _ hmem]
    exact hmeets
  · right
    exact herr _ hviol

theorem dok_set_input {s : GState} {D : Nat → Prop} (h : DOk s D) {k : Nat}
    (hkD : ¬ D k) (i n' : Nat) : DOk (set_input s k i n') D := by
  have hne : ∀ m, D m → m ≠ k := fun m hm heq => hkD (heq ▸ hm)
  have hent : ∀ m, D m → (set_input s k i n').nodes[m]? = s.nodes[m]? :=
    fun m hm => set_input_get_ne s k i n' (hne m hm)
  have hvar : ∀ m, D m → variantOf (set_input s k i n') m = variantOf s m := by
    intro m hm
    simp only [variantOf, hent m hm]
  have hinp : ∀ m, D m → inputsOf (set_input s k i n') m = inputsOf s m := by
    intro m hm
    simp only [inputsOf, hent m hm]
  have hgt : ∀ m, D m → graphTypeOf (set_input s k i n') m = graphTypeOf s m := by
    intro m hm
    simp only [graphTypeOf, hent m hm]
  have hit : ∀ m, D m → infTypeOf (set_input s k i n') m = infTypeOf s m := by
    intro m hm
    simp only [infTypeOf, hent m hm]
  have hgts : ∀ m, D m → gtsOf (set_input s k i n') (inputsOf s m) =
      gtsOf s (inputsOf s m) := by
    intro m hm
    unfold gtsOf
    exact List.map_congr_left fun j hj => hgt j (h.dclosed m hm j hj)
  have hits : ∀ m, D m → itsOf (set_input s k i n') (inputsOf s m) =
      itsOf s (inputsOf s m) := by
    intro m hm
    unfold itsOf
    exact List.map_congr_left fun j hj => hit j (h.dclosed m hm j hj)
  refine ⟨?_, ?_, ?_, ?_, ?_, ?_, ?_, ?_, ?_⟩
  · intro m hm
    rw [set_input_len]
    exact h.dlt m hm
  · intro m hm j hj
    rw [hinp m hm] at hj
    exact h.dclosed m hm j hj
  · intro m hm
    rw [hgt m hm, hvar m hm, hinp m hm, hgts m hm]
    exact h.dgt m hm
  · intro m hm
    rw [hit m hm, hvar m hm, hinp m hm, hgts m hm, hits m hm]
    exact h.dit m hm
  · intro m hm
    rw [hgt m hm]
    exact h.dgts m hm
  · intro m hm
    rw [hit m hm]
    exact h.dits m hm
  · intro m hm
    rw [hit m hm]
    exact h.dnm m hm
  · intro m hm
    rw [set_input_len] at hm
    by_cases hc : m = k
    · subst hc
      obtain ⟨hv2, _, _, hi2⟩ := set_input_at_k i n' hm
      rw [hv2, hi2, List.length_set]
      exact h.dar m hm
    · have hent' := set_input_get_ne s k i n' hc
      simp only [variantOf, inputsOf, hent']
      exact h.dar m hm
  · intro m v t hvt
    by_cases hc : m = k
    · subst hc
      by_cases hlt : m < s.nodes.length
      · obtain ⟨hv2, _, _, _⟩ := set_input_at_k i n' hlt
        rw [hv2] at hvt
        exact h.dcv m v t hvt
      · rw [show (set_input s m i n') = s from by
          unfold set_input
          rw [List.getElem?_eq_none (by omega)]] at hvt
        exact h.dcv m v t hvt
    · have hent' := set_input_get_ne s k i n' hc
      rw [show variantOf (set_input s k i n') m = variantOf s m from by
        simp only [variantOf, hent']] at hvt
      exact h.dcv m v t hvt

/-- The invariant of `fix_edges` while visiting node `k`: the settled set
grows only by appended nodes (which already satisfy the edge invariant),
nodes other than `k` are untouched, `k`'s unprocessed slots still hold
the original producers, and every processed slot records its edge
outcome. -/
structure ELInv (sv : GState) (Dv : Nat → Prop) (k i : Nat) (t : GState) : Prop where
  dok : DOk t (Dx sv t Dv)
  len : sv.nodes.length ≤ t.nodes.length
  errs : sv.errors <+: t.errors
  others : ∀ j, j < sv.nodes.length → j ≠ k → t.nodes[j]? = sv.nodes[j]?
  wedge : ∀ a, sv.nodes.length ≤ a → a < t.nodes.length → EdgeInv t a
  kvar : variantOf t k = variantOf sv k
  klen : (inputsOf t k).length = (inputsOf sv k).length
  kunproc : ∀ j, i ≤ j → (inputsOf t k)[j]? = (inputsOf sv k)[j]?
  kproc : ∀ j, j < i → j < (inputsOf sv k).length →
    Dx sv t Dv ((inputsOf t k)[j]?.getD 0) ∧
    EOut ((reqsOfNode sv k)[j]?.getD (.exactly Malformed))
      (graphTypeOf sv ((inputsOf sv k)[j]?.getD 0))
      (infTypeOf sv ((inputsOf sv k)[j]?.getD 0))
      (graphTypeOf t ((inputsOf t k)[j]?.getD 0))
      (infTypeOf t ((inputsOf t k)[j]?.getD 0)) ∧
    (meets_requirement (graphTypeOf t ((inputsOf t k)[j]?.getD 0))
        ((reqsOfNode sv k)[j]?.getD (.exactly Malformed)) = true ∨
      (⟨(inputsOf t k)[j]?.getD 0,
        (reqsOfNode sv k)[j]?.getD (.exactly Malformed), k,
        (edge_labels (variantOf sv k))[j]?.getD ""⟩ : Violation) ∈ t.errors)

/-- The edge loop of a visit preserves the loop invariant through to the
last edge. -/
theorem fix_edges_ok (fuel : Nat) (hM : MeetOK fuel) (sv : GState)
    (Dv : Nat → Prop) (k : Nat) (hDvOK : DOk sv Dv) (hklt : k < sv.nodes.length)
    (hkD : ¬ Dv k) (hinsD : ∀ j ∈ inputsOf sv k, Dv j)
    (hRQlen : (reqsOfNode sv k).length ≤ (inputsOf sv k).length) :
    ∀ rq : List Requirement, ∀ lb : List String, ∀ i : Nat, ∀ t t' : GState,
      rq = (reqsOfNode sv k).drop i →
      lb = (edge_labels (variantOf sv k)).drop i →
      i ≤ (reqsOfNode sv k).length →
      ELInv sv Dv k i t →
      fix_edges fuel t k i rq lb = .ok t' →
      ELInv sv Dv k (reqsOfNode sv k).length t' := by
  intro rq
  induction rq with
  | nil =>
    intro lb i t t' hrq hlb hi inv h
    have hi' : (reqsOfNode sv k).length ≤ i := by
      by_contra hc
      push_neg at hc
      have := congrArg List.length hrq
      rw [List.length_drop] at this
      simp at this
      omega
    have hieq : i = (reqsOfNode sv k).length := le_antisymm hi hi'
    subst hieq
    cases lb with
    | nil =>
      simp only [fix_edges, Except.ok.injEq] at h
      rw [← h]
      exact inv
    | cons l0 lb0 =>
      simp only [fix_edges, Except.ok.injEq] at h
      rw [← h]
      exact inv
  | cons r rest ih =>
    intro lb i t t' hrq hlb hi inv h
    have hilt : i < (reqsOfNode sv k).length := by
      by_contra hc
      push_neg at hc
      rw [List.drop_eq_nil_of_le hc] at hrq
      exact List.noConfusion hrq
    have hrqi : (reqsOfNode sv k)[i]? = some r := by
      have h0 : ((reqsOfNode sv k).drop i)[0]? = some r := by
        rw [← hrq]
        simp
      rwa [List.getElem?_drop, Nat.add_zero] at h0
    have hrest : rest = (reqsOfNode sv k).drop (i + 1) := by
      have h0 : ((reqsOfNode sv k).drop i).tail = (reqsOfNode sv k).drop (i + 1) :=
        List.tail_drop _ _
      rw [← h0, ← hrq]
      rfl
    cases lb with
    | nil =>
      exfalso
      have hlen2 : (edge_labels (variantOf sv k)).length ≤ i := by
        by_contra hc
        push_neg at hc
        have := congrArg List.length hlb
        rw [List.length_drop] at this
        simp at this
        omega
      -- with too few labels fix_edges raises, contradiction with ok
      simp only [fix_edges] at h
      exact Except.noConfusion h
    | cons l0 lb0 =>
      have hlbi : (edge_labels (variantOf sv k))[i]? = some l0 := by
        have h0 : ((edge_labels (variantOf sv k)).drop i)[0]? = some l0 := by
          rw [← hlb]
          simp
        rwa [List.getElem?_drop, Nat.add_zero] at h0
      have hlbrest : lb0 = (edge_labels (variantOf sv k)).drop (i + 1) := by
        have h0 : ((edge_labels (variantOf sv k)).drop i).tail =
            (edge_labels (variantOf sv k)).drop (i + 1) :=
          List.tail_drop _ _
        rw [← h0, ← hlb]
        rfl
      simp only [fix_edges] at h
      obtain ⟨p, hp, h⟩ := bind_eq_ok h
      -- the producer of the edge is the original input, settled before the visit
      have hiins : i < (inputsOf sv k).length := lt_of_lt_of_le hilt hRQlen
      have hinp : (inputsOf t k)[i]? = (inputsOf sv k)[i]? := inv.kunproc i (le_refl i)
      have hinpD : Dv ((inputsOf t k)[i]?.getD 0) := by
        rw [hinp]
        exact hinsD _ (mem_getD hiins)
      have hinplt : (inputsOf t k)[i]?.getD 0 < sv.nodes.length :=
        hDvOK.dlt _ hinpD
      have hinpnek : (inputsOf t k)[i]?.getD 0 ≠ k := fun heq => hkD (heq ▸ hinpD)
      -- requirement types are in the scalar range
      have hsomr : scalar_or_malformed (requirement_to_type r) = true := by
        refine reqs_som (variantOf sv k) (gtsOf sv (inputsOf sv k))
          (itsOf sv (inputsOf sv k)) ?_ ?_ r ?_
        · intro g hg
          obtain ⟨j, hjm, rfl⟩ := List.mem_map.mp hg
          exact hDvOK.dgts j (hinsD j hjm)
        · intro tt htt
          obtain ⟨j, hjm, rfl⟩ := List.mem_map.mp htt
          exact hDvOK.dits j (hinsD j hjm)
        · obtain ⟨hlt2, hre⟩ := List.getElem?_eq_some.mp hrqi
          rw [← hre]
          exact List.getElem_mem _
      obtain ⟨⟨hpn, hpe⟩, hdokP, hdxP, hP4, hP5, hP6⟩ :=
        hM _ _ _ _ _ _ _ hp (Dx sv t Dv) inv.dok (Or.inl hinpD) hsomr
      -- name the post-meet, post-write state
      have hplen : t.nodes.length ≤ p.1.nodes.length := hpn.length_le
      have hdokP' : DOk p.1 (Dx sv p.1 Dv) :=
        dok_iff hdokP (fun a => (dx_trans_iff Dv inv.len hplen a).symm)
      have hkx : ¬ Dx sv p.1 Dv k := by
        rintro (hc | ⟨hc1, hc2⟩)
        · exact hkD hc
        · omega
      have hdokU : DOk (set_input p.1 k i p.2) (Dx sv p.1 Dv) :=
        dok_set_input hdokP' hkx i p.2
      have hulen : (set_input p.1 k i p.2).nodes.length = p.1.nodes.length :=
        set_input_len p.1 k i p.2
      have hkentP : p.1.nodes[k]? = t.nodes[k]? :=
        getp hpn (lt_of_lt_of_le hklt inv.len)
      have hkltP : k < p.1.nodes.length := by
        have h1 := inv.len
        omega
      obtain ⟨husv, husg, husi, husin⟩ := set_input_at_k (s := p.1) (k := k) i p.2 hkltP
      have hscope : ∀ a, Dx sv t Dv a → a ≠ k ∧ a < t.nodes.length := by
        rintro a (hc | ⟨hc1, hc2⟩)
        · exact ⟨fun heq => hkD (heq ▸ hc), lt_of_lt_of_le (hDvOK.dlt a hc) inv.len⟩
        · exact ⟨by omega, hc2⟩
      have hscopeP : ∀ a, Dx sv p.1 Dv a → a ≠ k ∧ a < p.1.nodes.length := by
        rintro a (hc | ⟨hc1, hc2⟩)
        · exact ⟨fun heq => hkD (heq ▸ hc),
            lt_of_lt_of_le (hDvOK.dlt a hc) (le_trans inv.len hplen)⟩
        · exact ⟨by omega, hc2⟩
      have hentU : ∀ a, a ≠ k → (set_input p.1 k i p.2).nodes[a]? = p.1.nodes[a]? :=
        fun a ha => set_input_get_ne p.1 k i p.2 ha
      -- membership of the written handle
      have hdxP2 : Dx sv p.1 Dv p.2 :=
        (dx_trans_iff Dv inv.len hplen p.2).mp hdxP
      have hp2nek : p.2 ≠ k := (hscopeP p.2 hdxP2).1
      have hp2lt : p.2 < p.1.nodes.length := (hscopeP p.2 hdxP2).2
      refine ih lb0 (i + 1) (set_input p.1 k i p.2) t' hrest hlbrest
        (by omega) ?_ h
      refine ⟨?_, ?_, ?_, ?_, ?_, ?_, ?_, ?_, ?_⟩
      · exact dok_iff hdokU (by
          intro a
          unfold Dx
          rw [hulen])
      · rw [hulen]
        exact le_trans inv.len hplen
      · rw [set_input_errors]
        exact inv.errs.trans hpe
      · intro j hj hjk
        rw [hentU j hjk, getp hpn (lt_of_lt_of_le hj inv.len)]
        exact inv.others j hj hjk
      · intro a ha1 ha2
        rw [hulen] at ha2
        have hEp1 : EdgeInv p.1 a := by
          by_cases hc : a < t.nodes.length
          · have hwin : Dx sv t Dv a := Or.inr ⟨ha1, hc⟩
            have hins2 : ∀ j ∈ inputsOf t a, j < t.nodes.length :=
              fun j hj => inv.dok.dlt j (inv.dok.dclosed a hwin j hj)
            exact EdgeInv_pre hpn hpe hc hins2
              (le_of_eq (reqsOfNode_len (inv.dok.dar a hc))) (inv.wedge a ha1 hc)
          · exact hP6 a (by omega) ha2
        have hax : Dx sv p.1 Dv a := Or.inr ⟨ha1, ha2⟩
        have hanek : a ≠ k := (hscopeP a hax).1
        refine EdgeInv_transport ?_ ?_ ?_ ?_ ?_
          (le_of_eq (reqsOfNode_len (hdokP'.dar a ha2))) hEp1
        · simp only [variantOf, hentU a hanek]
        · simp only [inputsOf, hentU a hanek]
        · intro j hj
          have hjx := hdokP'.dclosed a hax j hj
          simp only [graphTypeOf, hentU j (hscopeP j hjx).1]
        · intro j hj
          have hjx := hdokP'.dclosed a hax j hj
          simp only [infTypeOf, hentU j (hscopeP j hjx).1]
        · intro x hx
          rw [set_input_errors]
          exact hx
      · rw [husv]
        show variantOf p.1 k = variantOf sv k
        rw [show variantOf p.1 k = variantOf t k from by
          simp only [variantOf, hkentP]]
        exact inv.kvar
      · rw [husin, List.length_set]
        rw [show inputsOf p.1 k = inputsOf t k from by
          simp only [inputsOf, hkentP]]
        exact inv.klen
      · intro j hj
        rw [husin, List.getElem?_set_ne (by omega)]
        rw [show inputsOf p.1 k = inputsOf t k from by
          simp only [inputsOf, hkentP]]
        exact inv.kunproc j (by omega)
      · intro j hj hj2
        have hinPT : inputsOf p.1 k = inputsOf t k := by
          simp only [inputsOf, hkentP]
        by_cases hc : j = i
        · subst hc
          have hstored : (inputsOf (set_input p.1 k j p.2) k)[j]? = some p.2 := by
            rw [husin]
            refine List.getElem?_set_self ?_
            rw [hinPT, inv.klen]
            exact hj2
          have hstored' : (inputsOf (set_input p.1 k j p.2) k)[j]?.getD 0 = p.2 := by
            rw [hstored]
            rfl
          rw [hstored']
          have hgt2 : graphTypeOf (set_input p.1 k j p.2) p.2 = graphTypeOf p.1 p.2 := by
            simp only [graphTypeOf, hentU p.2 hp2nek]
          have hit2 : infTypeOf (set_input p.1 k j p.2) p.2 = infTypeOf p.1 p.2 := by
            simp only [infTypeOf, hentU p.2 hp2nek]
          have hrget : (reqsOfNode sv k)[j]?.getD (.exactly Malformed) = r := by
            rw [hrqi]
            rfl
          -- types of the producer at call time agree with the visit-start types
          have hinp0 : (inputsOf t k)[j]?.getD 0 = (inputsOf sv k)[j]?.getD 0 := by
            rw [hinp]
          have hentT : t.nodes[(inputsOf t k)[j]?.getD 0]? =
              sv.nodes[(inputsOf t k)[j]?.getD 0]? :=
            inv.others _ hinplt hinpnek
          have hg0 : graphTypeOf t ((inputsOf t k)[j]?.getD 0) =
              graphTypeOf sv ((inputsOf sv k)[j]?.getD 0) := by
            rw [← hinp0]
            simp only [graphTypeOf, hentT]
          have hi0 : infTypeOf t ((inputsOf t k)[j]?.getD 0) =
              infTypeOf sv ((inputsOf sv k)[j]?.getD 0) := by
            rw [← hinp0]
            simp only [infTypeOf, hentT]
          have hmeetpres : ∀ aa, aa < t.nodes.length → aa ≠ k →
              graphTypeOf p.1 aa = graphTypeOf t aa ∧
              infTypeOf p.1 aa = infTypeOf t aa := by
            intro aa h1 _
            constructor
            · simp only [graphTypeOf, getp hpn h1]
            · simp only [infTypeOf, getp hpn h1]
          refine ⟨(dx_trans_iff Dv (le_trans inv.len hplen)
              (le_of_eq hulen.symm) p.2).mp (Or.inl hdxP2), ?_, ?_⟩
          · rw [hrget, hgt2, hit2]
            rcases hP4 with hm | ⟨hpeq, hviol, hnotub⟩
            · left
              refine ⟨hm, ?_⟩
              rcases hP5 with hpeq | hgt | ⟨hpres, _, _, _⟩
              · left
                rw [hpeq]
                rw [← hi0]
                exact (hmeetpres _ (lt_of_lt_of_le hinplt inv.len) hinpnek).2
              · exact Or.inr hgt
              · left
                rw [hpres, hi0]
            · right
              rw [hpeq]
              refine ⟨?_, ?_, ?_⟩
              · rw [← hg0]
                exact (hmeetpres _ (lt_of_lt_of_le hinplt inv.len) hinpnek).1
              · rw [← hi0]
                exact (hmeetpres _ (lt_of_lt_of_le hinplt inv.len) hinpnek).2
              · rw [← hi0]
                exact hnotub
          · rcases hP4 with hm | ⟨hpeq, hviol, hnotub⟩
            · left
              rw [hrget, hgt2]
              exact hm
            · right
              rw [set_input_errors, hrget]
              have hl0 : (edge_labels (variantOf sv k))[j]?.getD "" = l0 := by
                rw [hlbi]
                rfl
              rw [hl0, hpeq]
              exact hviol
        · -- an earlier edge: its record is untouched
          obtain ⟨hmem0, hEOut0, hmv0⟩ := inv.kproc j (by omega) hj2
          have hsl : (inputsOf (set_input p.1 k i p.2) k)[j]? = (inputsOf t k)[j]? := by
            rw [husin, List.getElem?_set_ne (fun hh => hc hh.symm), hinPT]
          have hstored := hsl
          have hpnek := (hscope _ hmem0).1
          have hplt2 := (hscope _ hmem0).2
          have hgt2 : graphTypeOf (set_input p.1 k i p.2)
              ((inputsOf (set_input p.1 k i p.2) k)[j]?.getD 0) =
              graphTypeOf t ((inputsOf t k)[j]?.getD 0) := by
            rw [hsl]
            simp only [graphTypeOf, hentU _ hpnek, getp hpn hplt2]
          have hit2 : infTypeOf (set_input p.1 k i p.2)
              ((inputsOf (set_input p.1 k i p.2) k)[j]?.getD 0) =
              infTypeOf t ((inputsOf t k)[j]?.getD 0) := by
            rw [hsl]
            simp only [infTypeOf, hentU _ hpnek, getp hpn hplt2]
          refine ⟨?_, ?_, ?_⟩
          · rw [hsl]
            rcases hmem0 with hc2 | ⟨hc2, hc3⟩
            · exact Or.inl hc2
            · exact Or.inr ⟨hc2, by rw [hulen]; omega⟩
          · rw [hgt2, hit2]
            exact hEOut0
          · rw [hgt2, hsl, set_input_errors]
            rcases hmv0 with hm | hv
            · exact Or.inl hm
            · exact Or.inr ((hpe.sublist).subset hv)

/-! ### The node visit: `fix_node` settles the visited handle -/

theorem eout_inf_cases {x g0 i0 g1 i1 : BMGLatticeType}
    (h : EOut (.exactly x) g0 i0 g1 i1) : i1 = i0 ∨ i1 = x := by
  rcases eout_exact h with ⟨_, _, hi⟩ | ⟨_, hi, _⟩
  · exact hi
  · exact Or.inl hi

theorem add_reqs_eq (gts : List BMGLatticeType) (l r : BMGLatticeType) :
    requirements_of .AdditionNode gts [l, r] =
      [.exactly (_supremum (_supremum l r) PositiveReal),
       .exactly (_supremum (_supremum l r) PositiveReal)] := rfl

theorem add_inf_eq (gts : List BMGLatticeType) (l r : BMGLatticeType) :
    inf_type_of .AdditionNode gts [l, r] = _supremum (_supremum l r) PositiveReal := rfl

theorem sample_reqs_eq (gts : List BMGLatticeType) (d : BMGLatticeType) :
    requirements_of .SampleNode gts [d] = [.exactly d] := rfl

theorem ite_reqs_eq (cg tg ag ci ti ai : BMGLatticeType) :
    requirements_of .IfThenElseNode [cg, tg, ag] [ci, ti, ai] =
      [.exactly Boolean,
       .exactly (inf_type_of .IfThenElseNode [cg, tg, ag] [ci, ti, ai]),
       .exactly (inf_type_of .IfThenElseNode [cg, tg, ag] [ci, ti, ai])] := rfl

theorem gt_add_som {l r : BMGLatticeType} (hl : scalar_or_malformed l = true) :
    scalar_or_malformed (graph_type_of .AdditionNode [l, r]) = true := by
  show scalar_or_malformed
    (if l = r ∧ (l = PositiveReal ∨ l = Real) then l else Malformed) = true
  split
  · exact hl
  · rfl

theorem gt_mul_som {l r : BMGLatticeType} (hl : scalar_or_malformed l = true) :
    scalar_or_malformed (graph_type_of .MultiplicationNode [l, r]) = true := by
  show scalar_or_malformed
    (if l = r ∧ (l = Probability ∨ l = PositiveReal ∨ l = Real) then l
     else Malformed) = true
  split
  · exact hl
  · rfl

theorem gt_pow_som {l r : BMGLatticeType} (hl : scalar_or_malformed l = true) :
    scalar_or_malformed (graph_type_of .PowerNode [l, r]) = true := by
  show scalar_or_malformed
    (if (l = Probability ∨ l = PositiveReal ∨ l = Real) ∧
        (r = PositiveReal ∨ r = Real) then l else Malformed) = true
  split
  · exact hl
  · rfl

/-- One visit of `fix_node`: the visited node joins the settled set with
its caches refreshed and coherent, its edge invariant holds, entries away
from `k` are untouched, and every handle the visit appended satisfies the
edge invariant. -/
theorem fix_node_post (fuel : Nat) (hM : MeetOK fuel) {sv : GState}
    {Dv : Nat → Prop} {k : Nat} (hDvOK : DOk sv Dv) (hklt : k < sv.nodes.length)
    (hkD : ¬ Dv k) (hinsD : ∀ j ∈ inputsOf sv k, Dv j)
    {s' : GState} (h : fix_node fuel sv k = .ok s') :
    DOk s' (fun a => (Dv a ∨ (sv.nodes.length ≤ a ∧ a < s'.nodes.length)) ∨ a = k) ∧
    sv.nodes.length ≤ s'.nodes.length ∧
    sv.errors <+: s'.errors ∧
    (∀ j, j < sv.nodes.length → j ≠ k → s'.nodes[j]? = sv.nodes[j]?) ∧
    EdgeInv s' k ∧
    (∀ a, sv.nodes.length ≤ a → a < s'.nodes.length → EdgeInv s' a) := by
  simp only [fix_node] at h
  obtain ⟨t, ht, h⟩ := bind_eq_ok h
  simp only [Except.ok.injEq] at h
  subst h
  have har : (inputsOf sv k).length = arity (variantOf sv k) := hDvOK.dar k hklt
  have hRQlen : (reqsOfNode sv k).length = (inputsOf sv k).length := reqsOfNode_len har
  have inv0 : ELInv sv Dv k 0 sv :=
    ⟨dok_iff hDvOK (fun i => dx_nil (le_refl _) Dv i), le_refl _, List.prefix_refl _,
     fun _ _ _ => rfl,
     fun _ h1 h2 => absurd (lt_of_le_of_lt h1 h2) (lt_irrefl _),
     rfl, rfl, fun _ _ => rfl, fun j hj _ => absurd hj (Nat.not_lt_zero j)⟩
  have inv : ELInv sv Dv k (reqsOfNode sv k).length t :=
    fix_edges_ok fuel hM sv Dv k hDvOK hklt hkD hinsD (le_of_eq hRQlen)
      (reqsOfNode sv k) (edge_labels (variantOf sv k)) 0 sv t
      (List.drop_zero _).symm (List.drop_zero _).symm (Nat.zero_le _) inv0 ht
  have hkltT : k < t.nodes.length := lt_of_lt_of_le hklt inv.len
  obtain ⟨hvu, hiu, hgu0, hitu0⟩ := refresh_at_k hkltT
  have hvar_eq : variantOf t k = variantOf sv k := inv.kvar
  have hDxne : ∀ j0, Dx sv t Dv j0 → j0 ≠ k := by
    rintro j0 (hc | ⟨hc1, _⟩)
    · exact fun he => hkD (he ▸ hc)
    · omega
  have hmemDx : ∀ j0 ∈ inputsOf t k, Dx sv t Dv j0 := by
    intro j0 hmem
    obtain ⟨j, hj, hget⟩ := List.mem_iff_getElem.mp hmem
    have hj2 : j < (inputsOf sv k).length := by rw [← inv.klen]; exact hj
    have h0 := (inv.kproc j (by omega) hj2).1
    rwa [List.getElem?_eq_getElem hj, Option.getD_some, hget] at h0
  have hentu : ∀ {j0 : Nat}, j0 ≠ k → (refresh t k).nodes[j0]? = t.nodes[j0]? :=
    fun hne => refresh_get_ne t k hne
  have hgt_ne : ∀ j0, j0 ≠ k → graphTypeOf (refresh t k) j0 = graphTypeOf t j0 := by
    intro j0 hne
    simp only [graphTypeOf, hentu hne]
  have hit_ne : ∀ j0, j0 ≠ k → infTypeOf (refresh t k) j0 = infTypeOf t j0 := by
    intro j0 hne
    simp only [infTypeOf, hentu hne]
  have hvar_ne : ∀ j0, j0 ≠ k → variantOf (refresh t k) j0 = variantOf t j0 := by
    intro j0 hne
    simp only [variantOf, hentu hne]
  have hins_ne : ∀ j0, j0 ≠ k → inputsOf (refresh t k) j0 = inputsOf t j0 := by
    intro j0 hne
    simp only [inputsOf, hentu hne]
  have hgts_k : gtsOf (refresh t k) (inputsOf t k) = gtsOf t (inputsOf t k) := by
    unfold gtsOf
    exact List.map_congr_left fun j0 hj0 => hgt_ne j0 (hDxne j0 (hmemDx j0 hj0))
  have hits_k : itsOf (refresh t k) (inputsOf t k) = itsOf t (inputsOf t k) := by
    unfold itsOf
    exact List.map_congr_left fun j0 hj0 => hit_ne j0 (hDxne j0 (hmemDx j0 hj0))
  have hru : reqsOfNode (refresh t k) k =
      requirements_of (variantOf sv k) (gtsOf t (inputsOf t k))
        (itsOf t (inputsOf t k)) := by
    unfold reqsOfNode
    rw [hvu, hvar_eq, hiu, hgts_k, hits_k]
  have hgu : graphTypeOf (refresh t k) k =
      graph_type_of (variantOf sv k) (gtsOf t (inputsOf t k)) := by
    rw [hgu0, hvar_eq]
  have hitu : infTypeOf (refresh t k) k =
      inf_type_of (variantOf sv k) (gtsOf t (inputsOf t k))
        (itsOf t (inputsOf t k)) := by
    rw [hitu0, hvar_eq]
  have hedge : ∀ j, j < (inputsOf sv k).length →
      Dx sv t Dv ((inputsOf t k)[j]?.getD 0) ∧
      EOut ((reqsOfNode sv k)[j]?.getD (.exactly Malformed))
        (graphTypeOf sv ((inputsOf sv k)[j]?.getD 0))
        (infTypeOf sv ((inputsOf sv k)[j]?.getD 0))
        (graphTypeOf t ((inputsOf t k)[j]?.getD 0))
        (infTypeOf t ((inputsOf t k)[j]?.getD 0)) ∧
      (meets_requirement (graphTypeOf t ((inputsOf t k)[j]?.getD 0))
          ((reqsOfNode sv k)[j]?.getD (.exactly Malformed)) = true ∨
        (⟨(inputsOf t k)[j]?.getD 0, (reqsOfNode sv k)[j]?.getD (.exactly Malformed),
          k, (edge_labels (variantOf sv k))[j]?.getD ""⟩ : Violation) ∈ t.errors) :=
    fun j hj => inv.kproc j (by omega) hj
  have key : reqsOfNode (refresh t k) k = reqsOfNode sv k ∧
      scalar_or_malformed (graphTypeOf (refresh t k) k) = true ∧
      scalar_or_malformed (infTypeOf (refresh t k) k) = true ∧
      infTypeOf (refresh t k) k ≠ Malformed := by
    cases hvv : variantOf sv k with
    | ConstantNode val ty =>
      refine ⟨?_, ?_, ?_, ?_⟩
      · rw [hru]
        unfold reqsOfNode
        rw [hvv]
        rfl
      · rw [hgu, hvv]
        show scalar_or_malformed ty = true
        exact inv.dok.dcv k val ty (by rw [hvar_eq, hvv])
      · rw [hitu, hvv]
        show scalar_or_malformed (type_of_value val) = true
        exact type_of_value_som val
      · rw [hitu, hvv]
        show type_of_value val ≠ Malformed
        exact type_of_value_nm val
    | BernoulliNode =>
      refine ⟨?_, ?_, ?_, ?_⟩
      · rw [hru]
        unfold reqsOfNode
        rw [hvv]
        rfl
      · rw [hgu, hvv]
        rfl
      · rw [hitu, hvv]
        rfl
      · rw [hitu, hvv]
        show (Boolean : BMGLatticeType) ≠ Malformed
        decide
    | BetaNode =>
      refine ⟨?_, ?_, ?_, ?_⟩
      · rw [hru]
        unfold reqsOfNode
        rw [hvv]
        rfl
      · rw [hgu, hvv]
        rfl
      · rw [hitu, hvv]
        rfl
      · rw [hitu, hvv]
        show (Probability : BMGLatticeType) ≠ Malformed
        decide
    | BinomialNode =>
      refine ⟨?_, ?_, ?_, ?_⟩
      · rw [hru]
        unfold reqsOfNode
        rw [hvv]
        rfl
      · rw [hgu, hvv]
        rfl
      · rw [hitu, hvv]
        rfl
      · rw [hitu, hvv]
        show (Natural : BMGLatticeType) ≠ Malformed
        decide
    | SampleNode =>
      rw [hvv] at har
      have har2 : (inputsOf sv k).length = 1 := har
      obtain ⟨a, hab⟩ := List.length_eq_one.mp har2
      obtain ⟨a1, hab1⟩ := List.length_eq_one.mp (inv.klen.trans har2)
      have hDva : Dv a := hinsD a (by rw [hab]; exact List.mem_cons_self _ _)
      have hRQ : reqsOfNode sv k = [.exactly (infTypeOf sv a)] := by
        unfold reqsOfNode
        rw [hvv, hab]
        rfl
      obtain ⟨hDx0, hE0, _⟩ := hedge 0 (by omega)
      simp only [hab, hab1, hRQ, List.getElem?_cons_zero, Option.getD_some]
        at hDx0 hE0
      have hsamp := stab_sample (hDvOK.dits a hDva) (hDvOK.dgts a hDva) hE0
      refine ⟨?_, ?_, ?_, ?_⟩
      · rw [hru, hvv, hab1, hRQ]
        show [Requirement.exactly (infTypeOf t a1)] = [.exactly (infTypeOf sv a)]
        rw [hsamp.1]
      · rw [hgu, hvv, hab1]
        show scalar_or_malformed (graphTypeOf t a1) = true
        exact inv.dok.dgts a1 hDx0
      · rw [hitu, hvv, hab1]
        show scalar_or_malformed (infTypeOf t a1) = true
        exact inv.dok.dits a1 hDx0
      · rw [hitu, hvv, hab1]
        show infTypeOf t a1 ≠ Malformed
        exact inv.dok.dnm a1 hDx0
    | AdditionNode =>
      rw [hvv] at har
      have har2 : (inputsOf sv k).length = 2 := har
      obtain ⟨a, b, hab⟩ := List.length_eq_two.mp har2
      obtain ⟨a1, b1, hab1⟩ := List.length_eq_two.mp (inv.klen.trans har2)
      have hDva : Dv a := hinsD a (by rw [hab]; exact List.mem_cons_self _ _)
      have hDvb : Dv b := hinsD b (by rw [hab]; simp)
      have hRQ : reqsOfNode sv k =
          [.exactly (_supremum (_supremum (infTypeOf sv a) (infTypeOf sv b))
             PositiveReal),
           .exactly (_supremum (_supremum (infTypeOf sv a) (infTypeOf sv b))
             PositiveReal)] := by
        unfold reqsOfNode
        rw [hvv, hab]
        rfl
      obtain ⟨hDx0, hE0, _⟩ := hedge 0 (by omega)
      obtain ⟨hDx1, hE1, _⟩ := hedge 1 (by omega)
      simp only [hab, hab1, hRQ, List.getElem?_cons_zero, List.getElem?_cons_succ,
        Option.getD_some] at hDx0 hE0 hDx1 hE1
      have hst := addS_stab (hDvOK.dits a hDva) (hDvOK.dnm a hDva)
        (hDvOK.dits b hDvb) (hDvOK.dnm b hDvb)
        (eout_inf_cases hE0) (eout_inf_cases hE1)
      refine ⟨?_, ?_, ?_, ?_⟩
      · rw [hru, hvv, hab1, hRQ]
        show [Requirement.exactly (_supremum (_supremum (infTypeOf t a1)
                (infTypeOf t b1)) PositiveReal),
              Requirement.exactly (_supremum (_supremum (infTypeOf t a1)
                (infTypeOf t b1)) PositiveReal)] = _
        rw [hst]
      · rw [hgu, hvv, hab1]
        exact gt_add_som (inv.dok.dgts a1 hDx0)
      · rw [hitu, hvv, hab1]
        exact (addS_som (inv.dok.dits a1 hDx0) (inv.dok.dnm a1 hDx0)
          (inv.dok.dits b1 hDx1) (inv.dok.dnm b1 hDx1)).1
      · rw [hitu, hvv, hab1]
        exact (addS_som (inv.dok.dits a1 hDx0) (inv.dok.dnm a1 hDx0)
          (inv.dok.dits b1 hDx1) (inv.dok.dnm b1 hDx1)).2
    | MultiplicationNode =>
      rw [hvv] at har
      have har2 : (inputsOf sv k).length = 2 := har
      obtain ⟨a, b, hab⟩ := List.length_eq_two.mp har2
      obtain ⟨a1, b1, hab1⟩ := List.length_eq_two.mp (inv.klen.trans har2)
      have hDva : Dv a := hinsD a (by rw [hab]; exact List.mem_cons_self _ _)
      have hDvb : Dv b := hinsD b (by rw [hab]; simp)
      have hRQ : reqsOfNode sv k =
          [.exactly (mulS1 (infTypeOf sv a) (infTypeOf sv b)),
           .exactly (mulS2 (infTypeOf sv a) (infTypeOf sv b))] := by
        unfold reqsOfNode
        rw [hvv, hab]
        simp only [gtsOf, itsOf, List.map_cons, List.map_nil]
        rw [mul_reqs_eq]
      obtain ⟨hDx0, hE0, _⟩ := hedge 0 (by omega)
      obtain ⟨hDx1, hE1, _⟩ := hedge 1 (by omega)
      simp only [hab, hab1, hRQ, List.getElem?_cons_zero, List.getElem?_cons_succ,
        Option.getD_some] at hDx0 hE0 hDx1 hE1
      obtain ⟨hm1, hm2⟩ := mulS_stab (hDvOK.dits a hDva) (hDvOK.dnm a hDva)
        (hDvOK.dits b hDvb) (hDvOK.dnm b hDvb)
        (eout_inf_cases hE0) (eout_inf_cases hE1)
      refine ⟨?_, ?_, ?_, ?_⟩
      · rw [hru, hvv, hab1, hRQ]
        simp only [gtsOf, itsOf, List.map_cons, List.map_nil]
        rw [mul_reqs_eq, hm1, hm2]
      · rw [hgu, hvv, hab1]
        exact gt_mul_som (inv.dok.dgts a1 hDx0)
      · rw [hitu, hvv, hab1]
        exact (mulI_som (inv.dok.dits a1 hDx0) (inv.dok.dnm a1 hDx0)
          (inv.dok.dits b1 hDx1) (inv.dok.dnm b1 hDx1)).1
      · rw [hitu, hvv, hab1]
        exact (mulI_som (inv.dok.dits a1 hDx0) (inv.dok.dnm a1 hDx0)
          (inv.dok.dits b1 hDx1) (inv.dok.dnm b1 hDx1)).2
    | PowerNode =>
      rw [hvv] at har
      have har2 : (inputsOf sv k).length = 2 := har
      obtain ⟨a, b, hab⟩ := List.length_eq_two.mp har2
      obtain ⟨a1, b1, hab1⟩ := List.length_eq_two.mp (inv.klen.trans har2)
      have hDva : Dv a := hinsD a (by rw [hab]; exact List.mem_cons_self _ _)
      have hDvb : Dv b := hinsD b (by rw [hab]; simp)
      have hRQ : reqsOfNode sv k =
          [.exactly (powS1 (infTypeOf sv a) (infTypeOf sv b)),
           .exactly (powS2 (infTypeOf sv a) (infTypeOf sv b))] := by
        unfold reqsOfNode
        rw [hvv, hab]
        simp only [gtsOf, itsOf, List.map_cons, List.map_nil]
        rw [pow_reqs_eq]
      obtain ⟨hDx0, hE0, _⟩ := hedge 0 (by omega)
      obtain ⟨hDx1, hE1, _⟩ := hedge 1 (by omega)
      simp only [hab, hab1, hRQ, List.getElem?_cons_zero, List.getElem?_cons_succ,
        Option.getD_some] at hDx0 hE0 hDx1 hE1
      obtain ⟨hm1, hm2⟩ := powS_stab (hDvOK.dits a hDva) (hDvOK.dnm a hDva)
        (hDvOK.dits b hDvb) (hDvOK.dnm b hDvb)
        (eout_inf_cases hE0) (eout_inf_cases hE1)
      refine ⟨?_, ?_, ?_, ?_⟩
      · rw [hru, hvv, hab1, hRQ]
        simp only [gtsOf, itsOf, List.map_cons, List.map_nil]
        rw [pow_reqs_eq, hm1, hm2]
      · rw [hgu, hvv, hab1]
        exact gt_pow_som (inv.dok.dgts a1 hDx0)
      · rw [hitu, hvv, hab1]
        exact (powI_som (inv.dok.dits a1 hDx0) (inv.dok.dnm a1 hDx0)).1
      · rw [hitu, hvv, hab1]
        exact (powI_som (inv.dok.dits a1 hDx0) (inv.dok.dnm a1 hDx0)).2
    | ToRealNode =>
      rw [hvv] at har
      have har2 : (inputsOf sv k).length = 1 := har
      obtain ⟨a1, hab1⟩ := List.length_eq_one.mp (inv.klen.trans har2)
      refine ⟨?_, ?_, ?_, ?_⟩
      · rw [hru]
        unfold reqsOfNode
        rw [hvv]
        rfl
      · rw [hgu, hvv, hab1]
        exact gt_toReal_som (graphTypeOf t a1)
      · rw [hitu, hvv]
        rfl
      · rw [hitu, hvv]
        show (Real : BMGLatticeType) ≠ Malformed
        decide
    | ToPositiveRealNode =>
      rw [hvv] at har
      have har2 : (inputsOf sv k).length = 1 := har
      obtain ⟨a1, hab1⟩ := List.length_eq_one.mp (inv.klen.trans har2)
      refine ⟨?_, ?_, ?_, ?_⟩
      · rw [hru]
        unfold reqsOfNode
        rw [hvv]
        rfl
      · rw [hgu, hvv, hab1]
        exact gt_toPos_som (graphTypeOf t a1)
      · rw [hitu, hvv]
        rfl
      · rw [hitu, hvv]
        show (PositiveReal : BMGLatticeType) ≠ Malformed
        decide
    | ToProbabilityNode =>
      rw [hvv] at har
      have har2 : (inputsOf sv k).length = 1 := har
      obtain ⟨a1, hab1⟩ := List.length_eq_one.mp (inv.klen.trans har2)
      refine ⟨?_, ?_, ?_, ?_⟩
      · rw [hru]
        unfold reqsOfNode
        rw [hvv]
        rfl
      · rw [hgu, hvv, hab1]
        exact gt_toProb_som (graphTypeOf t a1)
      · rw [hitu, hvv]
        rfl
      · rw [hitu, hvv]
        show (Probability : BMGLatticeType) ≠ Malformed
        decide
    | IfThenElseNode =>
      rw [hvv] at har
      have har2 : (inputsOf sv k).length = 3 := har
      obtain ⟨c, p, q, hab⟩ := List.length_eq_three.mp har2
      obtain ⟨c1, p1, q1, hab1⟩ := List.length_eq_three.mp (inv.klen.trans har2)
      have hDvc : Dv c := hinsD c (by rw [hab]; exact List.mem_cons_self _ _)
      have hDvp : Dv p := hinsD p (by rw [hab]; simp)
      have hDvq : Dv q := hinsD q (by rw [hab]; simp)
      have hRQ : reqsOfNode sv k =
          [.exactly Boolean,
           .exactly (inf_type_of .IfThenElseNode
             [graphTypeOf sv c, graphTypeOf sv p, graphTypeOf sv q]
             [infTypeOf sv c, infTypeOf sv p, infTypeOf sv q]),
           .exactly (inf_type_of .IfThenElseNode
             [graphTypeOf sv c, graphTypeOf sv p, graphTypeOf sv q]
             [infTypeOf sv c, infTypeOf sv p, infTypeOf sv q])] := by
        unfold reqsOfNode
        rw [hvv, hab]
        rfl
      obtain ⟨hDx0, hE0, _⟩ := hedge 0 (by omega)
      obtain ⟨hDx1, hE1, _⟩ := hedge 1 (by omega)
      obtain ⟨hDx2, hE2, _⟩ := hedge 2 (by omega)
      simp only [hab, hab1, hRQ, List.getElem?_cons_zero, List.getElem?_cons_succ,
        Option.getD_some] at hDx0 hE0 hDx1 hE1 hDx2 hE2
      obtain ⟨hIeq, hInm, _, hstg1, _⟩ := stab_ite (hDvOK.dgts p hDvp)
        (hDvOK.dgts c hDvc) (hDvOK.dgts q hDvq)
        (hDvOK.dits p hDvp) (hDvOK.dnm p hDvp)
        (hDvOK.dits q hDvq) (hDvOK.dnm q hDvq) hE0 hE1 hE2
      refine ⟨?_, ?_, ?_, ?_⟩
      · rw [hru, hvv, hab1, hRQ]
        simp only [gtsOf, itsOf, List.map_cons, List.map_nil]
        rw [ite_reqs_eq, hIeq]
      · rw [hgu, hvv, hab1]
        exact gt_ite_som hstg1
      · rw [hitu, hvv, hab1]
        exact it_ite_som (inv.dok.dits p1 hDx1) (inv.dok.dits q1 hDx2)
      · rw [hitu, hvv, hab1]
        show inf_type_of .IfThenElseNode
          [graphTypeOf t c1, graphTypeOf t p1, graphTypeOf t q1]
          [infTypeOf t c1, infTypeOf t p1, infTypeOf t q1] ≠ Malformed
        rw [hIeq]
        exact hInm
    | ObservationNode val =>
      rw [hvv] at har
      have har2 : (inputsOf sv k).length = 1 := har
      obtain ⟨a1, hab1⟩ := List.length_eq_one.mp (inv.klen.trans har2)
      obtain ⟨hDx0, _, _⟩ := hedge 0 (by omega)
      simp only [hab1, List.getElem?_cons_zero, Option.getD_some] at hDx0
      refine ⟨?_, ?_, ?_, ?_⟩
      · rw [hru]
        unfold reqsOfNode
        rw [hvv]
        rfl
      · rw [hgu, hvv, hab1]
        show scalar_or_malformed (graphTypeOf t a1) = true
        exact inv.dok.dgts a1 hDx0
      · rw [hitu, hvv, hab1]
        show scalar_or_malformed (infTypeOf t a1) = true
        exact inv.dok.dits a1 hDx0
      · rw [hitu, hvv, hab1]
        show infTypeOf t a1 ≠ Malformed
        exact inv.dok.dnm a1 hDx0
    | QueryNode =>
      rw [hvv] at har
      have har2 : (inputsOf sv k).length = 1 := har
      obtain ⟨a1, hab1⟩ := List.length_eq_one.mp (inv.klen.trans har2)
      obtain ⟨hDx0, _, _⟩ := hedge 0 (by omega)
      simp only [hab1, List.getElem?_cons_zero, Option.getD_some] at hDx0
      refine ⟨?_, ?_, ?_, ?_⟩
      · rw [hru]
        unfold reqsOfNode
        rw [hvv]
        rfl
      · rw [hgu, hvv, hab1]
        show scalar_or_malformed (graphTypeOf t a1) = true
        exact inv.dok.dgts a1 hDx0
      · rw [hitu, hvv, hab1]
        show scalar_or_malformed (infTypeOf t a1) = true
        exact inv.dok.dits a1 hDx0
      · rw [hitu, hvv, hab1]
        show infTypeOf t a1 ≠ Malformed
        exact inv.dok.dnm a1 hDx0
  obtain ⟨hstab, hsgt, hsit, hnmit⟩ := key
  have hdokU : DOk (refresh t k) (fun a => Dx sv t Dv a ∨ a = k) := by
    refine ⟨?_, ?_, ?_, ?_, ?_, ?_, ?_, ?_, ?_⟩
    · rintro i (hi | rfl)
      · rw [refresh_len]
        exact inv.dok.dlt i hi
      · rw [refresh_len]
        exact hkltT
    · rintro i (hi | rfl) j hj
      · rw [hins_ne i (hDxne i hi)] at hj
        exact Or.inl (inv.dok.dclosed i hi j hj)
      · rw [hiu] at hj
        exact Or.inl (hmemDx j hj)
    · rintro i (hi | rfl)
      · have hne := hDxne i hi
        rw [hgt_ne i hne, hvar_ne i hne, hins_ne i hne]
        have hgts2 : gtsOf (refresh t k) (inputsOf t i) = gtsOf t (inputsOf t i) := by
          unfold gtsOf
          exact List.map_congr_left fun j0 hj0 =>
            hgt_ne j0 (hDxne j0 (inv.dok.dclosed i hi j0 hj0))
        rw [hgts2]
        exact inv.dok.dgt i hi
      · rw [hvu, hiu, hgts_k]
        exact hgu0
    · rintro i (hi | rfl)
      · have hne := hDxne i hi
        rw [hit_ne i hne, hvar_ne i hne, hins_ne i hne]
        have hgts2 : gtsOf (refresh t k) (inputsOf t i) = gtsOf t (inputsOf t i) := by
          unfold gtsOf
          exact List.map_congr_left fun j0 hj0 =>
            hgt_ne j0 (hDxne j0 (inv.dok.dclosed i hi j0 hj0))
        have hits2 : itsOf (refresh t k) (inputsOf t i) = itsOf t (inputsOf t i) := by
          unfold itsOf
          exact List.map_congr_left fun j0 hj0 =>
            hit_ne j0 (hDxne j0 (inv.dok.dclosed i hi j0 hj0))
        rw [hgts2, hits2]
        exact inv.dok.dit i hi
      · rw [hvu, hiu, hgts_k, hits_k]
        exact hitu0
    · rintro i (hi | rfl)
      · rw [hgt_ne i (hDxne i hi)]
        exact inv.dok.dgts i hi
      · exact hsgt
    · rintro i (hi | rfl)
      · rw [hit_ne i (hDxne i hi)]
        exact inv.dok.dits i hi
      · exact hsit
    · rintro i (hi | rfl)
      · rw [hit_ne i (hDxne i hi)]
        exact inv.dok.dnm i hi
      · exact hnmit
    · intro i hilt
      rw [refresh_len] at hilt
      by_cases hc : i = k
      · subst hc
        rw [hiu, hvu]
        exact inv.dok.dar i hilt
      · rw [hins_ne i hc, hvar_ne i hc]
        exact inv.dok.dar i hilt
    · intro i val ty hvt
      by_cases hc : i = k
      · subst hc
        rw [hvu] at hvt
        exact inv.dok.dcv i val ty hvt
      · rw [hvar_ne i hc] at hvt
        exact inv.dok.dcv i val ty hvt
  have hEk : EdgeInv (refresh t k) k := by
    intro j hj
    rw [hstab] at hj ⊢
    have hj2 : j < (inputsOf sv k).length := by omega
    obtain ⟨hDxj, _, hMVj⟩ := hedge j hj2
    have hlab : edge_labels (variantOf (refresh t k) k) =
        edge_labels (variantOf sv k) := by
      rw [hvu, hvar_eq]
    rw [hiu, hlab, refresh_errors, hgt_ne _ (hDxne _ hDxj)]
    exact hMVj
  have hwin : ∀ a, sv.nodes.length ≤ a → a < t.nodes.length →
      EdgeInv (refresh t k) a := by
    intro a ha1 ha2
    have hak : a ≠ k := by omega
    have hclosed : ∀ j0 ∈ inputsOf t a, Dx sv t Dv j0 :=
      inv.dok.dclosed a (Or.inr ⟨ha1, ha2⟩)
    refine EdgeInv_transport (hvar_ne a hak) (hins_ne a hak)
      (fun j0 hj0 => hgt_ne j0 (hDxne j0 (hclosed j0 hj0)))
      (fun j0 hj0 => hit_ne j0 (hDxne j0 (hclosed j0 hj0)))
      (fun x hx => by rw [refresh_errors]; exact hx)
      (le_of_eq (reqsOfNode_len (inv.dok.dar a ha2))) (inv.wedge a ha1 ha2)
  refine ⟨?_, ?_, ?_, ?_, hEk, ?_⟩
  · refine dok_iff hdokU ?_
    intro a
    unfold Dx
    rw [refresh_len]
  · rw [refresh_len]
    exact inv.len
  · rw [refresh_errors]
    exact inv.errs
  · intro j hjl hjk
    rw [hentu hjk]
    exact inv.others j hjl hjk
  · intro a ha1 ha2
    rw [refresh_len] at ha2
    exact hwin a ha1 ha2

/-! ### The outer traversal and claim C1 -/

/-- The settled set while traversing: originals already visited (below
the cursor `c`) plus every handle the fixer appended. -/
def DOut (s0 : GState) (s : GState) (c : Nat) : Nat → Prop :=
  fun a => a < c ∨ (s0.nodes.length ≤ a ∧ a < s.nodes.length)

/-- A constant node's concrete type is in the scalar range (trivially
true for every other variant) — the well-formedness assumption on the
input graph's constants. -/
def const_type_ok : NodeVariant → Bool
  | .ConstantNode _ t => scalar_or_malformed t
  | _ => true

/-- The outer loop invariant of `fix_problems`: the settled handles carry
the `DOk` bundle and the edge invariant, and the not-yet visited original
entries are untouched. -/
structure NVInv (s0 s : GState) (c : Nat) : Prop where
  dok : DOk s (DOut s0 s c)
  len : s0.nodes.length ≤ s.nodes.length
  untouched : ∀ j, c ≤ j → j < s0.nodes.length → s.nodes[j]? = s0.nodes[j]?
  einv : ∀ a, DOut s0 s c a → EdgeInv s a

/-- The traversal from cursor `c` over the remaining originals carries
the outer invariant to the end. -/
theorem fix_nodes_ok (fuel : Nat) (hM : MeetOK fuel) (s0 : GState)
    (htopo : ∀ i, i < s0.nodes.length → ∀ j ∈ inputsOf s0 i, j < i) :
    ∀ (m c : Nat), c + m = s0.nodes.length →
      ∀ (s s' : GState), NVInv s0 s c →
      fix_nodes fuel s (List.range' c m) = .ok s' →
      NVInv s0 s' s0.nodes.length := by
  intro m
  induction m with
  | zero =>
    intro c hc s s' hinv h
    rw [show List.range' c 0 = [] from rfl] at h
    simp only [fix_nodes, Except.ok.injEq] at h
    subst h
    have hc' : c = s0.nodes.length := by omega
    subst hc'
    exact hinv
  | succ m ih =>
    intro c hc s s' hinv h
    rw [List.range'_succ c m 1] at h
    simp only [fix_nodes] at h
    obtain ⟨t, ht, h⟩ := bind_eq_ok h
    have hclt : c < s0.nodes.length := by omega
    have hclt' : c < s.nodes.length := lt_of_lt_of_le hclt hinv.len
    have hkD : ¬ DOut s0 s c c := by
      rintro (h1 | ⟨h1, _⟩)
      · omega
      · omega
    have hins_eq : inputsOf s c = inputsOf s0 c := by
      simp only [inputsOf, hinv.untouched c (le_refl c) hclt]
    have hinsD : ∀ j ∈ inputsOf s c, DOut s0 s c j := by
      intro j hj
      rw [hins_eq] at hj
      exact Or.inl (htopo c hclt j hj)
    obtain ⟨hdok, hlen, herr, hoth, hEk, hwin⟩ :=
      fix_node_post fuel hM hinv.dok hclt' hkD hinsD ht
    have hane : ∀ j0, DOut s0 s c j0 → j0 ≠ c := by
      intro j0 hj0
      rcases hj0 with h1 | ⟨h1, _⟩ <;> omega
    have hent : ∀ j0, DOut s0 s c j0 → t.nodes[j0]? = s.nodes[j0]? :=
      fun j0 hj0 => hoth j0 (hinv.dok.dlt j0 hj0) (hane j0 hj0)
    have htrans : ∀ a, DOut s0 s c a → EdgeInv t a := by
      intro a hDa
      have halt : a < s.nodes.length := hinv.dok.dlt a hDa
      refine EdgeInv_transport ?_ ?_ ?_ ?_ ?_
        (le_of_eq (reqsOfNode_len (hinv.dok.dar a halt))) (hinv.einv a hDa)
      · simp only [variantOf, hent a hDa]
      · simp only [inputsOf, hent a hDa]
      · intro j0 hj0
        simp only [graphTypeOf, hent j0 (hinv.dok.dclosed a hDa j0 hj0)]
      · intro j0 hj0
        simp only [infTypeOf, hent j0 (hinv.dok.dclosed a hDa j0 hj0)]
      · intro x hx
        exact herr.sublist.subset hx
    refine ih (c + 1) (by omega) t s' ⟨dok_iff hdok ?_, le_trans hinv.len hlen,
      ?_, ?_⟩ h
    · intro a
      have hl1 := hinv.len
      unfold DOut
      constructor
      · rintro (h1 | ⟨h1, h2⟩)
        · rcases Nat.lt_succ_iff_lt_or_eq.mp h1 with h1 | rfl
          · exact Or.inl (Or.inl (Or.inl h1))
          · exact Or.inr rfl
        · exact Or.inl (by omega)
      · rintro ((((h1 | ⟨h1, h2⟩) | ⟨h1, h2⟩)) | rfl)
        · exact Or.inl (by omega)
        · exact Or.inr ⟨h1, by omega⟩
        · exact Or.inr ⟨by omega, h2⟩
        · exact Or.inl (by omega)
    · intro j hj1 hj2
      rw [hoth j (lt_of_lt_of_le hj2 hinv.len) (by omega)]
      exact hinv.untouched j (by omega) hj2
    · intro a hDa
      rcases hDa with h1 | ⟨h1, h2⟩
      · rcases Nat.lt_succ_iff_lt_or_eq.mp h1 with h1 | rfl
        · exact htrans a (Or.inl h1)
        · exact hEk
      · by_cases hc2 : a < s.nodes.length
        · exact htrans a (Or.inr ⟨h1, hc2⟩)
        · exact hwin a (by omega) h2

/-- Claim C1: after `fix_problems` has run on a graph — inputs
topologically ordered, constructor arities respected, constant types in
the scalar range — for every node and every input edge `j` of that node,
either the `graph_type` of the producer stored in `inputs[j]` meets the
edge's declared requirement (per `meets_requirement`), or the
`ErrorReport` accumulated by the fixer contains a `Violation` naming that
producer, that requirement, that consumer and that edge label. -/
theorem fix_problems_edge_requirements (fuel : Nat) (s0 s' : GState)
    (htopo : ∀ i, i < s0.nodes.length → ∀ j ∈ inputsOf s0 i, j < i)
    (har : ∀ i, i < s0.nodes.length →
      (inputsOf s0 i).length = arity (variantOf s0 i))
    (hcs : ∀ i, i < s0.nodes.length → const_type_ok (variantOf s0 i) = true)
    (hok : fix_problems fuel s0 = .ok s') :
    ∀ m, m < s'.nodes.length → ∀ j, j < (inputsOf s' m).length →
      meets_requirement (graphTypeOf s' ((inputsOf s' m)[j]?.getD 0))
        ((reqsOfNode s' m)[j]?.getD (.exactly Malformed)) = true ∨
      (⟨(inputsOf s' m)[j]?.getD 0, (reqsOfNode s' m)[j]?.getD (.exactly Malformed),
        m, (edge_labels (variantOf s' m))[j]?.getD ""⟩ : Violation) ∈ s'.errors := by
  have hdcv : ∀ i v t, variantOf s0 i = .ConstantNode v t →
      scalar_or_malformed t = true := by
    intro i v ty hv
    by_cases hi : i < s0.nodes.length
    · have h0 := hcs i hi
      rw [hv] at h0
      exact h0
    · have hnone : s0.nodes[i]? = none := List.getElem?_eq_none (by omega)
      rw [show variantOf s0 i = .QueryNode from by simp [variantOf, hnone]] at hv
      exact NodeVariant.noConfusion hv
  have hempty : ∀ i, ¬ DOut s0 s0 0 i := by
    rintro i (h1 | ⟨h1, h2⟩)
    · omega
    · omega
  have hinv0 : NVInv s0 s0 0 :=
    ⟨⟨fun i hi => absurd hi (hempty i), fun i hi => absurd hi (hempty i),
      fun i hi => absurd hi (hempty i), fun i hi => absurd hi (hempty i),
      fun i hi => absurd hi (hempty i), fun i hi => absurd hi (hempty i),
      fun i hi => absurd hi (hempty i), har, hdcv⟩,
     le_refl _, fun _ _ _ => rfl, fun a ha => absurd ha (hempty a)⟩
  unfold fix_problems at hok
  rw [List.range_eq_range' s0.nodes.length] at hok
  have hfin := fix_nodes_ok fuel (fixer_ok fuel).1 s0 htopo s0.nodes.length 0
    (by omega) s0 s' hinv0 hok
  intro m hm j hj
  have hD : DOut s0 s' s0.nodes.length m := by
    by_cases h1 : m < s0.nodes.length
    · exact Or.inl h1
    · exact Or.inr ⟨by omega, hm⟩
  have hlen2 : (reqsOfNode s' m).length = (inputsOf s' m).length :=
    reqsOfNode_len (hfin.dok.dar m hm)
  exact hfin.einv m hD j (by omega)

/-- A concrete four-node graph for the C1 witness: a probability
constant, a `Bernoulli` over it, a sample of that distribution and a
query of the sample, with coherent caches (so the fixer leaves it
unchanged). -/
def C1G0 : GState :=
  ⟨[⟨.ConstantNode (.int 1) Probability, [], Probability, BMGTypes.One⟩,
    ⟨.BernoulliNode, [0], Boolean, Boolean⟩,
    ⟨.SampleNode, [1], Boolean, Boolean⟩,
    ⟨.QueryNode, [2], Boolean, Boolean⟩], []⟩

/-- Witness for C1: on the concrete graph `C1G0` the run succeeds and
the `Bernoulli` node's probability edge meets its requirement (or is
reported), instantiating the theorem at consumer 1, edge 0. -/
theorem fix_problems_edge_requirements_witness :
    meets_requirement (graphTypeOf C1G0 ((inputsOf C1G0 1)[0]?.getD 0))
      ((reqsOfNode C1G0 1)[0]?.getD (.exactly Malformed)) = true ∨
    (⟨(inputsOf C1G0 1)[0]?.getD 0,
      (reqsOfNode C1G0 1)[0]?.getD (.exactly Malformed),
      1, (edge_labels (variantOf C1G0 1))[0]?.getD ""⟩ : Violation) ∈ C1G0.errors :=
  fix_problems_edge_requirements 20 C1G0 C1G0 (by decide) (by decide) (by decide)
    (by decide) 1 (by decide) 0 (by decide)

/-- A requirement's concrete type always meets the requirement itself
(when well formed). -/
theorem meets_requirement_rt (req : Requirement)
    (h : requirement_to_type req ≠ Malformed) :
    meets_requirement (requirement_to_type req) req = true := by
  cases req with
  | exactly u =>
    simp only [requirement_to_type] at h ⊢
    simp [meets_requirement, h]
  | UpperBound u =>
    simp only [requirement_to_type] at h ⊢
    simp [meets_requirement, h, supT_self]

/-- Claim C6.  `_meet_constant_requirement` on a constant producer:
if the constant's type already meets the requirement it is returned
unchanged; otherwise, if its `inf_type` meets the upper bound of the
requirement, a constant of the required concrete type with the same value
is created and returned with no error recorded; otherwise a
`Violation(node, requirement, consumer, edge)` is appended to the report
and the original constant returned unchanged. -/
theorem meet_constant_requirement_cases (s : GState) (n : Nat)
    (req : Requirement) (c : Nat) (e : String) (v : Value) (t : BMGLatticeType)
    (hn : variantOf s n = .ConstantNode v t)
    (hrt : requirement_to_type req ≠ Malformed) :
    (node_meets_requirement s n req = true →
      _meet_constant_requirement s n req c e = .ok (s, n)) ∧
    (node_meets_requirement s n req = false →
      type_meets_requirement (infTypeOf s n) (upper_bound req) = true →
      _meet_constant_requirement s n req c e =
        .ok (add_constant_of_type s v (requirement_to_type req)) ∧
      variantOf (add_constant_of_type s v (requirement_to_type req)).1
          (add_constant_of_type s v (requirement_to_type req)).2 =
        .ConstantNode v (requirement_to_type req) ∧
      graphTypeOf (add_constant_of_type s v (requirement_to_type req)).1
          (add_constant_of_type s v (requirement_to_type req)).2 =
        requirement_to_type req ∧
      (add_constant_of_type s v (requirement_to_type req)).1.errors = s.errors) ∧
    (node_meets_requirement s n req = false →
      type_meets_requirement (infTypeOf s n) (upper_bound req) = false →
      _meet_constant_requirement s n req c e =
        .ok ({ s with errors := s.errors ++ [⟨n, req, c, e⟩] }, n)) := by
  have hval : valueOf s n = v := by simp [valueOf, hn]
  have hspec := add_node_spec2 s (.ConstantNode v (requirement_to_type req)) []
  have hgtr : graphTypeOf (add_constant_of_type s v (requirement_to_type req)).1
      (add_constant_of_type s v (requirement_to_type req)).2 =
      requirement_to_type req := by
    show graphTypeOf (add_node s (.ConstantNode v (requirement_to_type req)) []).1
      (add_node s (.ConstantNode v (requirement_to_type req)) []).2 = _
    rw [hspec.2.2.1]
    rfl
  refine ⟨?_, ?_, ?_⟩
  · intro h1
    unfold _meet_constant_requirement
    rw [if_pos h1]
  · intro h1 h2
    have hmm : ¬(node_meets_requirement s n req = true) := by simp [h1]
    have hassert : node_meets_requirement
        (add_constant_of_type s v (requirement_to_type req)).1
        (add_constant_of_type s v (requirement_to_type req)).2 req = true := by
      unfold node_meets_requirement
      rw [hgtr]
      exact meets_requirement_rt req hrt
    have hkey : _meet_constant_requirement s n req c e =
        .ok (add_constant_of_type s v (requirement_to_type req)) := by
      simp only [_meet_constant_requirement, h1, h2, hval,
        add_constant_of_matrix_type, ite_self, Bool.false_eq_true, if_false,
        if_true, hassert, assertCond, if_pos, Except.bind]
      rfl
    refine ⟨hkey, hspec.1, hgtr, hspec.2.2.2.2.1⟩
  · intro h1 h2
    have hmm : ¬(node_meets_requirement s n req = true) := by simp [h1]
    have hm2 : ¬(type_meets_requirement (infTypeOf s n) (upper_bound req) = true) := by
      simp [h2]
    unfold _meet_constant_requirement
    rw [if_neg hmm, if_neg hm2]

/-- Witness for `meet_constant_requirement_cases`: the graph is a single
natural constant `3`; the requirement `Exact(Real)` is not met
(`Natural ≠ Real`) but the inf type `Natural` fits under `Real`, so the
middle branch synthesizes `Real(3.0)`. -/
theorem meet_constant_requirement_cases_witness :
    (variantOf ⟨[⟨.ConstantNode (.int 3) BMGTypes.Natural, [],
        BMGTypes.Natural, BMGTypes.Natural⟩], []⟩ 0 =
      .ConstantNode (.int 3) BMGTypes.Natural ∧
      requirement_to_type (.exactly Real) ≠ Malformed) ∧
    (node_meets_requirement ⟨[⟨.ConstantNode (.int 3) BMGTypes.Natural, [],
        BMGTypes.Natural, BMGTypes.Natural⟩], []⟩ 0 (.exactly Real) = false →
      type_meets_requirement (infTypeOf ⟨[⟨.ConstantNode (.int 3) BMGTypes.Natural,
        [], BMGTypes.Natural, BMGTypes.Natural⟩], []⟩ 0)
        (upper_bound (.exactly Real)) = true →
      _meet_constant_requirement ⟨[⟨.ConstantNode (.int 3) BMGTypes.Natural, [],
        BMGTypes.Natural, BMGTypes.Natural⟩], []⟩ 0 (.exactly Real) 1 "operand" =
        .ok (add_constant_of_type ⟨[⟨.ConstantNode (.int 3) BMGTypes.Natural, [],
          BMGTypes.Natural, BMGTypes.Natural⟩], []⟩ (.int 3)
          (requirement_to_type (.exactly Real))) ∧
      variantOf (add_constant_of_type ⟨[⟨.ConstantNode (.int 3) BMGTypes.Natural,
          [], BMGTypes.Natural, BMGTypes.Natural⟩], []⟩ (.int 3)
          (requirement_to_type (.exactly Real))).1
        (add_constant_of_type ⟨[⟨.ConstantNode (.int 3) BMGTypes.Natural, [],
          BMGTypes.Natural, BMGTypes.Natural⟩], []⟩ (.int 3)
          (requirement_to_type (.exactly Real))).2 =
        .ConstantNode (.int 3) (requirement_to_type (.exactly Real)) ∧
      graphTypeOf (add_constant_of_type ⟨[⟨.ConstantNode (.int 3) BMGTypes.Natural,
          [], BMGTypes.Natural, BMGTypes.Natural⟩], []⟩ (.int 3)
          (requirement_to_type (.exactly Real))).1
        (add_constant_of_type ⟨[⟨.ConstantNode (.int 3) BMGTypes.Natural, [],
          BMGTypes.Natural, BMGTypes.Natural⟩], []⟩ (.int 3)
          (requirement_to_type (.exactly Real))).2 =
        requirement_to_type (.exactly Real) ∧
      (add_constant_of_type ⟨[⟨.ConstantNode (.int 3) BMGTypes.Natural, [],
          BMGTypes.Natural, BMGTypes.Natural⟩], []⟩ (.int 3)
          (requirement_to_type (.exactly Real))).1.errors = []) ∧
    node_meets_requirement ⟨[⟨.ConstantNode (.int 3) BMGTypes.Natural, [],
      BMGTypes.Natural, BMGTypes.Natural⟩], []⟩ 0 (.exactly Real) = false :=
  ⟨⟨by decide, by decide⟩,
    (meet_constant_requirement_cases
      ⟨[⟨.ConstantNode (.int 3) BMGTypes.Natural, [], BMGTypes.Natural,
        BMGTypes.Natural⟩], []⟩ 0 (.exactly Real) 1 "operand" (.int 3)
      BMGTypes.Natural (by decide) (by decide)).2.1,
    by decide⟩

end Fixer
